import Mathlib

/-!
# cmdline: log-line parser and in-memory query engine

A shallow embedding of `parseLine`, `Filter.Match` and `Query` from
`help/main.go` (the copies in `color/main.go` and `genlogs/main.go` are the
same code), together with executable models of the Go standard-library
functions they call: `strings.Fields`, `strconv.Atoi`, `time.Parse` at the
constant layout `[02/Jan/2006:15:04:05 -0700]`, `strings.Contains` and
`bufio.Scanner` with its default line splitter.

A Go `string` is a sequence of bytes, so it is modelled as `List (Fin 256)`.
A Go call either returns or panics; `Exec` records which.
-/

namespace Cmdline

/-! ## Strings -/

/-- One byte of a Go string. -/
abbrev Byte := Fin 256

/-- A Go string: an immutable sequence of bytes. -/
abbrev GoString := List Byte

/-- The byte with the given value (reduced modulo 256). -/
def byte (n : Nat) : Byte := ⟨n % 256, Nat.mod_lt n (by decide)⟩

/-- UTF-8 encoding of one Unicode scalar value. -/
def encodeRune (n : Nat) : GoString :=
  if n < 0x80 then [byte n]
  else if n < 0x800 then [byte (0xC0 + n / 64), byte (0x80 + n % 64)]
  else if n < 0x10000 then
    [byte (0xE0 + n / 4096), byte (0x80 + n / 64 % 64), byte (0x80 + n % 64)]
  else
    [byte (0xF0 + n / 262144), byte (0x80 + n / 4096 % 64),
     byte (0x80 + n / 64 % 64), byte (0x80 + n % 64)]

/-- The Go string written by a string literal: the UTF-8 bytes of its text. -/
def str (s : String) : GoString :=
  s.data.flatMap fun c => encodeRune c.toNat

/-! ## Outcomes of a Go call -/

/-- A Go run-time panic raised by an index or slice expression. -/
inductive Panic where
  /-- `xs[i]` with `i` outside `0 ≤ i < len(xs)`. -/
  | indexOutOfRange (index : Int) (len : Nat)
  /-- `s[lo:]` with `lo > len(s)`. -/
  | sliceOutOfRange (lo : Nat) (len : Nat)
  /-- `s[:hi]` with `hi` outside `0 ≤ hi ≤ len(s)`. -/
  | sliceToOutOfRange (hi : Int) (len : Nat)
  deriving DecidableEq, Repr

/-- Outcome of running a Go function body: it returns a value or panics. -/
inductive Exec (α : Type) where
  | returns (a : α)
  | panics (p : Panic)
  deriving DecidableEq, Repr

/-- Sequencing: a panic aborts everything after it. -/
def Exec.andThen {α β : Type} (x : Exec α) (k : α → Exec β) : Exec β :=
  match x with
  | .returns a => k a
  | .panics p => .panics p

/-- Go index expression `xs[i]`. -/
def index {α : Type} (xs : List α) (i : Int) : Exec α :=
  if i < 0 then .panics (.indexOutOfRange i xs.length)
  else
    match xs[i.toNat]? with
    | some x => .returns x
    | none => .panics (.indexOutOfRange i xs.length)

/-- Go slice expression `s[lo:]` on a string. -/
def sliceFrom (s : GoString) (lo : Nat) : Exec GoString :=
  if lo ≤ s.length then .returns (s.drop lo) else .panics (.sliceOutOfRange lo s.length)

/-! ## `strings.Fields` -/

/-- The rune `utf8.RuneError`, produced for every byte that does not start a
valid UTF-8 sequence. -/
def RuneError : Nat := 0xFFFD

/-- Is `b` a UTF-8 continuation byte inside `lo ..= hi`? -/
def inRange (lo hi : Nat) (b : Byte) : Bool := decide (lo ≤ b.val) && decide (b.val ≤ hi)

/-- Decoding of two-, three- and four-byte sequences once the first byte `b0`
has fixed the size and the range `lo ..= hi` accepted for the second byte. -/
def decodeMulti (b0 : Byte) (size lo hi : Nat) (rest : GoString) : Nat × Nat :=
  match size, rest with
  | 2, b1 :: _ =>
    if inRange lo hi b1 then ((b0.val % 32) * 64 + b1.val % 64, 2) else (RuneError, 1)
  | 3, b1 :: b2 :: _ =>
    if inRange lo hi b1 && inRange 0x80 0xBF b2 then
      ((b0.val % 16) * 4096 + (b1.val % 64) * 64 + b2.val % 64, 3)
    else (RuneError, 1)
  | 4, b1 :: b2 :: b3 :: _ =>
    if inRange lo hi b1 && inRange 0x80 0xBF b2 && inRange 0x80 0xBF b3 then
      ((b0.val % 8) * 262144 + (b1.val % 64) * 4096 + (b2.val % 64) * 64 + b3.val % 64, 4)
    else (RuneError, 1)
  | _, _ => (RuneError, 1)

/-- Model of `utf8.DecodeRuneInString`: the first rune of `s` and its width in
bytes; an invalid or truncated encoding yields `(RuneError, 1)`, the empty
string `(RuneError, 0)`. -/
def DecodeRuneInString (s : GoString) : Nat × Nat :=
  match s with
  | [] => (RuneError, 0)
  | b0 :: rest =>
    let v := b0.val
    if v < 0x80 then (v, 1)
    else if v < 0xC2 then (RuneError, 1)
    else if v < 0xE0 then decodeMulti b0 2 0x80 0xBF rest
    else if v = 0xE0 then decodeMulti b0 3 0xA0 0xBF rest
    else if v = 0xED then decodeMulti b0 3 0x80 0x9F rest
    else if v < 0xF0 then decodeMulti b0 3 0x80 0xBF rest
    else if v = 0xF0 then decodeMulti b0 4 0x90 0xBF rest
    else if v < 0xF4 then decodeMulti b0 4 0x80 0xBF rest
    else if v = 0xF4 then decodeMulti b0 4 0x80 0x8F rest
    else (RuneError, 1)

/-- Model of `unicode.IsSpace`: the Unicode White_Space property. -/
def IsSpace (r : Nat) : Bool :=
  (decide (0x09 ≤ r) && decide (r ≤ 0x0D)) || r == 0x20 || r == 0x85 || r == 0xA0
    || r == 0x1680 || (decide (0x2000 ≤ r) && decide (r ≤ 0x200A))
    || r == 0x2028 || r == 0x2029 || r == 0x202F || r == 0x205F || r == 0x3000

/-- The field being accumulated, if any, as a list of zero or one fields. -/
def flush (cur : GoString) : List GoString :=
  if cur = [] then [] else [cur]

/-- The rune loop of `strings.FieldsFunc(s, unicode.IsSpace)`: `cur` holds the
bytes of the field that is open (empty when none is), `fuel` bounds the number
of runes still to read. -/
def fieldsLoop : Nat → GoString → GoString → List GoString
  | 0, _, cur => flush cur
  | fuel + 1, s, cur =>
    match s with
    | [] => flush cur
    | _ :: _ =>
      let d := DecodeRuneInString s
      if IsSpace d.1 then flush cur ++ fieldsLoop fuel (s.drop d.2) []
      else fieldsLoop fuel (s.drop d.2) (cur ++ s.take d.2)

/-- Model of `strings.Fields`: the maximal runs of non-space runes of `s`, in
order. (Go's ASCII fast path computes the same list.) -/
def Fields (s : GoString) : List GoString :=
  fieldsLoop s.length s []

/-! ## `strconv.Atoi` -/

/-- The two causes a `*strconv.NumError` can carry here. -/
inductive NumErr where
  /-- `strconv.ErrSyntax`. -/
  | syntaxErr
  /-- `strconv.ErrRange`. -/
  | rangeErr
  deriving DecidableEq, Repr

/-- Go `error` values that `parseLine` and `Query` can return. -/
inductive Error where
  /-- `*strconv.NumError{Func: "Atoi", Num: num, Err: err}`. -/
  | num (num : GoString) (err : NumErr)
  /-- `*time.ParseError` for `value` at the layout of `parseLine`; which layout
  element failed and the message text are not modelled. -/
  | time (value : GoString)
  /-- `fmt.Errorf("%d: %w", lNum, cause)`. -/
  | wrapped (lNum : Nat) (cause : Error)
  /-- `bufio.ErrTooLong`. -/
  | tooLong
  deriving DecidableEq, Repr

/-- Is `c` one of the bytes `'0'` .. `'9'`? -/
def isDigit (c : Byte) : Bool := decide (0x30 ≤ c.val) && decide (c.val ≤ 0x39)

/-- The value of a digit byte. -/
def digitVal (c : Byte) : Nat := c.val - 0x30

/-- Largest `uint64`. -/
def maxUint64 : Nat := 2 ^ 64 - 1

/-- The digit loop of `strconv.ParseUint(s, 10, 64)`, `n` being the value read
so far; `uint64` additions wrap modulo `2 ^ 64`. -/
def parseUintLoop : GoString → Nat → Nat × Option NumErr
  | [], n => (n, none)
  | c :: rest, n =>
    if !isDigit c then (0, some .syntaxErr)
    else if n ≥ maxUint64 / 10 + 1 then (maxUint64, some .rangeErr)
    else
      let n10 := n * 10
      let n1 := (n10 + digitVal c) % 2 ^ 64
      if n1 < n10 || n1 > maxUint64 then (maxUint64, some .rangeErr)
      else parseUintLoop rest n1

/-- Model of `strconv.ParseUint(s, 10, 64)`. -/
def ParseUint (s : GoString) : Nat × Option NumErr :=
  if s = [] then (0, some .syntaxErr) else parseUintLoop s 0

/-- Model of `strconv.ParseInt(s, 10, 0)` on a platform whose `int` has 64 bits. -/
def ParseInt (s : GoString) : Int × Option NumErr :=
  match s with
  | [] => (0, some .syntaxErr)
  | c :: rest =>
    let neg := decide (c = byte 0x2D)
    let digits := if c = byte 0x2B ∨ c = byte 0x2D then rest else s
    match ParseUint digits with
    | (_, some .syntaxErr) => (0, some .syntaxErr)
    | (un, _) =>
      if !neg && decide (un ≥ 2 ^ 63) then ((2 : Int) ^ 63 - 1, some .rangeErr)
      else if neg && decide (un > 2 ^ 63) then (-(2 : Int) ^ 63, some .rangeErr)
      else (if neg then -(un : Int) else (un : Int), none)

/-- The digit loop of the fast path of `strconv.Atoi`: `ch -= '0'` is byte
arithmetic, so a byte below `'0'` wraps to a value above 9. -/
def atoiFastLoop : GoString → Nat → Option Nat
  | [], n => some n
  | ch :: rest, n =>
    let d := (ch.val + 256 - 0x30) % 256
    if d > 9 then none else atoiFastLoop rest (n * 10 + d)

/-- Model of `strconv.Atoi` (64-bit `int`): the value and the error returned. -/
def Atoi (s : GoString) : Int × Option Error :=
  if 0 < s.length ∧ s.length < 19 then
    match s with
    | [] => (0, some (.num s .syntaxErr))
    | c :: rest =>
      let signed := decide (c = byte 0x2D ∨ c = byte 0x2B)
      let digits := if signed then rest else s
      if signed && decide (digits.length < 1) then (0, some (.num s .syntaxErr))
      else
        match atoiFastLoop digits 0 with
        | none => (0, some (.num s .syntaxErr))
        | some n => (if c = byte 0x2D then -(n : Int) else (n : Int), none)
  else
    match ParseInt s with
    | (i, some e) => (i, some (.num s e))
    | (i, none) => (i, none)

/-! ## `time.Time`, `time.Date` and `time.Parse` -/

/-- The location a `time.Time` carries. `time.Parse` attaches the zone read
from the input (or `time.Local` when that has the same offset); both are
represented by the offset in seconds. -/
inductive Location where
  /-- UTC, Go's `nil` location. -/
  | utc
  /-- A zone at `offset` seconds east of UTC. -/
  | zone (offset : Int)
  deriving DecidableEq, Repr

/-- A `time.Time` without monotonic clock reading: `ext` is the number of
seconds since January 1 of year 1, 00:00:00 UTC, `wall` the nanoseconds within
the second. -/
structure Time where
  wall : Nat
  ext : Int
  loc : Location
  deriving DecidableEq, Repr

/-- The zero value `time.Time{}`. -/
def Time.zero : Time := ⟨0, 0, .utc⟩

/-- Method `t.UTC()`: the same instant with the location set to UTC. -/
def Time.UTC (t : Time) : Time := { t with loc := .utc }

/-- Method `t.Unix()`: seconds since January 1, 1970 UTC. -/
def Time.Unix (t : Time) : Int := t.ext - 62135596800

/-- Go `isLeap`. -/
def isLeap (year : Int) : Bool :=
  year % 4 == 0 && (year % 100 != 0 || year % 400 == 0)

/-- Go `daysBefore[month-1]`: days of a non-leap year before month `month`. -/
def daysBefore (month : Nat) : Nat :=
  [0, 31, 59, 90, 120, 151, 181, 212, 243, 273, 304, 334, 365].getD (month - 1) 0

/-- Go `daysIn(month, year)`. -/
def daysIn (month : Nat) (year : Int) : Nat :=
  if month = 2 ∧ isLeap year then 29 else daysBefore (month + 1) - daysBefore month

/-- Model of `time.Date(year, month, day, hour, min, sec, nsec, time.UTC)` for
arguments that are already in range (which `time.Parse` has checked): the
days before the year, before the month and before the day, then the seconds of
the day. -/
def Date (year : Int) (month day hour min sec nsec : Nat) : Time :=
  let y := year - 1
  let d : Int := 365 * y + y / 4 - y / 100 + y / 400 + daysBefore month
    + (if isLeap year ∧ 3 ≤ month then 1 else 0) + (day - 1 : Nat)
  ⟨nsec, d * 86400 + (hour * 3600 + min * 60 + sec : Nat), .utc⟩

/-- The layout constant of `parseLine`, `[02/Jan/2006:15:04:05 -0700]`. -/
def layout : GoString := str "[02/Jan/2006:15:04:05 -0700]"

/-- Go `shortMonthNames`. -/
def shortMonthNames : List GoString :=
  ["Jan", "Feb", "Mar", "Apr", "May", "Jun", "Jul", "Aug", "Sep", "Oct", "Nov", "Dec"].map str

/-- Go `cutspace`: drop the leading `' '` bytes. -/
def cutspace : GoString → GoString
  | [] => []
  | c :: rest => if c = byte 0x20 then cutspace rest else c :: rest

/-- The loop of Go `skip(value, prefix)`; `none` stands for `errBad`. -/
def skipLoop : Nat → GoString → GoString → Option GoString
  | 0, value, _ => some value
  | _ + 1, value, [] => some value
  | fuel + 1, value, p :: ps =>
    if p = byte 0x20 then
      match value with
      | v :: _ =>
        if v ≠ byte 0x20 then none else skipLoop fuel (cutspace value) (cutspace (p :: ps))
      | [] => skipLoop fuel [] (cutspace (p :: ps))
    else
      match value with
      | v :: vs => if v = p then skipLoop fuel vs ps else none
      | [] => none

/-- Go `skip(value, prefix)`: remove `prefix` from the front of `value`, a run
of spaces in `prefix` matching any run of spaces in `value`. -/
def skip (value pre : GoString) : Option GoString :=
  skipLoop pre.length value pre

/-- Go `getnum(s, fixed)`: one or two leading digits (exactly two when
`fixed`), and the rest of `s`. -/
def getnum (s : GoString) (fixed : Bool) : Option (Nat × GoString) :=
  match s with
  | [] => none
  | [c0] => if isDigit c0 && !fixed then some (digitVal c0, []) else none
  | c0 :: c1 :: rest =>
    if !isDigit c0 then none
    else if !isDigit c1 then (if fixed then none else some (digitVal c0, c1 :: rest))
    else some (digitVal c0 * 10 + digitVal c1, rest)

/-- Go `match(s1, s2)`: equality of two strings of the same length ignoring
the case of ASCII letters. -/
def matchFold : GoString → GoString → Bool
  | c1 :: s1, c2 :: s2 =>
    (c1 = c2 || (c1.val ||| 0x20 == c2.val ||| 0x20
        && decide (0x61 ≤ c1.val ||| 0x20) && decide (c1.val ||| 0x20 ≤ 0x7A)))
      && matchFold s1 s2
  | _, _ => true

/-- The loop of Go `lookup(tab, val)` from index `i` on: the index of the first
entry of `tab` that `val` starts with, ignoring case, and the rest of `val`. -/
def lookupFrom : List GoString → Nat → GoString → Option (Nat × GoString)
  | [], _, _ => none
  | v :: tab, i, val =>
    if v.length ≤ val.length && matchFold (val.take v.length) v then
      some (i, val.drop v.length)
    else lookupFrom tab (i + 1) val

/-- Go `lookup(tab, val)`. -/
def lookup (tab : List GoString) (val : GoString) : Option (Nat × GoString) :=
  lookupFrom tab 0 val

/-- Go `leadingInt(s)` with `x` the value read so far: the leading digits of
`s` as a number, and the rest; `none` on overflow. -/
def leadingInt : GoString → Nat → Option (Nat × GoString)
  | [], x => some (x, [])
  | c :: rest, x =>
    if !isDigit c then some (x, c :: rest)
    else if x > 2 ^ 63 / 10 then none
    else if x * 10 + digitVal c > 2 ^ 63 then none
    else leadingInt rest (x * 10 + digitVal c)

/-- Go `atoi(s)` of package `time`: an optionally signed run of digits. -/
def atoi (s : GoString) : Option Int :=
  let neg := decide (s.head? = some (byte 0x2D))
  let digits := if s.head? = some (byte 0x2D) ∨ s.head? = some (byte 0x2B) then s.drop 1 else s
  match leadingInt digits 0 with
  | some (q, []) => some (if neg then -(q : Int) else (q : Int))
  | _ => none

/-- Go `commaOrPeriod`. -/
def commaOrPeriod (c : Byte) : Bool := c = byte 0x2E || c = byte 0x2C

/-- Go `parseNanoseconds(value, nbytes)`: `value[0]` is the separator,
`value[1:nbytes]` the digits; at most nine digits count. -/
def parseNanoseconds (value : GoString) (nbytes : Nat) : Option Nat :=
  match value with
  | [] => none
  | c :: _ =>
    if !commaOrPeriod c then none
    else
      let nb := min nbytes 10
      match atoi ((value.take nb).drop 1) with
      | none => none
      | some ns => if ns < 0 then none else some (ns.toNat * 10 ^ (10 - nb))

/-- The number of leading digit bytes of `s`. -/
def digitRun : GoString → Nat
  | [] => 0
  | c :: rest => if isDigit c then digitRun rest + 1 else 0

/-- The seconds element `05` of `time.Parse`: two digits below 60, then, as
the layout has no fractional seconds, an optional fraction in the input (a
comma or period and one or more digits), read as nanoseconds. -/
def parseSeconds (value : GoString) : Option (Nat × Nat × GoString) :=
  match getnum value true with
  | none => none
  | some (sec, value) =>
    if 60 ≤ sec then none
    else
      match value with
      | c :: d :: rest =>
        if commaOrPeriod c && isDigit d then
          let n := 2 + digitRun rest
          match parseNanoseconds value n with
          | none => none
          | some nsec => some (sec, nsec, value.drop n)
        else some (sec, 0, value)
      | _ => some (sec, 0, value)

/-- The zone element `-0700` of `time.Parse`: a sign and four digits, giving
the offset in seconds east of UTC. -/
def parseZone (value : GoString) : Option (Int × GoString) :=
  match value with
  | sign :: h0 :: h1 :: m0 :: m1 :: rest =>
    match getnum [h0, h1] true with
    | none => none
    | some (hr, _) =>
      match getnum [m0, m1] true with
      | none => none
      | some (mm, _) =>
        if hr > 24 ∨ mm > 60 then none
        else
          let zoneOffset : Int := ((hr * 60 + mm) * 60 : Nat)
          if sign = byte 0x2B then some (zoneOffset, rest)
          else if sign = byte 0x2D then some (-zoneOffset, rest)
          else none
  | _ => none

/-- The year element `2006` of `time.Parse`: four bytes, the first a digit,
read by `atoi`. -/
def parseYear (value : GoString) : Option (Int × GoString) :=
  if value.length < 4 then none
  else
    match value with
    | [] => none
    | c :: _ =>
      if !isDigit c then none
      else
        match atoi (value.take 4) with
        | none => none
        | some year => some (year, value.drop 4)

/-- The date elements `[02/Jan/2006` of `time.Parse`: day of the month (two
digits), month (an abbreviated name, matched ignoring case) and year. -/
def parseDate (value : GoString) : Option (Nat × Nat × Int × GoString) :=
  (skip value (str "[")).bind fun value =>
  (getnum value true).bind fun dv =>
  (skip dv.2 (str "/")).bind fun value =>
  (lookup shortMonthNames value).bind fun mv =>
  (skip mv.2 (str "/")).bind fun value =>
  (parseYear value).bind fun yv =>
  some (dv.1, mv.1 + 1, yv.1, yv.2)

/-- The clock elements `:15:04:05` of `time.Parse`: hour (one or two digits,
below 24), minute (two digits, below 60), second and nanoseconds. -/
def parseClock (value : GoString) : Option (Nat × Nat × Nat × Nat × GoString) :=
  (skip value (str ":")).bind fun value =>
  (getnum value false).bind fun hv =>
  if 24 ≤ hv.1 then none else
  (skip hv.2 (str ":")).bind fun value =>
  (getnum value true).bind fun mv =>
  if 60 ≤ mv.1 then none else
  (skip mv.2 (str ":")).bind fun value =>
  (parseSeconds value).bind fun sv =>
  some (hv.1, mv.1, sv.1, sv.2.1, sv.2.2)

/-- The closing elements ` -0700]` of `time.Parse`: the zone offset, the
bracket, and nothing after it. -/
def parseOffset (value : GoString) : Option Int :=
  (skip value (str " ")).bind fun value =>
  (parseZone value).bind fun zv =>
  (skip zv.2 (str "]")).bind fun value =>
  if value ≠ [] then none else some zv.1

/-- The elements of `time.Parse(layout, value)` in the order of the layout
`[02/Jan/2006:15:04:05 -0700]`, followed by the check of the day against the
month; `none` stands for every `*time.ParseError`. The result is
`Date(year, month, day, hour, min, sec, nsec, UTC)` moved back by the zone
offset and placed in that zone. -/
def parseLayout (value : GoString) : Option Time :=
  (parseDate value).bind fun d =>
  (parseClock d.2.2.2).bind fun c =>
  (parseOffset c.2.2.2.2).bind fun zoneOffset =>
  if d.1 < 1 ∨ d.1 > daysIn d.2.1 d.2.2.1 then none
  else
    let t := Date d.2.2.1 d.2.1 d.1 c.1 c.2.1 c.2.2.1 c.2.2.2.1
    some { t with ext := t.ext - zoneOffset, loc := .zone zoneOffset }

/-- Model of `time.Parse(layout, value)` for the layout of `parseLine`: the
time and the error returned. -/
def timeParse (value : GoString) : Time × Option Error :=
  match parseLayout value with
  | some t => (t, none)
  | none => (Time.zero, some (.time value))

/-- Function `parseTime` of genlogs/main.go. -/
def parseTime (s : GoString) : Time × Option Error :=
  match timeParse s with
  | (_, some err) => (Time.zero, some err)
  | (t, none) => (t.UTC, none)

/-! ## The program: `Record`, `parseLine`, `Filter`, `Query` -/

/-- Record is a log record. -/
structure Record where
  Origin : GoString
  Time : Time
  Method : GoString
  Path : GoString
  StatusCode : Int
  Size : Int
  deriving DecidableEq, Repr

/-- The zero value `Record{}`. -/
def Record.zero : Record := ⟨[], Time.zero, [], [], 0, 0⟩

/-- Function `parseLine` of help/main.go: parses a log line. The result is the
pair `(Record, error)` the Go function returns, or the panic it raises. -/
def parseLine (line : GoString) : Exec (Record × Option Error) :=
  let fields := Fields line
  (index fields ((fields.length : Int) - 1)).andThen fun s =>
  let sized : Int × Option Error := if s = str "-" then (0, none) else Atoi s
  match sized with
  | (_, some err) => .returns (Record.zero, some err)
  | (size, none) =>
    (index fields ((fields.length : Int) - 2)).andThen fun s2 =>
    match Atoi s2 with
    | (_, some err) => .returns (Record.zero, some err)
    | (code, none) =>
      (index fields 3).andThen fun f3 =>
      (index fields 4).andThen fun f4 =>
      match timeParse (f3 ++ str " " ++ f4) with
      | (_, some err) => .returns (Record.zero, some err)
      | (t, none) =>
        (index fields 0).andThen fun f0 =>
        (index fields 5).andThen fun f5 =>
        (sliceFrom f5 1).andThen fun method =>
        (index fields 6).andThen fun f6 =>
        .returns
          ({ Origin := f0, Method := method, Path := f6, StatusCode := code,
             Time := t.UTC, Size := size }, none)

/-- Filter is a query filter. -/
structure Filter where
  Path : GoString
  deriving DecidableEq, Repr

/-- The search loop behind `strings.Index`: the offset (counted from `i`) of
the first position of `s` at which `substr` starts, or `-1`. -/
def indexFrom (substr : GoString) : GoString → Nat → Int
  | [], i => if substr = [] then (i : Int) else -1
  | c :: s, i => if substr.isPrefixOf (c :: s) then (i : Int) else indexFrom substr s (i + 1)

/-- Model of `strings.Index(s, substr)`: the byte offset of the first
occurrence of `substr` in `s`, or `-1` when there is none. -/
def Index (s substr : GoString) : Int := indexFrom substr s 0

/-- Model of `strings.Contains(s, substr)`, which is `Index(s, substr) >= 0`. -/
def Contains (s substr : GoString) : Bool := decide (Index s substr ≥ 0)

/-- Method `Filter.Match` of help/main.go: returns true if the filter matches `r`. -/
def Filter.Match (f : Filter) (r : Record) : Bool :=
  Contains r.Path f.Path

/-! ### `bufio.Scanner` with the default split function `ScanLines` -/

/-- Go `bufio.MaxScanTokenSize`: the size the scanner's buffer may grow to. -/
def MaxScanTokenSize : Nat := 64 * 1024

/-- The byte `'\n'`. -/
def newline : Byte := byte 0x0A

/-- The runs of bytes between the `'\n'` bytes of the input: every `'\n'` ends
a line, and a non-empty rest after the last `'\n'` is a last line. -/
def rawLines : GoString → List GoString
  | [] => []
  | b :: rest =>
    if b = newline then [] :: rawLines rest
    else
      match rawLines rest with
      | [] => [[b]]
      | l :: ls => (b :: l) :: ls

/-- Go `dropCR`: drop one terminal `'\r'`. -/
def dropCR (data : GoString) : GoString :=
  if data.getLast? = some (byte 0x0D) then data.dropLast else data

/-- The text lines of a source: its raw lines without their terminal `'\r'`. -/
def lines (src : GoString) : List GoString :=
  (rawLines src).map dropCR

/-- What a scanner delivers for the given raw lines: the tokens `s.Text()` of
the successful `s.Scan()` calls and the final `s.Err()`. The buffer grows to
`MaxScanTokenSize` bytes and no further, so a raw line of that many bytes or
more, which leaves no room for the `'\n'` that would end it, stops the scan
with `bufio.ErrTooLong`; the lines after it are never read. -/
def scanTokens : List GoString → List GoString × Option Error
  | [] => ([], none)
  | l :: ls =>
    if MaxScanTokenSize ≤ l.length then ([], some .tooLong)
    else ((dropCR l) :: (scanTokens ls).1, (scanTokens ls).2)

/-- Model of `bufio.NewScanner(r)` run to the end over a reader that delivers
the bytes `src` without a read error and reports the end of input by a read
of its own, as a file, standard input and `strings.Reader` do. -/
def scan (src : GoString) : List GoString × Option Error :=
  scanTokens (rawLines src)

/-- The `for s.Scan()` loop of `Query` over the lines still to come, then the
check of `s.Err()`; `lNum` and `result` are the loop's variables. -/
def queryLoop (filter : Filter) (scanErr : Option Error) :
    List GoString → Nat → List Record → Exec (List Record × Option Error)
  | [], _, result =>
    match scanErr with
    | some err => .returns ([], some err)
    | none => .returns (result, none)
  | text :: rest, lNum, result =>
    (parseLine text).andThen fun re =>
    match re.2 with
    | some err => .returns ([], some (.wrapped (lNum + 1) err))
    | none =>
      queryLoop filter scanErr rest (lNum + 1)
        (if filter.Match re.1 then result ++ [re.1] else result)

/-- Function `Query` of help/main.go: returns logs from `r` that match
`filter`. The reader is given by the bytes it delivers. What the scanner
delivers does not depend on the loop body, so its tokens and final error are
computed first and the loop runs over them. A `nil` slice is the empty list. -/
def Query (r : GoString) (filter : Filter) : Exec (List Record × Option Error) :=
  queryLoop filter (scan r).2 (scan r).1 0 []

/-! ## The copies of the program and its other front ends -/

/-- Go `s[:hi]`: panics unless `0 ≤ hi ≤ len(s)`. -/
def sliceTo (s : GoString) (hi : Int) : Exec GoString :=
  if 0 ≤ hi ∧ hi ≤ (s.length : Int) then .returns (s.take hi.toNat)
  else .panics (.sliceToOutOfRange hi s.length)

/-- The literal `"\033[31m"` of color/main.go: red foreground. -/
def red : GoString := byte 0x1B :: str "[31m"

/-- The literal `"\033[39m"` of color/main.go: default foreground. -/
def reset : GoString := byte 0x1B :: str "[39m"

/-- Function `colorize` of color/main.go. The operands of the concatenation
are evaluated from left to right; `s[i+len(term):]` is reached only after
`s[:i]` has returned, that is with `0 ≤ i`. -/
def colorize (s term : GoString) : Exec GoString :=
  let i := Index s term
  if i = -1 then .returns s
  else
    (sliceTo s i).andThen fun head =>
    (sliceFrom s (i + (term.length : Int)).toNat).andThen fun tail =>
    .returns (head ++ red ++ term ++ reset ++ tail)

namespace color

/-- Function `parseLine` of color/main.go. The struct `Record` is declared
there with the fields of help/main.go, so one structure stands for both. -/
def parseLine (line : GoString) : Exec (Record × Option Error) :=
  let fields := Fields line
  (index fields ((fields.length : Int) - 1)).andThen fun s =>
  let sized : Int × Option Error := if s = str "-" then (0, none) else Atoi s
  match sized with
  | (_, some err) => .returns (Record.zero, some err)
  | (size, none) =>
    (index fields ((fields.length : Int) - 2)).andThen fun s2 =>
    match Atoi s2 with
    | (_, some err) => .returns (Record.zero, some err)
    | (code, none) =>
      (index fields 3).andThen fun f3 =>
      (index fields 4).andThen fun f4 =>
      match timeParse (f3 ++ str " " ++ f4) with
      | (_, some err) => .returns (Record.zero, some err)
      | (t, none) =>
        (index fields 0).andThen fun f0 =>
        (index fields 5).andThen fun f5 =>
        (sliceFrom f5 1).andThen fun method =>
        (index fields 6).andThen fun f6 =>
        .returns ({ Origin := f0, Method := method, Path := f6, StatusCode := code,
                    Time := t.UTC, Size := size }, none)

/-- Method `Filter.Match` of color/main.go. -/
def Filter.Match (f : Cmdline.Filter) (r : Record) : Bool :=
  Contains r.Path f.Path

/-- The `for s.Scan()` loop of `Query` of color/main.go and the check of
`s.Err()` after it. -/
def queryLoop (filter : Cmdline.Filter) (scanErr : Option Error) :
    List GoString → Nat → List Record → Exec (List Record × Option Error)
  | [], _, result =>
    match scanErr with
    | some err => .returns ([], some err)
    | none => .returns (result, none)
  | text :: rest, lNum, result =>
    (color.parseLine text).andThen fun re =>
    match re.2 with
    | some err => .returns ([], some (.wrapped (lNum + 1) err))
    | none =>
      queryLoop filter scanErr rest (lNum + 1)
        (if color.Filter.Match filter re.1 then result ++ [re.1] else result)

/-- Function `Query` of color/main.go. -/
def Query (r : GoString) (filter : Cmdline.Filter) : Exec (List Record × Option Error) :=
  color.queryLoop filter (scan r).2 (scan r).1 0 []

end color

namespace genlogs

/-- Function `parseLine` of genlogs/main.go, which reads the timestamp with
`parseTime` and stores the time it returns. -/
def parseLine (line : GoString) : Exec (Record × Option Error) :=
  let fields := Fields line
  (index fields ((fields.length : Int) - 1)).andThen fun s =>
  let sized : Int × Option Error := if s = str "-" then (0, none) else Atoi s
  match sized with
  | (_, some err) => .returns (Record.zero, some err)
  | (size, none) =>
    (index fields ((fields.length : Int) - 2)).andThen fun s2 =>
    match Atoi s2 with
    | (_, some err) => .returns (Record.zero, some err)
    | (code, none) =>
      (index fields 3).andThen fun f3 =>
      (index fields 4).andThen fun f4 =>
      match parseTime (f3 ++ str " " ++ f4) with
      | (_, some err) => .returns (Record.zero, some err)
      | (t, none) =>
        (index fields 0).andThen fun f0 =>
        (index fields 5).andThen fun f5 =>
        (sliceFrom f5 1).andThen fun method =>
        (index fields 6).andThen fun f6 =>
        .returns ({ Origin := f0, Method := method, Path := f6, StatusCode := code,
                    Time := t, Size := size }, none)

end genlogs

namespace logs

/-- The byte `'%'`. -/
def percent : Byte := byte 0x25

/-- The byte `'_'`. -/
def underscore : Byte := byte 0x5F

/-- Whether `f` holds of some suffix of the string. -/
def anySuffix (f : GoString → Bool) : GoString → Bool
  | [] => f []
  | c :: s => f (c :: s) || anySuffix f s

/-- Model of the SQL operator `string LIKE pattern` of the database engine,
without an escape character: `%` in the pattern stands for any run of
bytes, `_` for one character (the bytes of one UTF-8 encoded rune), and every
other byte for itself. -/
def like : GoString → GoString → Bool
  | [] => fun s => s.isEmpty
  | p :: ps => fun s =>
    if p = percent then anySuffix (like ps) s
    else if p = underscore then
      match s with
      | [] => false
      | _ :: _ => like ps (s.drop (DecodeRuneInString s).2)
    else
      match s with
      | [] => false
      | c :: t => decide (c = p) && like ps t

/-- The argument `pathQuery` that function `Query` of logs/logs.go binds to
the parameter of `SELECT * FROM logs WHERE path LIKE ?`. -/
def pathQuery (filter : Cmdline.Filter) : GoString :=
  str "%" ++ filter.Path ++ str "%"

/-- Function `Query` of logs/logs.go over the rows of the table `logs`, for a
connection that answers without an error: the rows whose `path` is like
`pathQuery`, in the order in which the table holds them. -/
def Query (rows : List Record) (filter : Cmdline.Filter) : List Record × Option Error :=
  (rows.filter fun r => like (pathQuery filter) r.Path, none)

end logs

/-! ## Notions used to state the properties -/

/-- The sample line of the documentation of `parseLine`. -/
def sampleLine : GoString :=
  str "slppp6.intermind.net - - [01/Aug/1995:00:00:10 -0400] \"GET /history/skylab/skylab.html HTTP/1.0\" 200 1687"

/-- The size step of `parseLine`, lines 31-38: the value and the error the last
token `s` yields. -/
def sizeField (s : GoString) : Int × Option Error :=
  if s = str "-" then (0, none) else Atoi s

/-- The number written by a run of decimal digits. -/
def decimalValue (digits : GoString) : Nat :=
  digits.foldl (fun n c => n * 10 + digitVal c) 0

/-- Is `s` a base-10 numeral: an optional sign `+` or `-` followed by one or
more decimal digits? -/
def isDecimal (s : GoString) : Bool :=
  match s with
  | [] => false
  | c :: rest =>
    if c = byte 0x2B ∨ c = byte 0x2D then !rest.isEmpty && rest.all isDigit
    else (c :: rest).all isDigit

/-- The integer a base-10 numeral denotes. -/
def intValue (s : GoString) : Int :=
  match s with
  | [] => 0
  | c :: rest =>
    if c = byte 0x2D then -(decimalValue rest : Int)
    else if c = byte 0x2B then (decimalValue rest : Int)
    else (decimalValue (c :: rest) : Int)

/-- Is `s` a base-10 integer that a Go `int` (64 bits) can hold? -/
def isInt (s : GoString) : Bool :=
  isDecimal s && decide (-(2 : Int) ^ 63 ≤ intValue s) && decide (intValue s < (2 : Int) ^ 63)

/-- The byte `' '`. -/
def space : Byte := byte 0x20

/-- A run of `MaxScanTokenSize` (65536) spaces. -/
def padding : GoString := List.replicate MaxScanTokenSize space

/-- A well-formed log line. -/
def okLine : GoString :=
  str "h - - [01/Aug/1995:00:00:10 -0400] \"GET /x HTTP/1.0\" 200 1"

/-- A source of one line, `okLine` indented by 65536 spaces. -/
def longSource : GoString := padding ++ okLine

/-- The Record of a line that `parseLine` parses successfully (it returns with
a `nil` error), `none` for a line on which it fails or panics. -/
def parsed (line : GoString) : Option Record :=
  match parseLine line with
  | .returns (r, none) => some r
  | _ => none

/-- A source of two lines: `okLine` indented by 65536 spaces, then `x`. -/
def longThenBad : GoString := padding ++ okLine ++ newline :: str "x"

/-- A source of one line, indented by 65536 spaces. -/
def longIndented : GoString :=
  padding ++ str "h - - [01/Aug/1995:00:00:10 -0400] \"GET /y HTTP/1.0\" 200 -"

/-- A source of three well-formed lines; the second ends in `\r\n`, the last
has no line end. -/
def threeLines : GoString :=
  str ("a - - [01/Aug/1995:00:00:10 -0400] \"GET /history/skylab/skylab.html HTTP/1.0\" 200 1687\n"
    ++ "b - - [01/Aug/1995:00:00:11 -0400] \"GET /other HTTP/1.0\" 200 -\r\n"
    ++ "c - - [01/Aug/1995:00:00:12 -0400] \"GET /skylab HTTP/1.0\" 304 0")

/-- A source of three lines of which the third is malformed. -/
def thirdLineBad : GoString :=
  str ("a - - [01/Aug/1995:00:00:10 -0400] \"GET /history/skylab/skylab.html HTTP/1.0\" 200 1687\n"
    ++ "c - - [01/Aug/1995:00:00:12 -0400] \"GET /skylab HTTP/1.0\" 304 0\n"
    ++ "d - - [01/Aug/1995:00:00:13 -0400] \"GET /skylab HTTP/1.0\" 200 12x\n")

/-- A source of four lines of which the third is blank. -/
def thirdLineBlank : GoString :=
  str ("a - - [01/Aug/1995:00:00:10 -0400] \"GET /history/skylab/skylab.html HTTP/1.0\" 200 1687\n"
    ++ "c - - [01/Aug/1995:00:00:12 -0400] \"GET /skylab HTTP/1.0\" 304 0\n"
    ++ "\n"
    ++ "d - - [01/Aug/1995:00:00:13 -0400] \"GET /skylab HTTP/1.0\" 200 12\n")

/-! ### Written timestamps

The texts that Go's `time.Parse` reads under the layout
`[02/Jan/2006:15:04:05 -0700]`, described without reference to the parser. -/

/-- The decimal digit for `n % 10`. -/
def digit (n : Nat) : Byte := byte (0x30 + n % 10)

/-- A number below 100 written with two digits. -/
def twoDigits (n : Nat) : GoString := [digit (n / 10), digit n]

/-- A number below 10000 written with four digits. -/
def fourDigits (n : Nat) : GoString := [digit (n / 1000), digit (n / 100), digit (n / 10), digit n]

/-- ASCII letters in lower case, every other byte unchanged. -/
def asciiLower (c : Byte) : Byte :=
  if 0x41 ≤ c.val ∧ c.val ≤ 0x5A then byte (c.val + 0x20) else c

/-- `mon` is the three-letter English abbreviation of month `m` (1 to 12) in
any mix of upper and lower case. -/
def IsMonthName (mon : GoString) (m : Nat) : Prop :=
  1 ≤ m ∧ ∃ name, shortMonthNames[m - 1]? = some name ∧ mon.map asciiLower = name.map asciiLower

/-- `frac` is an optional fraction of a second worth `nsec` nanoseconds:
nothing, or a period or comma followed by one or more digits, of which the
first nine count. -/
def IsFraction (frac : GoString) (nsec : Nat) : Prop :=
  (frac = [] ∧ nsec = 0)
  ∨ ∃ sep ds, frac = sep :: ds ∧ (sep = byte 0x2E ∨ sep = byte 0x2C) ∧ ds ≠ []
      ∧ ds.all isDigit = true
      ∧ nsec = decimalValue (ds.take 9) * 10 ^ (9 - (ds.take 9).length)

/-- The date part `[DD/Mon/YYYY` of a written timestamp. -/
def DateText (s : GoString) (day month year : Nat) : Prop :=
  ∃ mon, s = str "[" ++ twoDigits day ++ str "/" ++ mon ++ str "/" ++ fourDigits year
    ∧ IsMonthName mon month ∧ day < 100 ∧ year < 10000

/-- The clock part `:HH:MM:SS` of a written timestamp, the hour with one or
two digits, the seconds optionally followed by a fraction. -/
def ClockText (s : GoString) (hour min sec nsec : Nat) : Prop :=
  ∃ hh frac, s = str ":" ++ hh ++ str ":" ++ twoDigits min ++ str ":" ++ twoDigits sec ++ frac
    ∧ (hh = twoDigits hour ∨ (hh = [digit hour] ∧ hour < 10))
    ∧ hour < 100 ∧ min < 100 ∧ sec < 100 ∧ IsFraction frac nsec

/-- The sign byte of a zone offset. -/
def signByte (east : Bool) : Byte := if east then byte 0x2B else byte 0x2D

/-- The zone part `±HHMM]` of a written timestamp. -/
def ZoneText (s : GoString) (east : Bool) (zoneHour zoneMin : Nat) : Prop :=
  s = [signByte east] ++ twoDigits zoneHour ++ twoDigits zoneMin ++ str "]"
    ∧ zoneHour < 100 ∧ zoneMin < 100

/-- The values a written timestamp gives. -/
structure Stamp where
  day : Nat
  month : Nat
  year : Nat
  hour : Nat
  min : Nat
  sec : Nat
  nsec : Nat
  east : Bool
  zoneHour : Nat
  zoneMin : Nat
  deriving DecidableEq, Repr

/-- `v` writes the values of `st` in the form `[DD/Mon/YYYY:HH:MM:SS ±HHMM]` as
Go reads it, with `sp` between the clock and the zone. -/
def WrittenSep (sp v : GoString) (st : Stamp) : Prop :=
  ∃ ds cs zs, v = ds ++ cs ++ sp ++ zs
    ∧ DateText ds st.day st.month st.year
    ∧ ClockText cs st.hour st.min st.sec st.nsec
    ∧ ZoneText zs st.east st.zoneHour st.zoneMin

/-- `v` writes the values of `st` in the form `[DD/Mon/YYYY:HH:MM:SS ±HHMM]` as
Go reads it: the month in any letter case, the hour with one or two digits, an
optional fraction after the seconds, one space before the zone. -/
def Written (v : GoString) (st : Stamp) : Prop := WrittenSep [space] v st

/-- The zone offset of a written timestamp, in seconds east of UTC. -/
def Stamp.offset (st : Stamp) : Int :=
  if st.east then (((st.zoneHour * 60 + st.zoneMin) * 60 : Nat) : Int)
  else -(((st.zoneHour * 60 + st.zoneMin) * 60 : Nat) : Int)

/-- The values of a written timestamp are a date and time of day that exist,
with a zone offset that `time.Parse` admits. -/
def Stamp.Valid (st : Stamp) : Prop :=
  1 ≤ st.day ∧ st.day ≤ daysIn st.month st.year ∧ st.hour < 24 ∧ st.min < 60 ∧ st.sec < 60
    ∧ st.zoneHour ≤ 24 ∧ st.zoneMin ≤ 60

/-- The instant a written timestamp denotes, in UTC: its date and time of day
taken as UTC, moved back by its zone offset. -/
def Stamp.instant (st : Stamp) : Time :=
  { wall := st.nsec,
    ext := (Date st.year st.month st.day st.hour st.min st.sec st.nsec).ext - st.offset,
    loc := .utc }

/-- `v` has the fixed layout `[DD/Mon/YYYY:HH:MM:SS ±HHMM]` read strictly: two
digits for day, hour, minute and second, one of the twelve month
abbreviations as spelled, four digits for the year, one space, a sign and
four digits. -/
def MatchesLayout (v : GoString) : Prop :=
  ∃ (day year hour min sec zh zm : Nat) (name : GoString) (east : Bool),
    name ∈ shortMonthNames
    ∧ v = str "[" ++ twoDigits day ++ str "/" ++ name ++ str "/" ++ fourDigits year
        ++ str ":" ++ twoDigits hour ++ str ":" ++ twoDigits min ++ str ":" ++ twoDigits sec
        ++ str " " ++ [signByte east] ++ twoDigits zh ++ twoDigits zm ++ str "]"

/-- The values of the timestamp `[01/Aug/1995:00:00:10 -0400]`. -/
def sampleStamp : Stamp :=
  { day := 1, month := 8, year := 1995, hour := 0, min := 0, sec := 10, nsec := 0,
    east := false, zoneHour := 4, zoneMin := 0 }

/-- The values of the timestamp `[01/Aug/1995:04:00:10 +0000]`. -/
def sampleStampUTC : Stamp :=
  { day := 1, month := 8, year := 1995, hour := 4, min := 0, sec := 10, nsec := 0,
    east := true, zoneHour := 0, zoneMin := 0 }

/-- The sample line with its instant written in UTC. -/
def sampleLineUTC : GoString :=
  str "slppp6.intermind.net - - [01/Aug/1995:04:00:10 +0000] \"GET /history/skylab/skylab.html HTTP/1.0\" 200 1687"

/-- A line whose timestamp writes the hour with one digit. -/
def oneDigitHourLine : GoString :=
  str "h - - [01/Aug/1995:0:00:10 -0400] \"GET /x HTTP/1.0\" 200 1"

/-- A line whose timestamp lacks the opening bracket. -/
def noBracketLine : GoString :=
  str "h - - 01/Aug/1995:00:00:10 -0400] \"GET /x HTTP/1.0\" 200 1"

/-- A well-formed line whose size token is `-`. -/
def dashLine : GoString :=
  str "h - - [01/Aug/1995:00:00:10 -0400] \"GET /x HTTP/1.0\" 304 -"

/-! ### Notions for the later properties -/

/-- The error, or the panic, with which a call of `Query` ends, without the
records. -/
def failure : Exec (List Record × Option Error) → Exec (Option Error)
  | .returns re => .returns re.2
  | .panics p => .panics p

/-- The white space of ASCII: tab, line feed, vertical tab, form feed,
carriage return and space. -/
def isAsciiSpace (b : Byte) : Bool :=
  decide (b.val = 0x20) || (decide (0x09 ≤ b.val) && decide (b.val ≤ 0x0D))

/-- An ASCII byte that is not white space. -/
def isPlain (b : Byte) : Bool := decide (b.val < 0x80) && !isAsciiSpace b

/-- A line written as white space followed by tokens, each with the white
space after it. -/
def spaced (lead : GoString) (parts : List (GoString × GoString)) : GoString :=
  lead ++ (parts.map fun p => p.1 ++ p.2).flatten

/-- Tokens are non-empty and of plain bytes, the runs after them are white
space, and only the run after the last token may be empty. -/
def wellSpaced : List (GoString × GoString) → Bool
  | [] => true
  | [p] => !p.1.isEmpty && p.1.all isPlain && p.2.all isAsciiSpace
  | p :: q :: rest =>
    !p.1.isEmpty && p.1.all isPlain && p.2.all isAsciiSpace && !p.2.isEmpty
      && wellSpaced (q :: rest)

/-- A line of nine tokens: the request field holds a method and a path and
no protocol. -/
def nineTokenLine : GoString :=
  str "h - - [01/Aug/1995:00:00:10 -0400] \"GET /x 200 1"

/-- A line of seven tokens: no request field at all. -/
def sevenTokenLine : GoString :=
  str "h - - [01/Aug/1995:00:00:10 -0400] 200 1"

/-- The sample line with other white space: leading tabs, runs of spaces and
tabs between the tokens, a trailing carriage return. -/
def respacedLine : GoString :=
  str "\t slppp6.intermind.net  -\t- \t [01/Aug/1995:00:00:10   -0400] \"GET    /history/skylab/skylab.html\tHTTP/1.0\" 200  1687 \r"

/-- Both numbers and the timestamp of this line are malformed. -/
def allBadLine : GoString :=
  str "h - - 01/Aug/1995:00:00:10 -0400 \"GET /x HTTP/1.0\" abc xyz"

/-- The size of this line is valid, its status and its timestamp are not. -/
def statusBadLine : GoString :=
  str "h - - 01/Aug/1995:00:00:10 -0400 \"GET /x HTTP/1.0\" abc 1687"

/-! ## Properties -/

/-! ### Index expressions -/

theorem index_of_getElem? {α : Type} (xs : List α) (i : Nat) (x : α) (h : xs[i]? = some x) :
    index xs (i : Int) = .returns x := by
  have hi : ¬ ((i : Int) < 0) := by omega
  simp [index, h, hi]

/-! ### The steps of `parseLine` -/

theorem index_returns_iff {α : Type} (xs : List α) (i : Int) (x : α) :
    index xs i = .returns x ↔ 0 ≤ i ∧ xs[i.toNat]? = some x := by
  unfold index
  by_cases hi : i < 0
  · simp [hi]
  · cases h : xs[i.toNat]? with
    | none => simp [hi]
    | some y => simp [hi]; omega

theorem andThen_returns_iff {α β : Type} (x : Exec α) (k : α → Exec β) (b : β) :
    x.andThen k = .returns b ↔ ∃ a, x = .returns a ∧ k a = .returns b := by
  cases x <;> simp [Exec.andThen]

theorem parseLine_ok_inv (line : GoString) (r : Record)
    (h : parseLine line = .returns (r, none)) :
    ∃ s s2 f0 f3 f4 f5 f6 size code t,
      (Fields line)[(Fields line).length - 1]? = some s ∧ 1 ≤ (Fields line).length
      ∧ (if s = str "-" then ((0 : Int), (none : Option Error)) else Atoi s) = (size, none)
      ∧ (Fields line)[(Fields line).length - 2]? = some s2 ∧ 2 ≤ (Fields line).length
      ∧ Atoi s2 = (code, none)
      ∧ (Fields line)[3]? = some f3 ∧ (Fields line)[4]? = some f4
      ∧ timeParse (f3 ++ str " " ++ f4) = (t, none)
      ∧ (Fields line)[0]? = some f0 ∧ (Fields line)[5]? = some f5 ∧ 1 ≤ f5.length
      ∧ (Fields line)[6]? = some f6
      ∧ r = { Origin := f0, Method := f5.drop 1, Path := f6, StatusCode := code,
              Time := t.UTC, Size := size } := by
  unfold parseLine at h
  simp only [andThen_returns_iff, index_returns_iff] at h
  obtain ⟨s, ⟨hs0, hs⟩, h⟩ := h
  split at h
  · simp at h
  · rename_i size hsize
    simp only [andThen_returns_iff, index_returns_iff] at h
    obtain ⟨s2, ⟨h20, hs2⟩, h⟩ := h
    split at h
    · simp at h
    · rename_i code hcode
      simp only [andThen_returns_iff, index_returns_iff] at h
      obtain ⟨f3, ⟨-, hf3⟩, f4, ⟨-, hf4⟩, h⟩ := h
      split at h
      · simp at h
      · rename_i t ht
        simp only [andThen_returns_iff, index_returns_iff, sliceFrom] at h
        obtain ⟨f0, ⟨-, hf0⟩, f5, ⟨-, hf5⟩, method, hm, f6, ⟨-, hf6⟩, h⟩ := h
        have h1 : (↑(Fields line).length - 1 : Int).toNat = (Fields line).length - 1 := by omega
        have h2 : (↑(Fields line).length - 2 : Int).toNat = (Fields line).length - 2 := by omega
        rw [h1] at hs
        rw [h2] at hs2
        by_cases hlen : 1 ≤ f5.length
        · simp only [hlen, if_true, Exec.returns.injEq] at hm
          simp only [Exec.returns.injEq, Prod.mk.injEq, and_true] at h
          refine ⟨s, s2, f0, f3, f4, f5, f6, size, code, t, hs, by omega, hsize, hs2, by omega,
            hcode, by simpa using hf3, by simpa using hf4, ht, by simpa using hf0,
            by simpa using hf5, hlen, by simpa using hf6, ?_⟩
          rw [← h, hm]
        · simp [hlen] at hm

theorem index_last {α : Type} (xs : List α) (x : α) (h : xs.getLast? = some x) :
    index xs ((xs.length : Int) - 1) = .returns x := by
  have hne : xs ≠ [] := by
    intro hnil
    simp [hnil] at h
  have hpos : 0 < xs.length := List.length_pos.mpr hne
  rw [index_returns_iff]
  refine ⟨by omega, ?_⟩
  have h1 : ((xs.length : Int) - 1).toNat = xs.length - 1 := by omega
  rw [h1, ← List.getLast?_eq_getElem?]
  exact h

theorem index_at {α : Type} (xs : List α) (i : Nat) (j : Int) (x : α) (hj : j = (i : Int))
    (h : xs[i]? = some x) : index xs j = .returns x := by
  subst hj
  exact index_of_getElem? xs i x h

theorem parseLine_size_error (line s : GoString) (v : Int) (e : Error)
    (hs : (Fields line).getLast? = some s) (hsize : sizeField s = (v, some e)) :
    parseLine line = .returns (Record.zero, some e) := by
  unfold parseLine
  simp only [index_last _ _ hs, Exec.andThen]
  unfold sizeField at hsize
  rw [hsize]

theorem parseLine_status_error (line s s2 : GoString) (size v : Int) (e : Error)
    (hs : (Fields line).getLast? = some s) (hsize : sizeField s = (size, none))
    (hs2 : (Fields line)[(Fields line).length - 2]? = some s2) (hlen : 2 ≤ (Fields line).length)
    (hcode : Atoi s2 = (v, some e)) :
    parseLine line = .returns (Record.zero, some e) := by
  unfold parseLine
  simp only [index_last _ _ hs, Exec.andThen]
  unfold sizeField at hsize
  rw [hsize]
  simp only []
  rw [index_at _ ((Fields line).length - 2) _ s2 (by omega) hs2]
  simp only [hcode]

theorem parseLine_time_error (line s s2 f3 f4 : GoString) (size code : Int) (t : Time)
    (e : Error)
    (hs : (Fields line).getLast? = some s) (hsize : sizeField s = (size, none))
    (hs2 : (Fields line)[(Fields line).length - 2]? = some s2) (hlen : 2 ≤ (Fields line).length)
    (hcode : Atoi s2 = (code, none))
    (hf3 : (Fields line)[3]? = some f3) (hf4 : (Fields line)[4]? = some f4)
    (ht : timeParse (f3 ++ str " " ++ f4) = (t, some e)) :
    parseLine line = .returns (Record.zero, some e) := by
  unfold parseLine
  simp only [index_last _ _ hs, Exec.andThen]
  unfold sizeField at hsize
  rw [hsize]
  simp only []
  rw [index_at _ ((Fields line).length - 2) _ s2 (by omega) hs2]
  simp only [hcode]
  rw [index_at _ 3 3 f3 rfl hf3, index_at _ 4 4 f4 rfl hf4]
  simp only [ht]

theorem parseLine_ok_intro (line s s2 f0 f3 f4 f5 f6 : GoString) (size code : Int) (t : Time)
    (hs : (Fields line).getLast? = some s) (hsize : sizeField s = (size, none))
    (hs2 : (Fields line)[(Fields line).length - 2]? = some s2) (hlen : 2 ≤ (Fields line).length)
    (hcode : Atoi s2 = (code, none))
    (hf3 : (Fields line)[3]? = some f3) (hf4 : (Fields line)[4]? = some f4)
    (ht : timeParse (f3 ++ str " " ++ f4) = (t, none))
    (hf0 : (Fields line)[0]? = some f0) (hf5 : (Fields line)[5]? = some f5)
    (h5 : 1 ≤ f5.length) (hf6 : (Fields line)[6]? = some f6) :
    parseLine line = .returns
      ({ Origin := f0, Method := f5.drop 1, Path := f6, StatusCode := code,
         Time := t.UTC, Size := size }, none) := by
  unfold parseLine
  simp only [index_last _ _ hs, Exec.andThen]
  unfold sizeField at hsize
  rw [hsize]
  simp only []
  rw [index_at _ ((Fields line).length - 2) _ s2 (by omega) hs2]
  simp only [hcode]
  rw [index_at _ 3 3 f3 rfl hf3, index_at _ 4 4 f4 rfl hf4]
  simp only [ht]
  rw [index_at _ 0 0 f0 rfl hf0, index_at _ 5 5 f5 rfl hf5, index_at _ 6 6 f6 rfl hf6]
  simp [sliceFrom, h5]

/-! ### `strings.Contains` -/

theorem indexFrom_nonneg_iff (substr s : GoString) (i : Nat) :
    0 ≤ indexFrom substr s i ↔ substr <:+: s := by
  induction s generalizing i with
  | nil =>
    by_cases h : substr = []
    · simp [indexFrom, h]
    · simp [indexFrom, h]
  | cons c s ih =>
    unfold indexFrom
    by_cases hp : substr.isPrefixOf (c :: s) = true
    · have hpre : substr <+: c :: s := List.isPrefixOf_iff_prefix.mp hp
      simp only [hp, if_true]
      exact ⟨fun _ => hpre.isInfix, fun _ => Int.natCast_nonneg i⟩
    · have hpre : ¬ substr <+: c :: s := fun h => hp (List.isPrefixOf_iff_prefix.mpr h)
      simp only [hp]
      rw [if_neg (by simp), ih, List.infix_cons_iff]
      exact ⟨Or.inr, fun h => h.resolve_left hpre⟩

theorem Contains_iff_infix (s substr : GoString) :
    Contains s substr = true ↔ substr <:+: s := by
  simp [Contains, Index, indexFrom_nonneg_iff]

/-! ### Claims C1 and C8 -/

/-- C1: `parseLine` applied to the sample line returns, without error, the
Record with Origin `slppp6.intermind.net`, Method `GET`, Path
`/history/skylab/skylab.html`, StatusCode 200, Size 1687 and Time
1995-08-01T04:00:10 UTC, the instant 807249610 seconds after the Unix epoch. -/
theorem parseLine_sampleLine :
    parseLine sampleLine = .returns
      ({ Origin := str "slppp6.intermind.net",
         Time := Date 1995 8 1 4 0 10 0,
         Method := str "GET",
         Path := str "/history/skylab/skylab.html",
         StatusCode := 200,
         Size := 1687 }, none)
    ∧ (Date 1995 8 1 4 0 10 0).Unix = 807249610
    ∧ (Date 1995 8 1 4 0 10 0).loc = .utc := by
  set_option maxRecDepth 100000 in decide

/-- C8: `f.Match(r)` is true exactly when `f.Path` occurs in `r.Path` as a
contiguous run of bytes, compared byte for byte, whatever the other fields of
`r` are; the filter `skylab` matches the path `/history/skylab/skylab.html`
and does not match `/history/Skylab.html`. -/
theorem Match_iff_infix (f : Filter) (r : Record) :
    (f.Match r = true ↔ f.Path <:+: r.Path)
    ∧ (∀ (o m : GoString) (t : Time) (c s : Int), f.Match ⟨o, t, m, r.Path, c, s⟩ = f.Match r)
    ∧ (Filter.mk (str "skylab")).Match
        { Record.zero with Path := str "/history/skylab/skylab.html" } = true
    ∧ (Filter.mk (str "skylab")).Match
        { Record.zero with Path := str "/history/Skylab.html" } = false := by
  refine ⟨?_, ?_, ?_, ?_⟩
  · exact Contains_iff_infix r.Path f.Path
  · intro o m t c s
    rfl
  · decide
  · decide

/-! ### `strconv.Atoi` -/

theorem isDigit_iff (c : Byte) : isDigit c = true ↔ 0x30 ≤ c.val ∧ c.val ≤ 0x39 := by
  simp [isDigit]

theorem foldl_digits_mono (ds : GoString) (n : Nat) :
    n ≤ ds.foldl (fun n c => n * 10 + digitVal c) n := by
  induction ds generalizing n with
  | nil => simp
  | cons c ds ih =>
    simp only [List.foldl_cons]
    exact le_trans (by omega) (ih _)

theorem foldl_digits_lt (ds : GoString) (n : Nat) (hd : ds.all isDigit = true) :
    ds.foldl (fun n c => n * 10 + digitVal c) n < (n + 1) * 10 ^ ds.length := by
  induction ds generalizing n with
  | nil => simp
  | cons c ds ih =>
    simp only [List.all_cons, Bool.and_eq_true] at hd
    simp only [List.foldl_cons, List.length_cons]
    have hc := (isDigit_iff c).mp hd.1
    have hv : digitVal c ≤ 9 := by unfold digitVal; omega
    refine lt_of_lt_of_le (ih _ hd.2) ?_
    rw [pow_succ, mul_comm (10 ^ ds.length) 10, ← mul_assoc]
    exact Nat.mul_le_mul_right _ (by omega)

theorem atoiFastLoop_eq_some (ds : GoString) (n m : Nat) :
    atoiFastLoop ds n = some m ↔
      ds.all isDigit = true ∧ m = ds.foldl (fun n c => n * 10 + digitVal c) n := by
  induction ds generalizing n with
  | nil => simp [atoiFastLoop, eq_comm]
  | cons c ds ih =>
    unfold atoiFastLoop
    have hc := isDigit_iff c
    have hlt : c.val < 256 := c.isLt
    by_cases hd : isDigit c = true
    · have h1 : ¬ ((c.val + 256 - 0x30) % 256 > 9) := by
        have := hc.mp hd
        omega
      have h2 : (c.val + 256 - 0x30) % 256 = digitVal c := by
        have := hc.mp hd
        unfold digitVal
        omega
      simp only []
      rw [if_neg h1, h2, ih]
      simp only [List.all_cons, hd, Bool.true_and, List.foldl_cons]
    · have h1 : (c.val + 256 - 0x30) % 256 > 9 := by
        have : ¬ (0x30 ≤ c.val ∧ c.val ≤ 0x39) := fun h => hd (hc.mpr h)
        omega
      simp only []
      rw [if_pos h1]
      simp [hd]

theorem parseUintLoop_eq_ok (ds : GoString) (n v : Nat) (hn : n < 2 ^ 64) :
    parseUintLoop ds n = (v, none) ↔
      ds.all isDigit = true ∧ v = ds.foldl (fun n c => n * 10 + digitVal c) n ∧ v < 2 ^ 64 := by
  induction ds generalizing n with
  | nil =>
    simp only [parseUintLoop, Prod.mk.injEq, and_true, List.all_nil, List.foldl_nil, true_and]
    constructor
    · intro h; subst h; exact ⟨rfl, hn⟩
    · intro h; exact h.1.symm
  | cons c ds ih =>
    unfold parseUintLoop
    have hc := isDigit_iff c
    by_cases hd : isDigit c = true
    · have hv : digitVal c ≤ 9 := by
        have := hc.mp hd
        unfold digitVal
        omega
      simp only [hd, Bool.not_true, Bool.false_eq_true, if_false, List.all_cons, Bool.true_and,
        List.foldl_cons]
      by_cases hcut : n ≥ maxUint64 / 10 + 1
      · simp only [hcut, if_true, Prod.mk.injEq, reduceCtorEq, and_false, false_iff]
        intro ⟨_, hv2, hlt⟩
        have := foldl_digits_mono ds (n * 10 + digitVal c)
        simp only [maxUint64] at hcut
        omega
      · simp only [hcut, if_false]
        simp only [maxUint64] at hcut
        by_cases hov : n * 10 + digitVal c < 2 ^ 64
        · have hmod : (n * 10 + digitVal c) % 2 ^ 64 = n * 10 + digitVal c := Nat.mod_eq_of_lt hov
          have hno : ¬ ((n * 10 + digitVal c < n * 10) ∨ (n * 10 + digitVal c > maxUint64)) := by
            simp only [maxUint64]
            omega
          simp only [hmod, Bool.or_eq_true, decide_eq_true_eq, hno, if_false]
          exact ih _ hov
        · have hyes : ((n * 10 + digitVal c) % 2 ^ 64 < n * 10)
              ∨ ((n * 10 + digitVal c) % 2 ^ 64 > maxUint64) := by
            left
            omega
          simp only [Bool.or_eq_true, decide_eq_true_eq, hyes, if_true, Prod.mk.injEq,
            reduceCtorEq, and_false, false_iff]
          intro ⟨_, hv2, hlt⟩
          have := foldl_digits_mono ds (n * 10 + digitVal c)
          omega
    · simp [hd]

theorem parseUintLoop_error (ds : GoString) (n v : Nat) (e : NumErr)
    (h : parseUintLoop ds n = (v, some e)) : e = .syntaxErr ∨ v = maxUint64 := by
  induction ds generalizing n with
  | nil => simp [parseUintLoop] at h
  | cons c ds ih =>
    unfold parseUintLoop at h
    split at h
    · simp only [Prod.mk.injEq, Option.some.injEq] at h
      exact Or.inl h.2.symm
    · split at h
      · simp only [Prod.mk.injEq, Option.some.injEq] at h
        exact Or.inr h.1.symm
      · simp only [] at h
        split at h
        · simp only [Prod.mk.injEq, Option.some.injEq] at h
          exact Or.inr h.1.symm
        · exact ih _ h

theorem ParseUint_cases (ds : GoString) :
    (ds ≠ [] ∧ ds.all isDigit = true ∧ decimalValue ds < 2 ^ 64
        ∧ ParseUint ds = (decimalValue ds, none))
    ∨ (¬ (ds ≠ [] ∧ ds.all isDigit = true ∧ decimalValue ds < 2 ^ 64)
        ∧ ∃ x e, ParseUint ds = (x, some e) ∧ (e = .syntaxErr ∨ x = maxUint64)) := by
  unfold ParseUint
  by_cases hnil : ds = []
  · right
    subst hnil
    exact ⟨by simp, 0, .syntaxErr, by simp, Or.inl rfl⟩
  · simp only [hnil, if_false, ne_eq, not_false_eq_true, true_and]
    cases hres : parseUintLoop ds 0 with
    | mk x oe =>
      cases oe with
      | none =>
        left
        have := (parseUintLoop_eq_ok ds 0 x (by norm_num)).mp hres
        refine ⟨this.1, ?_, ?_⟩
        · unfold decimalValue
          rw [← this.2.1]
          exact this.2.2
        · unfold decimalValue
          rw [← this.2.1]
      | some e =>
        right
        refine ⟨?_, x, e, rfl, parseUintLoop_error ds 0 x e hres⟩
        intro ⟨hd, hlt⟩
        have := (parseUintLoop_eq_ok ds 0 (decimalValue ds) (by norm_num)).mpr ⟨hd, rfl, hlt⟩
        rw [this] at hres
        simp at hres

theorem ParseInt_eq_ok (s : GoString) (v : Int) :
    ParseInt s = (v, none) ↔ isInt s = true ∧ intValue s = v := by
  cases s with
  | nil => simp [ParseInt, isInt, isDecimal]
  | cons c rest =>
    unfold ParseInt isInt isDecimal intValue
    by_cases hminus : c = byte 0x2D
    · subst hminus
      have hne : ¬ (byte 0x2D = byte 0x2B) := by decide
      simp only [or_true, if_true, decide_True, Bool.not_true, Bool.false_and,
        Bool.false_eq_true, if_false, Bool.true_and, hne]
      rcases ParseUint_cases rest with ⟨h1, h2, h3, h4⟩ | ⟨h1, x, e, h4, h5⟩
      · rw [h4]
        have hemp : rest.isEmpty = false := by
          cases rest with
          | nil => exact absurd rfl h1
          | cons _ _ => rfl
        simp only [hemp, h2, Bool.not_false, Bool.and_self, Bool.true_and, Bool.and_eq_true,
          decide_eq_true_eq, gt_iff_lt]
        by_cases hr : decimalValue rest > 2 ^ 63
        · have hr' : (2 : Nat) ^ 63 < decimalValue rest := hr
          simp only [hr', if_true, Prod.mk.injEq, reduceCtorEq, and_false, false_iff]
          intro ⟨⟨hlo, _⟩, _⟩
          omega
        · have hr' : ¬ ((2 : Nat) ^ 63 < decimalValue rest) := hr
          simp only [hr', if_false, Prod.mk.injEq, and_true]
          constructor
          · intro h
            exact ⟨⟨by omega, by omega⟩, h⟩
          · intro h
            exact h.2
      · rw [h4]
        have hfalse : ¬ (((!rest.isEmpty) = true ∧ rest.all isDigit = true)
            ∧ -(2 : Int) ^ 63 ≤ -(decimalValue rest : Int)) := by
          intro ⟨hd, hlo⟩
          apply h1
          simp only [Bool.not_eq_true', List.isEmpty_eq_false] at hd
          exact ⟨hd.1, hd.2, by omega⟩
        rcases h5 with h5 | h5
        · subst h5
          simp only [Prod.mk.injEq, reduceCtorEq, and_false, false_iff, Bool.and_eq_true,
            decide_eq_true_eq]
          intro ⟨⟨⟨hd, hlo⟩, _⟩, _⟩
          exact hfalse ⟨hd, hlo⟩
        · subst h5
          have hbig : maxUint64 > 2 ^ 63 := by decide
          cases e <;>
          · simp only [hbig, decide_True, if_true, Prod.mk.injEq, reduceCtorEq, and_false,
              false_iff, Bool.and_eq_true, decide_eq_true_eq]
            intro ⟨⟨⟨hd, hlo⟩, _⟩, _⟩
            exact hfalse ⟨hd, hlo⟩
    · have hdec : decide (c = byte 0x2D) = false := by simp [hminus]
      simp only [hminus, or_false, if_false, hdec, decide_False, Bool.not_false, Bool.true_and,
        Bool.false_and, Bool.false_eq_true, true_and, false_and]
      by_cases hplus : c = byte 0x2B
      · subst hplus
        simp only [if_true]
        rcases ParseUint_cases rest with ⟨h1, h2, h3, h4⟩ | ⟨h1, x, e, h4, h5⟩
        · rw [h4]
          have hemp : rest.isEmpty = false := by
            cases rest with
            | nil => exact absurd rfl h1
            | cons _ _ => rfl
          simp only [hemp, h2, Bool.not_false, Bool.and_self, Bool.true_and, Bool.and_eq_true,
            decide_eq_true_eq, ge_iff_le]
          by_cases hr : 2 ^ 63 ≤ decimalValue rest
          · simp only [hr, if_true, Prod.mk.injEq, reduceCtorEq, and_false, false_iff]
            intro ⟨⟨_, hhi⟩, _⟩
            omega
          · simp only [hr, if_false, Prod.mk.injEq, and_true]
            constructor
            · intro h
              exact ⟨⟨by omega, by omega⟩, h⟩
            · intro h
              exact h.2
        · rw [h4]
          have hfalse : ¬ ((((!rest.isEmpty) = true ∧ rest.all isDigit = true)
              ∧ -(2 : Int) ^ 63 ≤ (decimalValue rest : Int))
              ∧ (decimalValue rest : Int) < 2 ^ 63) := by
            intro ⟨⟨hd, _⟩, hhi⟩
            apply h1
            simp only [Bool.not_eq_true', List.isEmpty_eq_false] at hd
            exact ⟨hd.1, hd.2, by omega⟩
          rcases h5 with h5 | h5
          · subst h5
            simp only [Prod.mk.injEq, reduceCtorEq, and_false, false_iff, Bool.and_eq_true,
              decide_eq_true_eq]
            intro ⟨h, _⟩
            exact hfalse h
          · subst h5
            have hbig : maxUint64 ≥ 2 ^ 63 := by decide
            cases e <;>
            · simp only [hbig, decide_True, if_true, Prod.mk.injEq, reduceCtorEq, and_false,
                false_iff, Bool.and_eq_true, decide_eq_true_eq]
              intro ⟨h, _⟩
              exact hfalse h
      · simp only [hplus, if_false]
        rcases ParseUint_cases (c :: rest) with ⟨h1, h2, h3, h4⟩ | ⟨h1, x, e, h4, h5⟩
        · rw [h4]
          simp only [h2, Bool.true_and, Bool.and_eq_true, decide_eq_true_eq, ge_iff_le]
          by_cases hr : 2 ^ 63 ≤ decimalValue (c :: rest)
          · simp only [hr, if_true, Prod.mk.injEq, reduceCtorEq, and_false, false_iff]
            intro ⟨⟨_, hhi⟩, _⟩
            omega
          · simp only [hr, if_false, Prod.mk.injEq, and_true]
            constructor
            · intro h
              exact ⟨⟨by omega, by omega⟩, h⟩
            · intro h
              exact h.2
        · rw [h4]
          have hfalse : ¬ ((((c :: rest).all isDigit = true)
              ∧ -(2 : Int) ^ 63 ≤ (decimalValue (c :: rest) : Int))
              ∧ (decimalValue (c :: rest) : Int) < 2 ^ 63) := by
            intro ⟨⟨hd, _⟩, hhi⟩
            apply h1
            exact ⟨by simp, hd, by omega⟩
          rcases h5 with h5 | h5
          · subst h5
            simp only [Prod.mk.injEq, reduceCtorEq, and_false, false_iff, Bool.and_eq_true,
              decide_eq_true_eq]
            intro ⟨h, _⟩
            exact hfalse h
          · subst h5
            have hbig : maxUint64 ≥ 2 ^ 63 := by decide
            cases e <;>
            · simp only [hbig, decide_True, if_true, Prod.mk.injEq, reduceCtorEq, and_false,
                false_iff, Bool.and_eq_true, decide_eq_true_eq]
              intro ⟨h, _⟩
              exact hfalse h

theorem decimalValue_lt_of_short (ds : GoString) (hd : ds.all isDigit = true)
    (hlen : ds.length ≤ 18) : decimalValue ds < 10 ^ 18 := by
  have h := foldl_digits_lt ds 0 hd
  have hp : 10 ^ ds.length ≤ 10 ^ 18 := Nat.pow_le_pow_right (by norm_num) hlen
  unfold decimalValue
  omega

theorem Atoi_error_num (s : GoString) (v : Int) (e : Error) (h : Atoi s = (v, some e)) :
    ∃ k, e = .num s k := by
  unfold Atoi at h
  by_cases hfast : 0 < s.length ∧ s.length < 19
  · rw [if_pos hfast] at h
    cases s with
    | nil => simp at hfast
    | cons c rest =>
      simp only [] at h
      generalize (if decide (c = byte 0x2D ∨ c = byte 0x2B) = true then rest else c :: rest)
        = digits at h
      by_cases hcond : (decide (c = byte 0x2D ∨ c = byte 0x2B) && decide (digits.length < 1))
          = true
      · rw [if_pos hcond] at h
        simp only [Prod.mk.injEq, Option.some.injEq] at h
        exact ⟨_, h.2.symm⟩
      · rw [if_neg hcond] at h
        cases hl : atoiFastLoop digits 0 with
        | none =>
          rw [hl] at h
          simp only [Prod.mk.injEq, Option.some.injEq] at h
          exact ⟨_, h.2.symm⟩
        | some n =>
          rw [hl] at h
          simp only [Prod.mk.injEq, reduceCtorEq, and_false] at h
  · rw [if_neg hfast] at h
    cases hres : ParseInt s with
    | mk i oe =>
      rw [hres] at h
      cases oe with
      | none => simp only [Prod.mk.injEq, reduceCtorEq, and_false] at h
      | some k =>
        simp only [Prod.mk.injEq, Option.some.injEq] at h
        exact ⟨_, h.2.symm⟩

/-- `strconv.Atoi` returns a value without error exactly for the base-10
numerals that fit a 64-bit `int`, and the value is the number they denote. -/
theorem Atoi_eq_ok (s : GoString) (v : Int) :
    Atoi s = (v, none) ↔ isInt s = true ∧ intValue s = v := by
  unfold Atoi
  by_cases hfast : 0 < s.length ∧ s.length < 19
  · rw [if_pos hfast]
    cases s with
    | nil => simp at hfast
    | cons c rest =>
      simp only [List.length_cons] at hfast
      unfold isInt isDecimal intValue
      by_cases hminus : c = byte 0x2D
      · subst hminus
        have hne : ¬ (byte 0x2D = byte 0x2B) := by decide
        simp only [true_or, or_true, decide_True, if_true, Bool.true_and, hne, if_false]
        by_cases hemp : rest.length < 1
        · have hnil : rest = [] := by
            cases rest with
            | nil => rfl
            | cons _ _ => simp at hemp
          subst hnil
          simp
        · have hne2 : rest.isEmpty = false := by
            cases rest with
            | nil => simp at hemp
            | cons _ _ => rfl
          simp only [hemp, decide_False, Bool.false_eq_true, if_false, hne2, Bool.not_false,
            Bool.true_and, Bool.and_eq_true, decide_eq_true_eq]
          cases hloop : atoiFastLoop rest 0 with
          | none =>
            simp only [Prod.mk.injEq, reduceCtorEq, and_false, false_iff]
            intro ⟨⟨⟨hd, _⟩, _⟩, _⟩
            have := (atoiFastLoop_eq_some rest 0 _).mpr ⟨hd, rfl⟩
            rw [this] at hloop
            simp at hloop
          | some n =>
            have hn := (atoiFastLoop_eq_some rest 0 n).mp hloop
            have hb := decimalValue_lt_of_short rest hn.1 (by omega)
            have hv : n = decimalValue rest := hn.2
            subst hv
            simp only [Prod.mk.injEq, and_true, hn.1, true_and]
            constructor
            · intro h
              exact ⟨⟨by omega, by omega⟩, h⟩
            · intro h
              exact h.2
      · by_cases hplus : c = byte 0x2B
        · subst hplus
          simp only [hminus, true_or, or_true, decide_True, if_true, Bool.true_and, if_false]
          by_cases hemp : rest.length < 1
          · have hnil : rest = [] := by
              cases rest with
              | nil => rfl
              | cons _ _ => simp at hemp
            subst hnil
            simp
          · have hne2 : rest.isEmpty = false := by
              cases rest with
              | nil => simp at hemp
              | cons _ _ => rfl
            simp only [hemp, decide_False, Bool.false_eq_true, if_false, hne2, Bool.not_false,
              Bool.true_and, Bool.and_eq_true, decide_eq_true_eq]
            cases hloop : atoiFastLoop rest 0 with
            | none =>
              simp only [Prod.mk.injEq, reduceCtorEq, and_false, false_iff]
              intro ⟨⟨⟨hd, _⟩, _⟩, _⟩
              have := (atoiFastLoop_eq_some rest 0 _).mpr ⟨hd, rfl⟩
              rw [this] at hloop
              simp at hloop
            | some n =>
              have hn := (atoiFastLoop_eq_some rest 0 n).mp hloop
              have hb := decimalValue_lt_of_short rest hn.1 (by omega)
              have hv : n = decimalValue rest := hn.2
              subst hv
              simp only [Prod.mk.injEq, and_true, hn.1, true_and]
              constructor
              · intro h
                exact ⟨⟨by omega, by omega⟩, h⟩
              · intro h
                exact h.2
        · simp only [hminus, hplus, or_self, decide_False, Bool.false_and, Bool.false_eq_true,
            if_false, Bool.and_eq_true, decide_eq_true_eq]
          cases hloop : atoiFastLoop (c :: rest) 0 with
          | none =>
            simp only [Prod.mk.injEq, reduceCtorEq, and_false, false_iff]
            intro ⟨⟨⟨hd, _⟩, _⟩, _⟩
            have := (atoiFastLoop_eq_some (c :: rest) 0 _).mpr ⟨hd, rfl⟩
            rw [this] at hloop
            simp at hloop
          | some n =>
            have hn := (atoiFastLoop_eq_some (c :: rest) 0 n).mp hloop
            have hb := decimalValue_lt_of_short (c :: rest) hn.1
              (by simp only [List.length_cons]; omega)
            have hv : n = decimalValue (c :: rest) := hn.2
            subst hv
            simp only [Prod.mk.injEq, and_true, hn.1, true_and]
            constructor
            · intro h
              exact ⟨⟨by omega, by omega⟩, h⟩
            · intro h
              exact h.2
  · rw [if_neg hfast, ← ParseInt_eq_ok]
    cases hres : ParseInt s with
    | mk i oe =>
      cases oe with
      | none => simp
      | some e => simp

theorem Atoi_of_not_isInt (s : GoString) (h : isInt s = false) :
    ∃ v k, Atoi s = (v, some (.num s k)) := by
  cases hres : Atoi s with
  | mk v oe =>
    cases oe with
    | none =>
      have := ((Atoi_eq_ok s v).mp hres).1
      rw [h] at this
      exact absurd this (by simp)
    | some e =>
      obtain ⟨k, hk⟩ := Atoi_error_num s v e hres
      exact ⟨v, k, by rw [hk]⟩

theorem Atoi_of_isInt (s : GoString) (h : isInt s = true) : Atoi s = (intValue s, none) :=
  (Atoi_eq_ok s (intValue s)).mpr ⟨h, rfl⟩

theorem sizeField_of_ne_dash (s : GoString) (h : s ≠ str "-") : sizeField s = Atoi s := by
  simp [sizeField, h]

theorem sizeField_dash : sizeField (str "-") = (0, none) := by
  simp [sizeField]

theorem getLast?_append_pair {α : Type} (pre : List α) (a b : α) :
    (pre ++ [a, b]).getLast? = some b := by
  simp [List.getLast?_append]

theorem getElem?_append_pair {α : Type} (pre : List α) (a b : α) :
    (pre ++ [a, b])[(pre ++ [a, b]).length - 2]? = some a := by
  have h : (pre ++ [a, b]).length - 2 = pre.length := by simp
  rw [h, List.getElem?_append_right (le_refl _)]
  simp

/-! ### Claim C5 -/

/-- C5: when the last token is neither exactly `-` nor a base-10 integer (one
that a Go `int` holds), `parseLine` returns the zero Record and the
`strconv.Atoi` error naming that token, the malformed-size error; when the
last token is `-` or such an integer and the second-to-last token is not a
base-10 integer, it returns the zero Record and the `strconv.Atoi` error
naming the second-to-last token, the malformed-status error. -/
theorem parseLine_malformed_number :
    (∀ (line s : GoString), (Fields line).getLast? = some s → s ≠ str "-" → isInt s = false →
      ∃ k, parseLine line = .returns (Record.zero, some (.num s k)))
    ∧ (∀ (line : GoString) (pre : List GoString) (s2 s : GoString),
        Fields line = pre ++ [s2, s] → (s = str "-" ∨ isInt s = true) → isInt s2 = false →
        ∃ k, parseLine line = .returns (Record.zero, some (.num s2 k))) := by
  constructor
  · intro line s hs hdash hint
    obtain ⟨v, k, hk⟩ := Atoi_of_not_isInt s hint
    refine ⟨k, parseLine_size_error line s v _ hs ?_⟩
    rw [sizeField_of_ne_dash s hdash, hk]
  · intro line pre s2 s hf hsize hint
    obtain ⟨v, k, hk⟩ := Atoi_of_not_isInt s2 hint
    have hlast : (Fields line).getLast? = some s := by rw [hf]; exact getLast?_append_pair pre s2 s
    have hs2 : (Fields line)[(Fields line).length - 2]? = some s2 := by
      rw [hf]; exact getElem?_append_pair pre s2 s
    have hlen : 2 ≤ (Fields line).length := by rw [hf]; simp
    have hsz : ∃ size, sizeField s = (size, none) := by
      by_cases hd : s = str "-"
      · exact ⟨0, by rw [hd]; exact sizeField_dash⟩
      · have hi : isInt s = true := hsize.resolve_left hd
        exact ⟨intValue s, by rw [sizeField_of_ne_dash s hd]; exact Atoi_of_isInt s hi⟩
    obtain ⟨size, hsz⟩ := hsz
    exact ⟨k, parseLine_status_error line s s2 size v _ hlast hsz hs2 hlen hk⟩

/-- Instances of C5: in `h - - x` the size token `x` is rejected, and in
`h 2x0 1687` the status token `2x0` is. -/
theorem parseLine_malformed_number_witness :
    (∃ k, parseLine (str "h - - x") = .returns (Record.zero, some (.num (str "x") k)))
    ∧ (∃ k, parseLine (str "h 2x0 1687") = .returns (Record.zero, some (.num (str "2x0") k))) :=
  ⟨parseLine_malformed_number.1 (str "h - - x") (str "x") (by decide) (by decide) (by decide),
   parseLine_malformed_number.2 (str "h 2x0 1687") [str "h"] (str "2x0") (str "1687")
     (by decide) (by decide) (by decide)⟩


/-! ### The scanner and the loop of `Query` -/

theorem scanTokens_of_short (ls : List GoString)
    (h : ∀ l ∈ ls, l.length < MaxScanTokenSize) : scanTokens ls = (ls.map dropCR, none) := by
  induction ls with
  | nil => rfl
  | cons l ls ih =>
    have hl : ¬ (MaxScanTokenSize ≤ l.length) := by
      have := h l (List.mem_cons_self l ls)
      omega
    have hrest := ih (fun x hx => h x (List.mem_cons_of_mem l hx))
    simp [scanTokens, hl, hrest]

theorem scanTokens_append_short (pre post : List GoString)
    (h : ∀ l ∈ pre, l.length < MaxScanTokenSize) :
    scanTokens (pre ++ post) = (pre.map dropCR ++ (scanTokens post).1, (scanTokens post).2) := by
  induction pre with
  | nil => rfl
  | cons l ls ih =>
    have hl : ¬ (MaxScanTokenSize ≤ l.length) := by
      have := h l (List.mem_cons_self l ls)
      omega
    have hrest := ih (fun x hx => h x (List.mem_cons_of_mem l hx))
    simp [scanTokens, hl, hrest]

theorem scanTokens_long (l : GoString) (ls : List GoString) (h : MaxScanTokenSize ≤ l.length) :
    scanTokens (l :: ls) = ([], some .tooLong) := by
  simp [scanTokens, h]

theorem queryLoop_all_ok (filter : Filter) (scanErr : Option Error) (texts : List GoString)
    (records : List Record)
    (h : List.Forall₂ (fun l r => parseLine l = .returns (r, none)) texts records)
    (lNum : Nat) (result : List Record) :
    queryLoop filter scanErr texts lNum result
      = queryLoop filter scanErr [] (lNum + texts.length)
          (result ++ records.filter fun r => filter.Match r) := by
  induction h generalizing lNum result with
  | nil => simp
  | @cons l r ls rs hl _ ih =>
    rw [queryLoop, hl]
    simp only [Exec.andThen]
    rw [ih]
    by_cases hm : filter.Match r = true
    · simp [hm, List.filter_cons, Nat.add_assoc, Nat.add_comm 1]
    · simp [hm, List.filter_cons, Nat.add_assoc, Nat.add_comm 1]

theorem queryLoop_first_error (filter : Filter) (scanErr : Option Error)
    (texts rest : List GoString) (bad : GoString) (records : List Record) (r0 : Record)
    (e : Error)
    (h : List.Forall₂ (fun l r => parseLine l = .returns (r, none)) texts records)
    (hbad : parseLine bad = .returns (r0, some e)) (lNum : Nat) (result : List Record) :
    queryLoop filter scanErr (texts ++ bad :: rest) lNum result
      = .returns ([], some (.wrapped (lNum + texts.length + 1) e)) := by
  induction h generalizing lNum result with
  | nil =>
    rw [List.nil_append, queryLoop, hbad]
    simp [Exec.andThen]
  | @cons l r ls rs hl _ ih =>
    rw [List.cons_append, queryLoop, hl]
    simp only [Exec.andThen]
    rw [ih]
    simp [Nat.add_assoc, Nat.add_comm 1]

theorem queryLoop_first_panic (filter : Filter) (scanErr : Option Error)
    (texts rest : List GoString) (bad : GoString) (records : List Record) (p : Panic)
    (h : List.Forall₂ (fun l r => parseLine l = .returns (r, none)) texts records)
    (hbad : parseLine bad = .panics p) (lNum : Nat) (result : List Record) :
    queryLoop filter scanErr (texts ++ bad :: rest) lNum result = .panics p := by
  induction h generalizing lNum result with
  | nil =>
    rw [List.nil_append, queryLoop, hbad]
    rfl
  | @cons l r ls rs hl _ ih =>
    rw [List.cons_append, queryLoop, hl]
    simp only [Exec.andThen]
    rw [ih]

/-! ### Lines and leading spaces -/

theorem rawLines_no_newline (l : GoString) (hne : l ≠ []) (h : newline ∉ l) :
    rawLines l = [l] := by
  induction l with
  | nil => exact absurd rfl hne
  | cons b rest ih =>
    have hb : b ≠ newline := fun hb => h (hb ▸ List.mem_cons_self b rest)
    have hrest : newline ∉ rest := fun hm => h (List.mem_cons_of_mem b hm)
    unfold rawLines
    rw [if_neg hb]
    cases rest with
    | nil => simp [rawLines]
    | cons c cs =>
      rw [ih (by simp) hrest]

theorem rawLines_append_newline (l rest : GoString) (h : newline ∉ l) :
    rawLines (l ++ newline :: rest) = l :: rawLines rest := by
  induction l with
  | nil => simp [rawLines]
  | cons b bs ih =>
    have hb : b ≠ newline := fun hb => h (hb ▸ List.mem_cons_self b bs)
    have hrest : newline ∉ bs := fun hm => h (List.mem_cons_of_mem b hm)
    rw [List.cons_append, rawLines, if_neg hb, ih hrest]

theorem Fields_space_cons (s : GoString) : Fields (space :: s) = Fields s := by
  have hd : DecodeRuneInString (space :: s) = (0x20, 1) := by
    have hv : (space : Byte).val = 0x20 := rfl
    unfold DecodeRuneInString
    simp only [hv]
    rfl
  have hsp : IsSpace 0x20 = true := by decide
  unfold Fields
  rw [List.length_cons, fieldsLoop]
  simp only [hd, hsp, if_true, flush, List.drop_one, List.tail_cons, List.nil_append]

theorem Fields_replicate_space_append (n : Nat) (s : GoString) :
    Fields (List.replicate n space ++ s) = Fields s := by
  induction n with
  | zero => simp
  | succ n ih => rw [List.replicate_succ, List.cons_append, Fields_space_cons, ih]

theorem parseLine_congr (a b : GoString) (h : Fields a = Fields b) :
    parseLine a = parseLine b := by
  unfold parseLine
  rw [h]

theorem parseLine_padding (s : GoString) : parseLine (padding ++ s) = parseLine s :=
  parseLine_congr _ _ (Fields_replicate_space_append _ s)

theorem dropCR_append (a s : GoString) (hs : s ≠ []) : dropCR (a ++ s) = a ++ dropCR s := by
  unfold dropCR
  rw [List.getLast?_append_of_ne_nil a hs]
  by_cases h : s.getLast? = some (byte 0x0D)
  · rw [if_pos h, if_pos h, List.dropLast_append_of_ne_nil a hs]
  · rw [if_neg h, if_neg h]

theorem newline_not_mem_padding : newline ∉ padding := by
  intro h
  have := (List.mem_replicate.mp h).2
  revert this
  decide

theorem padding_length_le (s : GoString) : MaxScanTokenSize ≤ (padding ++ s).length := by
  rw [List.length_append, padding, List.length_replicate]
  exact Nat.le_add_right _ _


theorem parsed_eq_some (l : GoString) (r : Record) :
    parsed l = some r ↔ parseLine l = .returns (r, none) := by
  unfold parsed
  cases h : parseLine l with
  | panics p => simp
  | returns re =>
    obtain ⟨r', oe⟩ := re
    cases oe with
    | none => simp
    | some e => simp

theorem forall₂_filterMap_parsed (texts : List GoString)
    (h : ∀ l ∈ texts, (parsed l).isSome = true) :
    List.Forall₂ (fun l r => parseLine l = .returns (r, none)) texts (texts.filterMap parsed)
    ∧ (texts.filterMap parsed).length = texts.length := by
  induction texts with
  | nil => exact ⟨List.Forall₂.nil, rfl⟩
  | cons l ls ih =>
    obtain ⟨r, hr⟩ := Option.isSome_iff_exists.mp (h l (List.mem_cons_self l ls))
    have hrest := ih (fun x hx => h x (List.mem_cons_of_mem l hx))
    rw [List.filterMap_cons_some hr]
    exact ⟨List.Forall₂.cons ((parsed_eq_some l r).mp hr) hrest.1, by simp [hrest.2]⟩

theorem Query_of_short_lines (src : GoString) (f : Filter)
    (hshort : ∀ l ∈ rawLines src, l.length < MaxScanTokenSize)
    (hparse : ∀ l ∈ lines src, (parsed l).isSome = true) :
    Query src f
      = .returns (((lines src).filterMap parsed).filter (fun r => f.Match r), none) := by
  have hscan : scan src = (lines src, none) := scanTokens_of_short _ hshort
  unfold Query
  rw [hscan]
  simp only []
  rw [queryLoop_all_ok f none (lines src) _ (forall₂_filterMap_parsed _ hparse).1]
  simp [queryLoop]

/-! ### Claims C2, C3 and C9 -/

/-- C2, amended: for every source whose lines are all shorter than 65536 bytes
(the scanner's buffer limit) and all parse successfully, and for every Filter,
`Query` returns without error exactly the Records of the lines, in input
order, that the filter matches: one parsed Record per line, of which the
result is the order-preserving sublist of matching ones. -/
theorem Query_eq_filter_parsed (src : GoString) (f : Filter)
    (hshort : ∀ l ∈ rawLines src, l.length < MaxScanTokenSize)
    (hparse : ∀ l ∈ lines src, (parsed l).isSome = true) :
    Query src f
        = .returns (((lines src).filterMap parsed).filter (fun r => f.Match r), none)
    ∧ ((lines src).filterMap parsed).length = (lines src).length
    ∧ List.Forall₂ (fun l r => parseLine l = .returns (r, none))
        (lines src) ((lines src).filterMap parsed)
    ∧ (((lines src).filterMap parsed).filter (fun r => f.Match r)).Sublist
        ((lines src).filterMap parsed) :=
  ⟨Query_of_short_lines src f hshort hparse, (forall₂_filterMap_parsed _ hparse).2,
    (forall₂_filterMap_parsed _ hparse).1, List.filter_sublist _⟩

/-- Instance of C2: of three well-formed lines the filter `skylab` keeps the
first and the third, in that order, each once although `skylab` occurs twice
in the first path. -/
theorem Query_eq_filter_parsed_witness :
    Query threeLines ⟨str "skylab"⟩
        = .returns (((lines threeLines).filterMap parsed).filter
            (fun r => (Filter.mk (str "skylab")).Match r), none)
    ∧ ((lines threeLines).filterMap parsed).length = (lines threeLines).length
    ∧ List.Forall₂ (fun l r => parseLine l = .returns (r, none))
        (lines threeLines) ((lines threeLines).filterMap parsed)
    ∧ (((lines threeLines).filterMap parsed).filter
          (fun r => (Filter.mk (str "skylab")).Match r)).Sublist
        ((lines threeLines).filterMap parsed) :=
  Query_eq_filter_parsed threeLines ⟨str "skylab"⟩ (by decide) (by decide)

/-- C2 as stated fails: the one line of `longSource` parses successfully, yet
`Query` returns the error `bufio.ErrTooLong` and no Record. -/
theorem Query_longSource_tooLong :
    lines longSource = [longSource]
    ∧ (∀ l ∈ lines longSource, (parsed l).isSome = true)
    ∧ Query longSource ⟨str "x"⟩ = .returns ([], some .tooLong) := by
  have hne : okLine ≠ [] := by decide
  have hnl : newline ∉ longSource := by
    intro h
    rcases List.mem_append.mp h with h | h
    · exact newline_not_mem_padding h
    · revert h
      decide
  have hraw : rawLines longSource = [longSource] :=
    rawLines_no_newline _ (by simp [longSource, hne]) hnl
  have hcr : dropCR longSource = longSource := by
    unfold longSource
    rw [dropCR_append _ _ hne]
    congr 1
  have hlines : lines longSource = [longSource] := by
    unfold lines
    rw [hraw, List.map_singleton, hcr]
  refine ⟨hlines, ?_, ?_⟩
  · intro l hl
    rw [hlines, List.mem_singleton] at hl
    subst hl
    have hp : parseLine okLine = .returns
        (⟨str "h", Date 1995 8 1 4 0 10 0, str "GET", str "/x", 200, 1⟩, none) := by
      set_option maxRecDepth 100000 in decide
    have : parsed longSource = some ⟨str "h", Date 1995 8 1 4 0 10 0, str "GET", str "/x", 200, 1⟩ := by
      rw [parsed_eq_some]
      unfold longSource
      rw [parseLine_padding, hp]
    rw [this]
    rfl
  · have hlong : scanTokens [longSource] = ([], some .tooLong) :=
      scanTokens_long longSource [] (padding_length_le okLine)
    unfold Query scan
    rw [hraw, hlong]
    rfl


/-- C3, amended: when the source splits into lines of which the first `k - 1`
are shorter than 65536 bytes and parse successfully, and line `k` is shorter
than 65536 bytes and is the first that does not parse, the outcome follows
that of `parseLine` on line `k`. If `parseLine` returns an error there, `Query`
returns the error `fmt.Errorf("%d: %w", k, err)` that cites line `k` and wraps
that parse error, together with a `nil` result, whatever lines `1 .. k - 1`
matched. If `parseLine` panics there, as on a blank line, `Query` panics with
the same run-time error and returns nothing. A line that does not parse does
one or the other. -/
theorem Query_first_parse_error (src : GoString) (f : Filter) (pre post : List GoString)
    (bad : GoString)
    (hraw : rawLines src = pre ++ bad :: post)
    (hpre : ∀ l ∈ pre, l.length < MaxScanTokenSize ∧ (parsed (dropCR l)).isSome = true)
    (hshort : bad.length < MaxScanTokenSize) :
    (∀ (r0 : Record) (e : Error), parseLine (dropCR bad) = .returns (r0, some e) →
      Query src f = .returns ([], some (.wrapped (pre.length + 1) e)))
    ∧ (∀ p : Panic, parseLine (dropCR bad) = .panics p → Query src f = .panics p)
    ∧ (parsed (dropCR bad) = none →
        (∃ r0 e, parseLine (dropCR bad) = .returns (r0, some e))
        ∨ ∃ p, parseLine (dropCR bad) = .panics p) := by
  have hb : ¬ (MaxScanTokenSize ≤ bad.length) := by omega
  have hscan : scan src
      = (pre.map dropCR ++ dropCR bad :: (scanTokens post).1, (scanTokens post).2) := by
    unfold scan
    rw [hraw, scanTokens_append_short pre _ (fun l hl => (hpre l hl).1)]
    simp [scanTokens, hb]
  have hall : ∀ l ∈ pre.map dropCR, (parsed l).isSome = true := by
    intro l hl
    obtain ⟨l', hl', rfl⟩ := List.mem_map.mp hl
    exact (hpre l' hl').2
  refine ⟨?_, ?_, ?_⟩
  · intro r0 e hbad
    unfold Query
    rw [hscan]
    simp only []
    rw [queryLoop_first_error f _ (pre.map dropCR) _ (dropCR bad) _ r0 e
      (forall₂_filterMap_parsed _ hall).1 hbad]
    simp
  · intro p hbad
    unfold Query
    rw [hscan]
    simp only []
    rw [queryLoop_first_panic f _ (pre.map dropCR) _ (dropCR bad) _ p
      (forall₂_filterMap_parsed _ hall).1 hbad]
  · intro hnone
    rcases h : parseLine (dropCR bad) with ⟨r, _ | e⟩ | p
    · rw [(parsed_eq_some _ r).mpr h] at hnone
      cases hnone
    · exact Or.inl ⟨r, e, rfl⟩
    · exact Or.inr ⟨p, rfl⟩

/-- Instances of C3: in `thirdLineBad` the first two lines match the filter
`skylab` and the third has the size token `12x`; `Query` returns the error
citing line 3 and no Record. In `thirdLineBlank` the third line is blank, on
which `parseLine` panics at `fields[len(fields)-1]`, and so does `Query`. -/
theorem Query_first_parse_error_witness :
    Query thirdLineBad ⟨str "skylab"⟩
      = .returns ([], some (.wrapped 3 (.num (str "12x") .syntaxErr)))
    ∧ (parsed ((lines thirdLineBad).getD 0 [])).map (fun r => (Filter.mk (str "skylab")).Match r)
        = some true
    ∧ (parsed ((lines thirdLineBad).getD 1 [])).map (fun r => (Filter.mk (str "skylab")).Match r)
        = some true
    ∧ Query thirdLineBlank ⟨str "skylab"⟩ = .panics (.indexOutOfRange (-1) 0) :=
  ⟨(Query_first_parse_error thirdLineBad ⟨str "skylab"⟩
      [str "a - - [01/Aug/1995:00:00:10 -0400] \"GET /history/skylab/skylab.html HTTP/1.0\" 200 1687",
       str "c - - [01/Aug/1995:00:00:12 -0400] \"GET /skylab HTTP/1.0\" 304 0"]
      []
      (str "d - - [01/Aug/1995:00:00:13 -0400] \"GET /skylab HTTP/1.0\" 200 12x")
      (by decide) (by set_option maxRecDepth 100000 in decide) (by decide)).1
      Record.zero (.num (str "12x") .syntaxErr)
      (by set_option maxRecDepth 100000 in decide),
    by set_option maxRecDepth 100000 in decide,
    by set_option maxRecDepth 100000 in decide,
    (Query_first_parse_error thirdLineBlank ⟨str "skylab"⟩
      [str "a - - [01/Aug/1995:00:00:10 -0400] \"GET /history/skylab/skylab.html HTTP/1.0\" 200 1687",
       str "c - - [01/Aug/1995:00:00:12 -0400] \"GET /skylab HTTP/1.0\" 304 0"]
      [str "d - - [01/Aug/1995:00:00:13 -0400] \"GET /skylab HTTP/1.0\" 200 12"]
      (str "")
      (by decide) (by set_option maxRecDepth 100000 in decide) (by decide)).2.1
      (.indexOutOfRange (-1) 0)
      (by decide)⟩

/-- C3 as stated fails: in `longThenBad` line 1 parses successfully and line 2
is the first on which `parseLine` fails, yet the error `Query` returns is
`bufio.ErrTooLong`, which cites no line and wraps no parse error. -/
theorem Query_longThenBad_tooLong :
    rawLines longThenBad = [longSource, str "x"]
    ∧ (parsed (dropCR longSource)).isSome = true
    ∧ parseLine (dropCR (str "x")) = .returns (Record.zero, some (.num (str "x") .syntaxErr))
    ∧ Query longThenBad ⟨str "x"⟩ = .returns ([], some .tooLong) := by
  have hne : okLine ≠ [] := by decide
  have hnl : newline ∉ longSource := by
    intro h
    rcases List.mem_append.mp h with h | h
    · exact newline_not_mem_padding h
    · revert h
      decide
  have hx : rawLines (str "x") = [str "x"] := by decide
  have hraw : rawLines longThenBad = [longSource, str "x"] := by
    have := rawLines_append_newline longSource (str "x") hnl
    rw [hx] at this
    exact this
  have hcr : dropCR longSource = longSource := by
    unfold longSource
    rw [dropCR_append _ _ hne]
    congr 1
  refine ⟨hraw, ?_, by decide, ?_⟩
  · have hp : parseLine okLine = .returns
        (⟨str "h", Date 1995 8 1 4 0 10 0, str "GET", str "/x", 200, 1⟩, none) := by
      set_option maxRecDepth 100000 in decide
    have : parsed longSource = some ⟨str "h", Date 1995 8 1 4 0 10 0, str "GET", str "/x", 200, 1⟩ := by
      rw [parsed_eq_some]
      unfold longSource
      rw [parseLine_padding, hp]
    rw [hcr, this]
    rfl
  · have hlong : scanTokens [longSource, str "x"] = ([], some .tooLong) :=
      scanTokens_long longSource [str "x"] (padding_length_le okLine)
    unfold Query scan
    rw [hraw, hlong]
    rfl


theorem Match_empty (r : Record) : (Filter.mk []).Match r = true := by
  rw [Filter.Match, Contains_iff_infix]
  exact List.nil_infix

/-- C9, amended: `Filter{Path: ""}.Match(r)` is true for every Record `r`, one
with an empty Path included, so `Query` with the empty filter over a source
whose lines are all shorter than 65536 bytes and all parse successfully
returns without error one Record per input line. -/
theorem Match_empty_filter :
    (∀ r : Record, (Filter.mk []).Match r = true)
    ∧ (Filter.mk []).Match Record.zero = true
    ∧ (∀ src : GoString, (∀ l ∈ rawLines src, l.length < MaxScanTokenSize) →
        (∀ l ∈ lines src, (parsed l).isSome = true) →
        Query src ⟨[]⟩ = .returns ((lines src).filterMap parsed, none)
        ∧ ((lines src).filterMap parsed).length = (lines src).length) := by
  refine ⟨Match_empty, Match_empty _, ?_⟩
  intro src hshort hparse
  refine ⟨?_, (forall₂_filterMap_parsed _ hparse).2⟩
  rw [Query_of_short_lines src ⟨[]⟩ hshort hparse]
  congr 2
  exact List.filter_eq_self.mpr (fun r _ => Match_empty r)

/-- Instance of C9: the empty filter over `threeLines` returns three Records. -/
theorem Match_empty_filter_witness :
    Query threeLines ⟨[]⟩ = .returns ((lines threeLines).filterMap parsed, none)
    ∧ ((lines threeLines).filterMap parsed).length = (lines threeLines).length :=
  Match_empty_filter.2.2 threeLines (by decide) (by decide)

/-- C9 as stated fails: the one line of `longIndented` parses successfully, yet
`Query` with the empty filter returns no Record for it, and the error
`bufio.ErrTooLong`. -/
theorem Query_longIndented_tooLong :
    (lines longIndented).length = 1
    ∧ (∀ l ∈ lines longIndented, (parsed l).isSome = true)
    ∧ Query longIndented ⟨[]⟩ = .returns ([], some .tooLong) := by
  have hne : str "h - - [01/Aug/1995:00:00:10 -0400] \"GET /y HTTP/1.0\" 200 -" ≠ [] := by
    decide
  have hnl : newline ∉ longIndented := by
    intro h
    rcases List.mem_append.mp h with h | h
    · exact newline_not_mem_padding h
    · revert h
      decide
  have hraw : rawLines longIndented = [longIndented] :=
    rawLines_no_newline _ (by simp [longIndented, hne]) hnl
  have hcr : dropCR longIndented = longIndented := by
    unfold longIndented
    rw [dropCR_append _ _ hne]
    congr 1
  have hlines : lines longIndented = [longIndented] := by
    unfold lines
    rw [hraw, List.map_singleton, hcr]
  refine ⟨by rw [hlines]; rfl, ?_, ?_⟩
  · intro l hl
    rw [hlines, List.mem_singleton] at hl
    subst hl
    have hp : parseLine (str "h - - [01/Aug/1995:00:00:10 -0400] \"GET /y HTTP/1.0\" 200 -")
        = .returns (⟨str "h", Date 1995 8 1 4 0 10 0, str "GET", str "/y", 200, 0⟩, none) := by
      set_option maxRecDepth 100000 in decide
    have : parsed longIndented
        = some ⟨str "h", Date 1995 8 1 4 0 10 0, str "GET", str "/y", 200, 0⟩ := by
      rw [parsed_eq_some]
      unfold longIndented
      rw [parseLine_padding, hp]
    rw [this]
    rfl
  · have hlong : scanTokens [longIndented] = ([], some .tooLong) :=
      scanTokens_long longIndented [] (padding_length_le _)
    unfold Query scan
    rw [hraw, hlong]
    rfl


/-! ### Tokens of `strings.Fields` -/

theorem inRange_ge (lo hi : Nat) (b : Byte) (h : inRange lo hi b = true) : lo ≤ b.val := by
  simp only [inRange, Bool.and_eq_true, decide_eq_true_eq] at h
  exact h.1

theorem decodeMulti_bytes (b0 : Byte) (size lo hi : Nat) (rest : GoString)
    (hlo : 0x80 ≤ lo) (hb0 : 0x80 ≤ b0.val) :
    ∀ b ∈ (b0 :: rest).take (decodeMulti b0 size lo hi rest).2, 0x80 ≤ b.val := by
  unfold decodeMulti
  split
  · rename_i b1 tl
    by_cases h : inRange lo hi b1 = true
    · have h1 := inRange_ge _ _ _ h
      simp only [h, if_true, List.take_succ_cons, List.take_zero, List.mem_cons,
        List.mem_nil_iff, or_false]
      rintro b (rfl | rfl) <;> omega
    · simp only [h, Bool.false_eq_true, if_false, List.take_succ_cons, List.take_zero,
        List.mem_cons, List.mem_nil_iff, or_false]
      rintro b rfl
      exact hb0
  · rename_i b1 b2 tl
    by_cases h : (inRange lo hi b1 && inRange 0x80 0xBF b2) = true
    · have h' := h
      simp only [Bool.and_eq_true] at h'
      have h1 := inRange_ge _ _ _ h'.1
      have h2 := inRange_ge _ _ _ h'.2
      simp only [h, if_true, List.take_succ_cons, List.take_zero, List.mem_cons,
        List.mem_nil_iff, or_false]
      rintro b (rfl | rfl | rfl) <;> omega
    · simp only [h, Bool.false_eq_true, if_false, List.take_succ_cons, List.take_zero,
        List.mem_cons, List.mem_nil_iff, or_false]
      rintro b rfl
      exact hb0
  · rename_i b1 b2 b3 tl
    by_cases h : (inRange lo hi b1 && inRange 0x80 0xBF b2 && inRange 0x80 0xBF b3) = true
    · have h' := h
      simp only [Bool.and_eq_true] at h'
      have h1 := inRange_ge _ _ _ h'.1.1
      have h2 := inRange_ge _ _ _ h'.1.2
      have h3 := inRange_ge _ _ _ h'.2
      simp only [h, if_true, List.take_succ_cons, List.take_zero, List.mem_cons,
        List.mem_nil_iff, or_false]
      rintro b (rfl | rfl | rfl | rfl) <;> omega
    · simp only [h, Bool.false_eq_true, if_false, List.take_succ_cons, List.take_zero,
        List.mem_cons, List.mem_nil_iff, or_false]
      rintro b rfl
      exact hb0
  · simp only [List.take_succ_cons, List.take_zero, List.mem_cons, List.mem_nil_iff, or_false]
    rintro b rfl
    exact hb0

theorem decodeMulti_size_pos (b0 : Byte) (size lo hi : Nat) (rest : GoString) :
    1 ≤ (decodeMulti b0 size lo hi rest).2 := by
  unfold decodeMulti
  split <;> (try split) <;> simp

/-- What `utf8.DecodeRuneInString` reads off a non-empty string: an ASCII byte
as itself, otherwise one to four bytes that are all `0x80` or above. -/
theorem DecodeRuneInString_cons (b0 : Byte) (rest : GoString) :
    (b0.val < 0x80 ∧ DecodeRuneInString (b0 :: rest) = (b0.val, 1))
    ∨ (0x80 ≤ b0.val ∧ 1 ≤ (DecodeRuneInString (b0 :: rest)).2
        ∧ ∀ b ∈ (b0 :: rest).take (DecodeRuneInString (b0 :: rest)).2, 0x80 ≤ b.val) := by
  unfold DecodeRuneInString
  by_cases h : b0.val < 0x80
  · left
    simp [h]
  · right
    have hb0 : 0x80 ≤ b0.val := by omega
    refine ⟨hb0, ?_⟩
    simp only [h, if_false]
    repeat' split
    all_goals
      first
      | exact ⟨decodeMulti_size_pos _ _ _ _ _, decodeMulti_bytes _ _ _ _ _ (by norm_num) hb0⟩
      | (refine ⟨le_refl _, ?_⟩
         simp only [List.take_succ_cons, List.take_zero, List.mem_cons, List.mem_nil_iff,
           or_false]
         rintro b rfl
         exact hb0)


theorem mem_flush (cur t : GoString) (h : t ∈ flush cur) : t = cur ∧ cur ≠ [] := by
  unfold flush at h
  by_cases hc : cur = []
  · simp [hc] at h
  · simp only [hc, if_false, List.mem_singleton] at h
    exact ⟨h, hc⟩

theorem take_decode_no_space (b0 : Byte) (rest : GoString)
    (h : IsSpace (DecodeRuneInString (b0 :: rest)).1 = false) :
    ∀ b ∈ (b0 :: rest).take (DecodeRuneInString (b0 :: rest)).2, b ≠ space := by
  rcases DecodeRuneInString_cons b0 rest with ⟨_, hd⟩ | ⟨_, _, hbytes⟩
  · rw [hd] at h ⊢
    simp only [List.take_succ_cons, List.take_zero, List.mem_cons, List.mem_nil_iff, or_false]
    rintro b rfl hsp
    rw [hsp] at h
    revert h
    decide
  · intro b hb hsp
    have := hbytes b hb
    rw [hsp] at this
    revert this
    decide

/-- Every field that the rune loop delivers is non-empty and free of the byte
`' '`, provided the field that is open on entry is free of it. -/
theorem fieldsLoop_tokens (fuel : Nat) (s cur : GoString) (hcur : ∀ b ∈ cur, b ≠ space) :
    ∀ t ∈ fieldsLoop fuel s cur, t ≠ [] ∧ ∀ b ∈ t, b ≠ space := by
  induction fuel generalizing s cur with
  | zero =>
    intro t ht
    rw [fieldsLoop] at ht
    obtain ⟨rfl, hne⟩ := mem_flush _ _ ht
    exact ⟨hne, hcur⟩
  | succ fuel ih =>
    intro t ht
    cases s with
    | nil =>
      rw [fieldsLoop] at ht
      obtain ⟨rfl, hne⟩ := mem_flush _ _ ht
      exact ⟨hne, hcur⟩
    | cons b0 rest =>
      rw [fieldsLoop] at ht
      by_cases hsp : IsSpace (DecodeRuneInString (b0 :: rest)).1 = true
      · rw [if_pos hsp] at ht
        rcases List.mem_append.mp ht with ht | ht
        · obtain ⟨rfl, hne⟩ := mem_flush _ _ ht
          exact ⟨hne, hcur⟩
        · exact ih _ [] (by simp) t ht
      · rw [if_neg hsp] at ht
        refine ih _ _ ?_ t ht
        intro b hb
        rcases List.mem_append.mp hb with hb | hb
        · exact hcur b hb
        · exact take_decode_no_space b0 rest (by simpa using hsp) b hb

theorem Fields_ne_nil (s t : GoString) (h : t ∈ Fields s) : t ≠ [] :=
  (fieldsLoop_tokens _ s [] (by simp) t h).1

theorem Fields_no_space (s t : GoString) (h : t ∈ Fields s) : ∀ b ∈ t, b ≠ space :=
  (fieldsLoop_tokens _ s [] (by simp) t h).2

theorem Fields_getElem?_length_pos (s t : GoString) (i : Nat) (h : (Fields s)[i]? = some t) :
    1 ≤ t.length := by
  have hm : t ∈ Fields s := List.getElem?_mem h
  have := Fields_ne_nil s t hm
  exact List.length_pos.mpr this


/-! ### Outcomes of `parseLine` -/

theorem index_cases {α : Type} (xs : List α) (i : Int) :
    (∃ x, index xs i = .returns x ∧ 0 ≤ i ∧ xs[i.toNat]? = some x)
    ∨ index xs i = .panics (.indexOutOfRange i xs.length) := by
  unfold index
  by_cases hi : i < 0
  · right
    simp [hi]
  · cases h : xs[i.toNat]? with
    | none =>
      right
      simp [hi]
    | some x =>
      left
      exact ⟨x, by simp [hi], by omega, rfl⟩

/-- The three outcomes of `parseLine`: an index-out-of-range panic, the zero
Record with an error, or a Record with a `nil` error. -/
theorem parseLine_cases (line : GoString) :
    (∃ i, parseLine line = .panics (.indexOutOfRange i (Fields line).length))
    ∨ (∃ e, parseLine line = .returns (Record.zero, some e))
    ∨ (∃ r, parseLine line = .returns (r, none)) := by
  unfold parseLine
  simp only []
  rcases index_cases (Fields line) ((Fields line).length - 1) with ⟨s, hs, -, -⟩ | hp
  swap
  · exact Or.inl ⟨_, by rw [hp]; rfl⟩
  rw [hs]
  simp only [Exec.andThen]
  split
  · exact Or.inr (Or.inl ⟨_, rfl⟩)
  rcases index_cases (Fields line) ((Fields line).length - 2) with ⟨s2, hs2, -, -⟩ | hp
  swap
  · exact Or.inl ⟨_, by rw [hp]⟩
  rw [hs2]
  simp only []
  split
  · exact Or.inr (Or.inl ⟨_, rfl⟩)
  rcases index_cases (Fields line) 3 with ⟨f3, hf3, -, -⟩ | hp
  swap
  · exact Or.inl ⟨_, by rw [hp]⟩
  rw [hf3]
  simp only []
  rcases index_cases (Fields line) 4 with ⟨f4, hf4, -, -⟩ | hp
  swap
  · exact Or.inl ⟨_, by rw [hp]⟩
  rw [hf4]
  simp only []
  split
  · exact Or.inr (Or.inl ⟨_, rfl⟩)
  rcases index_cases (Fields line) 0 with ⟨f0, hf0, -, -⟩ | hp
  swap
  · exact Or.inl ⟨_, by rw [hp]⟩
  rw [hf0]
  simp only []
  rcases index_cases (Fields line) 5 with ⟨f5, hf5, -, h5⟩ | hp
  swap
  · exact Or.inl ⟨_, by rw [hp]⟩
  rw [hf5]
  simp only []
  have hlen : 1 ≤ f5.length := Fields_getElem?_length_pos line f5 _ h5
  simp only [sliceFrom, hlen, if_true]
  rcases index_cases (Fields line) 6 with ⟨f6, hf6, -, -⟩ | hp
  swap
  · exact Or.inl ⟨_, by rw [hp]⟩
  rw [hf6]
  exact Or.inr (Or.inr ⟨_, rfl⟩)

/-! ### Claim C4 -/

/-- C4, amended: on a line that splits into fewer than 7 tokens `parseLine`
never returns a Record. It either returns the zero Record with the error of a
malformed size, status or timestamp token, or it panics with an
index-out-of-range run-time error, which is what it does on a line without
any token; the code has no error for too few fields. -/
theorem parseLine_few_fields (line : GoString) (h : (Fields line).length < 7) :
    ((∃ i, parseLine line = .panics (.indexOutOfRange i (Fields line).length))
      ∨ (∃ e, parseLine line = .returns (Record.zero, some e)))
    ∧ (Fields line = [] → parseLine line = .panics (.indexOutOfRange (-1) 0)) := by
  refine ⟨?_, fun hnil => by unfold parseLine; rw [hnil]; rfl⟩
  rcases parseLine_cases line with hp | he | ⟨r, hr⟩
  · exact Or.inl hp
  · exact Or.inr he
  · obtain ⟨_, _, _, _, _, _, f6, _, _, _, _, _, _, _, _, _, _, _, _, _, _, _, h6, _⟩ :=
      parseLine_ok_inv line r hr
    have : 6 < (Fields line).length := by
      by_contra hlt
      rw [List.getElem?_eq_none (by omega)] at h6
      exact absurd h6 (by simp)
    omega

/-- Instance of C4 at the line `h - -`, which has three tokens. -/
theorem parseLine_few_fields_witness :
    ((∃ i, parseLine (str "h - -") = .panics (.indexOutOfRange i (Fields (str "h - -")).length))
      ∨ (∃ e, parseLine (str "h - -") = .returns (Record.zero, some e)))
    ∧ (Fields (str "h - -") = [] → parseLine (str "h - -") = .panics (.indexOutOfRange (-1) 0)) :=
  parseLine_few_fields (str "h - -") (by decide)

/-- C4 as stated fails: the empty line and a line of only whitespace have no
token, and `parseLine` panics on them at `fields[len(fields)-1]`; the line
`a b 200 1` has four tokens and `parseLine` panics on it at `fields[4]`. -/
theorem parseLine_empty_line_panics :
    (Fields (str "")).length < 7
    ∧ parseLine (str "") = .panics (.indexOutOfRange (-1) 0)
    ∧ parseLine (str " \t ") = .panics (.indexOutOfRange (-1) 0)
    ∧ parseLine (str "a b 200 1") = .panics (.indexOutOfRange 4 4) := by
  set_option maxRecDepth 100000 in decide


/-! ### The elements of `time.Parse` -/

theorem byte_val_of_lt (n : Nat) (h : n < 256) : (byte n).val = n := Nat.mod_eq_of_lt h

theorem digit_val (n : Nat) : (digit n).val = 0x30 + n % 10 := by
  unfold digit
  exact byte_val_of_lt _ (by omega)

theorem isDigit_digit (n : Nat) : isDigit (digit n) = true := by
  rw [isDigit_iff, digit_val]
  omega

theorem digitVal_digit (n : Nat) : digitVal (digit n) = n % 10 := by
  unfold digitVal
  rw [digit_val]
  omega

theorem digit_digitVal (c : Byte) (h : isDigit c = true) : digit (digitVal c) = c := by
  have hc := (isDigit_iff c).mp h
  apply Fin.ext
  rw [digit_val]
  unfold digitVal
  omega

theorem digitVal_le (c : Byte) (h : isDigit c = true) : digitVal c ≤ 9 := by
  have hc := (isDigit_iff c).mp h
  unfold digitVal
  omega

theorem twoDigits_of_digits (a b : Byte) (ha : isDigit a = true) (hb : isDigit b = true) :
    twoDigits (digitVal a * 10 + digitVal b) = [a, b]
    ∧ digitVal a * 10 + digitVal b < 100 := by
  have h1 := digitVal_le a ha
  have h2 := digitVal_le b hb
  have e1 : (digitVal a * 10 + digitVal b) / 10 = digitVal a := by omega
  refine ⟨?_, by omega⟩
  unfold twoDigits
  rw [e1, digit_digitVal a ha]
  have e2 : digit (digitVal a * 10 + digitVal b) = digit (digitVal b) := by
    unfold digit
    congr 2
    omega
  rw [e2, digit_digitVal b hb]

theorem getnum_fixed_eq_some (s : GoString) (n : Nat) (rest : GoString) :
    getnum s true = some (n, rest) ↔ s = twoDigits n ++ rest ∧ n < 100 := by
  constructor
  · intro h
    unfold getnum at h
    split at h
    · simp at h
    · simp at h
    · rename_i c0 c1 tl
      by_cases h0 : isDigit c0 = true
      · by_cases h1 : isDigit c1 = true
        · simp only [h0, h1, Bool.not_true, Bool.false_eq_true, if_false, Option.some.injEq,
            Prod.mk.injEq] at h
          obtain ⟨rfl, rfl⟩ := h
          have := twoDigits_of_digits c0 c1 h0 h1
          rw [this.1]
          exact ⟨rfl, this.2⟩
        · simp [h0, h1] at h
      · simp [h0] at h
  · rintro ⟨rfl, hn⟩
    have e0 : digitVal (digit (n / 10)) = n / 10 := by rw [digitVal_digit]; omega
    simp only [twoDigits, List.cons_append, List.nil_append, getnum, isDigit_digit,
      Bool.not_true, Bool.false_eq_true, if_false, e0, digitVal_digit, Option.some.injEq,
      Prod.mk.injEq, and_true]
    omega

theorem getnum_free_eq_some (s : GoString) (n : Nat) (rest : GoString) :
    getnum s false = some (n, rest) →
      (s = twoDigits n ++ rest ∧ n < 100) ∨ (s = digit n :: rest ∧ n < 10) := by
  intro h
  unfold getnum at h
  split at h
  · simp at h
  · rename_i c0
    by_cases h0 : isDigit c0 = true
    · simp only [h0, Bool.not_false, Bool.and_self, if_true, Option.some.injEq,
        Prod.mk.injEq] at h
      obtain ⟨rfl, rfl⟩ := h
      right
      exact ⟨by rw [digit_digitVal c0 h0], by have := digitVal_le c0 h0; omega⟩
    · simp [h0] at h
  · rename_i c0 c1 tl
    by_cases h0 : isDigit c0 = true
    · by_cases h1 : isDigit c1 = true
      · simp only [h0, h1, Bool.not_true, Bool.false_eq_true, if_false, Option.some.injEq,
          Prod.mk.injEq] at h
        obtain ⟨rfl, rfl⟩ := h
        have := twoDigits_of_digits c0 c1 h0 h1
        left
        rw [this.1]
        exact ⟨rfl, this.2⟩
      · simp only [h0, h1, Bool.not_true, Bool.false_eq_true, if_false, Bool.not_false,
          if_true, Option.some.injEq, Prod.mk.injEq] at h
        obtain ⟨rfl, rfl⟩ := h
        right
        exact ⟨by rw [digit_digitVal c0 h0], by have := digitVal_le c0 h0; omega⟩
    · simp [h0] at h


theorem getnum_free_two (n : Nat) (rest : GoString) (hn : n < 100) :
    getnum (twoDigits n ++ rest) false = some (n, rest) := by
  have e0 : digitVal (digit (n / 10)) = n / 10 := by rw [digitVal_digit]; omega
  simp only [twoDigits, List.cons_append, List.nil_append, getnum, isDigit_digit,
    Bool.not_true, Bool.false_eq_true, if_false, e0, digitVal_digit, Option.some.injEq,
    Prod.mk.injEq, and_true]
  omega

theorem getnum_free_one (n : Nat) (c : Byte) (rest : GoString) (hn : n < 10)
    (hc : isDigit c = false) :
    getnum (digit n :: c :: rest) false = some (n, c :: rest) := by
  have e0 : digitVal (digit n) = n := by rw [digitVal_digit]; omega
  simp [getnum, isDigit_digit, hc, e0]

theorem skip_byte (value : GoString) (p : Byte) (hp : p ≠ byte 0x20) (rest : GoString) :
    skip value [p] = some rest ↔ value = p :: rest := by
  unfold skip
  simp only [List.length_singleton]
  unfold skipLoop
  cases value with
  | nil => simp [hp]
  | cons v vs =>
    simp only [hp, if_false]
    by_cases hv : v = p
    · subst hv
      simp [skipLoop]
    · simp only [hv, if_false, reduceCtorEq, false_iff]
      intro h
      exact hv (List.cons.inj h).1

theorem cutspace_of_head (c : Byte) (rest : GoString) (h : c ≠ space) :
    cutspace (c :: rest) = c :: rest := by
  have h' : ¬ c = byte 0x20 := h
  unfold cutspace
  rw [if_neg h']

theorem skip_space_eq_some (value rest : GoString) (h : skip value [space] = some rest) :
    (value = [] ∧ rest = []) ∨ ∃ tl, value = space :: tl ∧ rest = cutspace tl := by
  unfold skip at h
  simp only [List.length_singleton] at h
  unfold skipLoop at h
  cases value with
  | nil =>
    left
    simp only [space, if_true] at h
    simp only [skipLoop] at h
    exact ⟨rfl, by simpa using h.symm⟩
  | cons v vs =>
    right
    simp only [space, if_true] at h
    by_cases hv : v = byte 0x20
    · subst hv
      simp only [ne_eq, not_true_eq_false, if_false, skipLoop] at h
      refine ⟨vs, rfl, ?_⟩
      have : cutspace (byte 0x20 :: vs) = cutspace vs := by
        rw [cutspace]
        simp
      rw [this] at h
      simpa using h.symm
    · simp [hv] at h

theorem skip_space_cons (tl : GoString) : skip (space :: tl) [space] = some (cutspace tl) := by
  unfold skip
  simp only [List.length_singleton]
  unfold skipLoop
  simp only [space, if_true, ne_eq, not_true_eq_false, if_false, skipLoop]
  rw [cutspace]
  simp

theorem lor_0x20 (c : Byte) :
    c.val ||| 0x20 = if c.val / 32 % 2 = 1 then c.val else c.val + 32 := by
  revert c
  set_option maxRecDepth 100000 in decide

theorem asciiLower_val (c : Byte) :
    (asciiLower c).val = if 0x41 ≤ c.val ∧ c.val ≤ 0x5A then c.val + 0x20 else c.val := by
  unfold asciiLower
  have := c.isLt
  by_cases h : 0x41 ≤ c.val ∧ c.val ≤ 0x5A
  · rw [if_pos h, if_pos h]
    exact byte_val_of_lt _ (by omega)
  · rw [if_neg h, if_neg h]

theorem matchFold_byte (c1 c2 : Byte) :
    (decide (c1 = c2) || (c1.val ||| 0x20 == c2.val ||| 0x20
        && decide (0x61 ≤ c1.val ||| 0x20) && decide (c1.val ||| 0x20 ≤ 0x7A))) = true
      ↔ asciiLower c1 = asciiLower c2 := by
  have h1 := c1.isLt
  have h2 := c2.isLt
  simp only [Bool.or_eq_true, Bool.and_eq_true, decide_eq_true_eq, beq_iff_eq, Fin.ext_iff,
    asciiLower_val, lor_0x20]
  split_ifs <;> omega

theorem matchFold_iff (s1 s2 : GoString) (h : s1.length = s2.length) :
    matchFold s1 s2 = true ↔ s1.map asciiLower = s2.map asciiLower := by
  induction s1 generalizing s2 with
  | nil =>
    cases s2 with
    | nil => simp [matchFold]
    | cons _ _ => simp at h
  | cons c1 t1 ih =>
    cases s2 with
    | nil => simp at h
    | cons c2 t2 =>
      have hlen : t1.length = t2.length := by simpa using h
      rw [matchFold, Bool.and_eq_true, ih t2 hlen, matchFold_byte]
      simp

theorem lookupFrom_sound (tab : List GoString) (i0 i : Nat) (val rest : GoString)
    (h : lookupFrom tab i0 val = some (i, rest)) :
    ∃ k name mon, i = i0 + k ∧ tab[k]? = some name ∧ val = mon ++ rest
      ∧ mon.map asciiLower = name.map asciiLower := by
  induction tab generalizing i0 with
  | nil => simp [lookupFrom] at h
  | cons v tab ih =>
    unfold lookupFrom at h
    by_cases hc : (decide (v.length ≤ val.length) && matchFold (val.take v.length) v) = true
    · rw [if_pos hc] at h
      simp only [Option.some.injEq, Prod.mk.injEq] at h
      obtain ⟨rfl, rfl⟩ := h
      simp only [Bool.and_eq_true, decide_eq_true_eq] at hc
      refine ⟨0, v, val.take v.length, rfl, by simp, (List.take_append_drop _ _).symm, ?_⟩
      exact (matchFold_iff _ _ (by simp [hc.1])).mp hc.2
    · rw [if_neg hc] at h
      obtain ⟨k, name, mon, rfl, hk, hval, hm⟩ := ih (i0 + 1) h
      exact ⟨k + 1, name, mon, by omega, by simpa using hk, hval, hm⟩

theorem lookupFrom_complete (tab : List GoString) (i0 k : Nat) (mon rest name : GoString)
    (hlen : ∀ v ∈ tab, v.length = mon.length)
    (hk : tab[k]? = some name) (hm : mon.map asciiLower = name.map asciiLower)
    (hnd : (tab.map fun v => v.map asciiLower).Nodup) :
    lookupFrom tab i0 (mon ++ rest) = some (i0 + k, rest) := by
  induction tab generalizing i0 k with
  | nil => simp at hk
  | cons v tab ih =>
    have hv : v.length = mon.length := hlen v (List.mem_cons_self v tab)
    have htake : (mon ++ rest).take v.length = mon := by
      rw [hv]
      exact List.take_left' rfl
    have hdrop : (mon ++ rest).drop v.length = rest := by
      rw [hv]
      exact List.drop_left' rfl
    have hle : v.length ≤ (mon ++ rest).length := by
      rw [hv, List.length_append]
      omega
    unfold lookupFrom
    rw [htake, hdrop]
    cases k with
    | zero =>
      simp only [List.getElem?_cons_zero, Option.some.injEq] at hk
      subst hk
      have : matchFold mon v = true := (matchFold_iff _ _ hv.symm).mpr hm
      rw [this]
      simp only [decide_eq_true hle, Bool.and_self, if_true, Nat.add_zero]
    | succ k =>
      simp only [List.getElem?_cons_succ] at hk
      have hmem : name ∈ tab := List.getElem?_mem hk
      simp only [List.map_cons, List.nodup_cons, List.mem_map, not_exists, not_and] at hnd
      have hne : ¬ matchFold mon v = true := by
        intro hmv
        have := (matchFold_iff _ _ hv.symm).mp hmv
        exact hnd.1 name hmem (by rw [← hm, this])
      rw [if_neg (by simp [hne])]
      rw [ih (i0 + 1) k (fun x hx => hlen x (List.mem_cons_of_mem v hx)) hk hnd.2]
      congr 2
      omega

theorem shortMonthNames_length : ∀ v ∈ shortMonthNames, v.length = 3 := by decide

theorem shortMonthNames_nodup : (shortMonthNames.map fun v => v.map asciiLower).Nodup := by
  decide

theorem lookup_month_sound (val rest : GoString) (i : Nat)
    (h : lookup shortMonthNames val = some (i, rest)) :
    ∃ mon, val = mon ++ rest ∧ IsMonthName mon (i + 1) := by
  obtain ⟨k, name, mon, hi, hk, hval, hm⟩ := lookupFrom_sound _ 0 i val rest h
  have : i = k := by omega
  subst this
  exact ⟨mon, hval, by omega, name, by simpa using hk, hm⟩

theorem lookup_month_complete (mon rest : GoString) (m : Nat) (h : IsMonthName mon m) :
    lookup shortMonthNames (mon ++ rest) = some (m - 1, rest) := by
  obtain ⟨_, name, hk, hm⟩ := h
  have hlen : mon.length = 3 := by
    have h1 : (mon.map asciiLower).length = (name.map asciiLower).length := by rw [hm]
    simp only [List.length_map] at h1
    rw [h1]
    exact shortMonthNames_length name (List.getElem?_mem hk)
  have := lookupFrom_complete shortMonthNames 0 (m - 1) mon rest name
    (fun v hv => by rw [hlen]; exact shortMonthNames_length v hv) hk hm shortMonthNames_nodup
  unfold lookup
  rw [this]
  simp

theorem leadingInt_sound (s : GoString) (x q : Nat) (h : leadingInt s x = some (q, [])) :
    s.all isDigit = true ∧ q = s.foldl (fun n c => n * 10 + digitVal c) x := by
  induction s generalizing x with
  | nil =>
    simp only [leadingInt, Option.some.injEq, Prod.mk.injEq, and_true] at h
    simp [h]
  | cons c rest ih =>
    unfold leadingInt at h
    by_cases hc : isDigit c = true
    · simp only [hc, Bool.not_true, Bool.false_eq_true, if_false] at h
      split at h
      · simp at h
      · split at h
        · simp at h
        · have := ih _ h
          simp [hc, this.1, this.2]
    · simp [hc] at h

theorem leadingInt_complete (s : GoString) (x k : Nat) (hd : s.all isDigit = true)
    (hk : s.length + k ≤ 18) (hx : x < 10 ^ k) :
    leadingInt s x = some (s.foldl (fun n c => n * 10 + digitVal c) x, []) := by
  induction s generalizing x k with
  | nil => rfl
  | cons c rest ih =>
    simp only [List.all_cons, Bool.and_eq_true] at hd
    simp only [List.length_cons] at hk
    have hv := digitVal_le c hd.1
    have hp : 10 ^ k ≤ 10 ^ 17 := Nat.pow_le_pow_right (by norm_num) (by omega)
    have hp' : (10 : Nat) ^ (k + 1) = 10 * 10 ^ k := by rw [pow_succ, mul_comm]
    have h1 : ¬ (x > 2 ^ 63 / 10) := by
      norm_num at hp ⊢
      omega
    have h2 : ¬ (x * 10 + digitVal c > 2 ^ 63) := by
      norm_num at hp ⊢
      omega
    unfold leadingInt
    simp only [hd.1, Bool.not_true, Bool.false_eq_true, if_false, h1, h2, List.foldl_cons]
    exact ih _ (k + 1) hd.2 (by omega) (by rw [hp']; omega)

theorem atoi_digits (s : GoString) (c : Byte) (hh : s.head? = some c) (hc : isDigit c = true)
    (y : Int) (h : atoi s = some y) : s.all isDigit = true ∧ y = (decimalValue s : Int) := by
  have hcv := (isDigit_iff c).mp hc
  have hm : ¬ (c = byte 0x2D) := by
    intro e
    rw [e] at hcv
    revert hcv
    decide
  have hp : ¬ (c = byte 0x2B) := by
    intro e
    rw [e] at hcv
    revert hcv
    decide
  unfold atoi at h
  simp only [hh, Option.some.injEq, hm, hp, or_self, if_false, decide_False,
    Bool.false_eq_true] at h
  split at h
  · rename_i q heq
    have := leadingInt_sound s 0 q heq
    simp only [Option.some.injEq] at h
    exact ⟨this.1, by rw [← h, this.2]; rfl⟩
  · simp at h

theorem atoi_of_digits (s : GoString) (hne : s ≠ []) (hd : s.all isDigit = true)
    (hlen : s.length ≤ 18) : atoi s = some (decimalValue s : Int) := by
  cases s with
  | nil => exact absurd rfl hne
  | cons c rest =>
    have hc : isDigit c = true := by
      simp only [List.all_cons, Bool.and_eq_true] at hd
      exact hd.1
    have hcv := (isDigit_iff c).mp hc
    have hm : ¬ (c = byte 0x2D) := by
      intro e
      rw [e] at hcv
      revert hcv
      decide
    have hp : ¬ (c = byte 0x2B) := by
      intro e
      rw [e] at hcv
      revert hcv
      decide
    unfold atoi
    simp only [List.head?_cons, Option.some.injEq, hm, hp, or_self, if_false, decide_False,
      Bool.false_eq_true]
    rw [leadingInt_complete (c :: rest) 0 0 hd (by omega) (by norm_num)]
    rfl

theorem decimalValue_fourDigits (n : Nat) (h : n < 10000) :
    decimalValue (fourDigits n) = n ∧ (fourDigits n).all isDigit = true := by
  constructor
  · simp only [decimalValue, fourDigits, List.foldl_cons, List.foldl_nil, digitVal_digit]
    omega
  · simp [fourDigits, isDigit_digit]

theorem digit_eq_of_mod (n : Nat) (c : Byte) (hc : isDigit c = true)
    (h : n % 10 = digitVal c) : digit n = c := by
  have hv := digitVal_le c hc
  have e : digit n = digit (digitVal c) := by
    unfold digit
    congr 1
    omega
  exact e.trans (digit_digitVal c hc)

theorem fourDigits_of_digits (a b c d : Byte) (ha : isDigit a = true) (hb : isDigit b = true)
    (hc : isDigit c = true) (hd : isDigit d = true) :
    fourDigits (decimalValue [a, b, c, d]) = [a, b, c, d] ∧ decimalValue [a, b, c, d] < 10000 := by
  have h1 := digitVal_le a ha
  have h2 := digitVal_le b hb
  have h3 := digitVal_le c hc
  have h4 := digitVal_le d hd
  have hv : decimalValue [a, b, c, d]
      = ((digitVal a * 10 + digitVal b) * 10 + digitVal c) * 10 + digitVal d := by
    simp [decimalValue]
  rw [hv]
  refine ⟨?_, by omega⟩
  unfold fourDigits
  have e1 := digit_eq_of_mod
    ((((digitVal a * 10 + digitVal b) * 10 + digitVal c) * 10 + digitVal d) / 1000) a ha
    (by omega)
  have e2 := digit_eq_of_mod
    ((((digitVal a * 10 + digitVal b) * 10 + digitVal c) * 10 + digitVal d) / 100) b hb
    (by omega)
  have e3 := digit_eq_of_mod
    ((((digitVal a * 10 + digitVal b) * 10 + digitVal c) * 10 + digitVal d) / 10) c hc
    (by omega)
  have e4 := digit_eq_of_mod
    (((digitVal a * 10 + digitVal b) * 10 + digitVal c) * 10 + digitVal d) d hd (by omega)
  rw [e1, e2, e3, e4]

theorem parseYear_sound (value rest : GoString) (y : Int)
    (h : parseYear value = some (y, rest)) :
    ∃ n, value = fourDigits n ++ rest ∧ n < 10000 ∧ y = (n : Int) := by
  unfold parseYear at h
  by_cases hlen : value.length < 4
  · simp [hlen] at h
  · rw [if_neg hlen] at h
    match value, hlen, h with
    | a :: b :: c :: d :: tl, _, h =>
      simp only [] at h
      by_cases ha : isDigit a = true
      · simp only [ha, Bool.not_true, Bool.false_eq_true, if_false] at h
        have ht : (a :: b :: c :: d :: tl).take 4 = [a, b, c, d] := rfl
        have hdr : (a :: b :: c :: d :: tl).drop 4 = tl := rfl
        rw [ht, hdr] at h
        cases hat : atoi [a, b, c, d] with
        | none => simp [hat] at h
        | some year =>
          simp only [hat, Option.some.injEq, Prod.mk.injEq] at h
          obtain ⟨rfl, rfl⟩ := h
          have hd := atoi_digits [a, b, c, d] a rfl ha year hat
          have hall := hd.1
          simp only [List.all_cons, List.all_nil, Bool.and_true, Bool.and_eq_true] at hall
          have hf := fourDigits_of_digits a b c d hall.1 hall.2.1 hall.2.2.1 hall.2.2.2
          refine ⟨decimalValue [a, b, c, d], ?_, hf.2, hd.2⟩
          rw [hf.1]
          rfl
      · simp [ha] at h
    | [], hl, _ => simp at hl
    | [_], hl, _ => simp at hl
    | [_, _], hl, _ => simp at hl
    | [_, _, _], hl, _ => simp at hl

theorem parseYear_complete (n : Nat) (rest : GoString) (hn : n < 10000) :
    parseYear (fourDigits n ++ rest) = some ((n : Int), rest) := by
  have hf := decimalValue_fourDigits n hn
  have hat : atoi (fourDigits n) = some (decimalValue (fourDigits n) : Int) :=
    atoi_of_digits _ (by simp [fourDigits]) hf.2 (by simp [fourDigits])
  rw [hf.1] at hat
  have ht : (fourDigits n ++ rest).take 4 = fourDigits n := by simp [fourDigits]
  have hdr : (fourDigits n ++ rest).drop 4 = rest := by simp [fourDigits]
  unfold parseYear
  rw [ht, hdr, hat]
  simp [fourDigits, isDigit_digit]

theorem str_lbracket : str "[" = [byte 0x5B] := by decide
theorem str_slash : str "/" = [byte 0x2F] := by decide
theorem str_colon : str ":" = [byte 0x3A] := by decide
theorem str_space : str " " = [space] := by decide
theorem str_rbracket : str "]" = [byte 0x5D] := by decide

theorem parseDate_sound (v rest : GoString) (d m : Nat) (y : Int)
    (h : parseDate v = some (d, m, y, rest)) :
    ∃ (s : GoString) (n : Nat), v = s ++ rest ∧ y = (n : Int) ∧ DateText s d m n := by
  unfold parseDate at h
  simp only [Option.bind_eq_some, Option.some.injEq, Prod.mk.injEq, Prod.exists] at h
  obtain ⟨v1, h1, day, v2, h2, v3, h3, mi, v4, h4, v5, h5, yr, v6, h6, rfl, rfl, rfl, rfl⟩ := h
  rw [str_lbracket, skip_byte _ _ (by decide)] at h1
  rw [getnum_fixed_eq_some] at h2
  rw [str_slash, skip_byte _ _ (by decide)] at h3
  obtain ⟨mon, hmon, hname⟩ := lookup_month_sound _ _ _ h4
  rw [str_slash, skip_byte _ _ (by decide)] at h5
  obtain ⟨n, hn, hlt, hy⟩ := parseYear_sound _ _ _ h6
  refine ⟨str "[" ++ twoDigits day ++ str "/" ++ mon ++ str "/" ++ fourDigits n, n, ?_, hy,
    mon, rfl, hname, h2.2, hlt⟩
  rw [h1, h2.1, h3, hmon, h5, hn, str_lbracket, str_slash]
  simp

theorem parseDate_complete (s rest : GoString) (d m n : Nat) (h : DateText s d m n) :
    parseDate (s ++ rest) = some (d, m, (n : Int), rest) := by
  obtain ⟨mon, rfl, hname, hd, hn⟩ := h
  have hm1 : 1 ≤ m := hname.1
  have e1 : skip (str "[" ++ twoDigits d ++ str "/" ++ mon ++ str "/" ++ fourDigits n ++ rest)
      (str "[") = some (twoDigits d ++ (str "/" ++ (mon ++ (str "/" ++ (fourDigits n ++ rest))))) := by
    rw [str_lbracket, skip_byte _ _ (by decide)]
    simp
  have e2 : getnum (twoDigits d ++ (str "/" ++ (mon ++ (str "/" ++ (fourDigits n ++ rest))))) true
      = some (d, str "/" ++ (mon ++ (str "/" ++ (fourDigits n ++ rest)))) :=
    (getnum_fixed_eq_some _ _ _).mpr ⟨rfl, hd⟩
  have e3 : skip (str "/" ++ (mon ++ (str "/" ++ (fourDigits n ++ rest)))) (str "/")
      = some (mon ++ (str "/" ++ (fourDigits n ++ rest))) := by
    rw [str_slash, skip_byte _ _ (by decide)]
    simp
  have e4 := lookup_month_complete mon (str "/" ++ (fourDigits n ++ rest)) m hname
  have e5 : skip (str "/" ++ (fourDigits n ++ rest)) (str "/") = some (fourDigits n ++ rest) := by
    rw [str_slash, skip_byte _ _ (by decide)]
    simp
  have e6 := parseYear_complete n rest hn
  unfold parseDate
  have : m - 1 + 1 = m := by omega
  simp only [e1, Option.some_bind, e2, e3, e4, e5, e6, this]

theorem digitRun_take (s : GoString) :
    (s.take (digitRun s)).all isDigit = true ∧ digitRun s ≤ s.length := by
  induction s with
  | nil => simp [digitRun]
  | cons c rest ih =>
    unfold digitRun
    by_cases hc : isDigit c = true
    · simp [hc, ih.1, ih.2]
    · simp [hc]

theorem isDigit_space : isDigit space = false := by decide

theorem digitRun_append_space (ds tl : GoString) (hd : ds.all isDigit = true) :
    digitRun (ds ++ space :: tl) = ds.length := by
  induction ds with
  | nil => simp [digitRun, isDigit_space]
  | cons c rest ih =>
    simp only [List.all_cons, Bool.and_eq_true] at hd
    simp [digitRun, hd.1, ih hd.2]

theorem parseNanoseconds_frac (sep : Byte) (ds tl : GoString) (hsep : commaOrPeriod sep = true)
    (hne : ds ≠ []) (hd : ds.all isDigit = true) :
    parseNanoseconds (sep :: ds ++ tl) (1 + ds.length)
      = some (decimalValue (ds.take 9) * 10 ^ (9 - (ds.take 9).length)) := by
  have hpos : 0 < ds.length := List.length_pos.mpr hne
  have htake : ((sep :: ds ++ tl).take (min (1 + ds.length) 10)).drop 1 = ds.take 9 := by
    have e : min (1 + ds.length) 10 = (min ds.length 9) + 1 := by omega
    rw [e, List.cons_append, List.take_succ_cons, List.drop_one, List.tail_cons,
      List.take_append_of_le_length (by omega), ← List.take_take]
    simp
  have h9ne : ds.take 9 ≠ [] := by
    intro h
    rw [List.take_eq_nil_iff] at h
    rcases h with h | h
    · omega
    · exact hne h
  have h9d : (ds.take 9).all isDigit = true := by
    rw [List.all_eq_true] at hd ⊢
    intro x hx
    exact hd x (List.mem_of_mem_take hx)
  have h9l : (ds.take 9).length ≤ 18 := by
    rw [List.length_take]
    omega
  have hat := atoi_of_digits (ds.take 9) h9ne h9d h9l
  have hscale : 10 - min (1 + ds.length) 10 = 9 - (ds.take 9).length := by
    rw [List.length_take]
    omega
  unfold parseNanoseconds
  simp only [List.cons_append, hsep, Bool.not_true, Bool.false_eq_true, if_false]
  rw [← List.cons_append, htake, hat]
  simp only [hscale]
  have hnn : ¬ ((decimalValue (ds.take 9) : Int) < 0) := by omega
  simp [hnn]

theorem commaOrPeriod_iff (c : Byte) :
    commaOrPeriod c = true ↔ c = byte 0x2E ∨ c = byte 0x2C := by
  simp [commaOrPeriod]

theorem commaOrPeriod_space : commaOrPeriod space = false := by decide

theorem parseSeconds_sound (value rest : GoString) (sec nsec : Nat)
    (h : parseSeconds value = some (sec, nsec, rest)) :
    ∃ frac, value = twoDigits sec ++ frac ++ rest ∧ sec < 60 ∧ IsFraction frac nsec := by
  unfold parseSeconds at h
  cases hg : getnum value true with
  | none => simp [hg] at h
  | some p =>
    obtain ⟨s, v'⟩ := p
    rw [hg] at h
    simp only [] at h
    have hg' := (getnum_fixed_eq_some _ _ _).mp hg
    by_cases h60 : 60 ≤ s
    · simp [h60] at h
    · rw [if_neg h60] at h
      have plain : some (s, 0, v') = some (sec, nsec, rest) →
          ∃ frac, value = twoDigits sec ++ frac ++ rest ∧ sec < 60 ∧ IsFraction frac nsec := by
        intro h
        simp only [Option.some.injEq, Prod.mk.injEq] at h
        obtain ⟨rfl, rfl, rfl⟩ := h
        exact ⟨[], by simpa using hg'.1, by omega, Or.inl ⟨rfl, rfl⟩⟩
      match v', h, hg', plain with
      | [], h, _, plain => exact plain h
      | [_], h, _, plain => exact plain h
      | c :: d :: r, h, hg', plain =>
        simp only [] at h
        by_cases hc : (commaOrPeriod c && isDigit d) = true
        · rw [if_pos hc] at h
          simp only [Bool.and_eq_true] at hc
          have hrun := digitRun_take r
          have hval : c :: d :: r = c :: (d :: r.take (digitRun r)) ++ r.drop (digitRun r) := by
            simp
          have hn : 2 + digitRun r = 1 + (d :: r.take (digitRun r)).length := by
            simp only [List.length_cons, List.length_take]
            omega
          have hall : (d :: r.take (digitRun r)).all isDigit = true := by
            simp [hc.2, hrun.1]
          have hp := parseNanoseconds_frac c (d :: r.take (digitRun r)) (r.drop (digitRun r))
            hc.1 (by simp) hall
          rw [← hval, ← hn] at hp
          rw [hp] at h
          simp only [Option.some.injEq, Prod.mk.injEq] at h
          obtain ⟨rfl, rfl, rfl⟩ := h
          refine ⟨c :: d :: r.take (digitRun r), ?_, by omega, Or.inr ⟨c, _, rfl,
            (commaOrPeriod_iff c).mp hc.1, by simp, hall, rfl⟩⟩
          rw [hg'.1]
          have : (c :: d :: r).drop (2 + digitRun r) = r.drop (digitRun r) := by
            rw [Nat.add_comm]
            rfl
          rw [this]
          simp
        · rw [if_neg hc] at h
          exact plain h

theorem parseSeconds_complete (sec nsec : Nat) (frac tl : GoString) (hs : sec < 60)
    (hf : IsFraction frac nsec) :
    parseSeconds (twoDigits sec ++ frac ++ space :: tl) = some (sec, nsec, space :: tl) := by
  have hg : getnum (twoDigits sec ++ frac ++ space :: tl) true
      = some (sec, frac ++ space :: tl) :=
    (getnum_fixed_eq_some _ _ _).mpr ⟨by simp, by omega⟩
  have h60 : ¬ (60 ≤ sec) := by omega
  unfold parseSeconds
  rw [hg]
  simp only [h60, if_false]
  rcases hf with ⟨rfl, rfl⟩ | ⟨sep, ds, rfl, hsep, hne, hd, rfl⟩
  · cases tl with
    | nil => rfl
    | cons d r => simp [commaOrPeriod_space]
  · cases ds with
    | nil => exact absurd rfl hne
    | cons d ds' =>
      have hd' := hd
      simp only [List.all_cons, Bool.and_eq_true] at hd'
      have hsep' : commaOrPeriod sep = true := (commaOrPeriod_iff sep).mpr hsep
      have hrun := digitRun_append_space ds' tl hd'.2
      have hn : 2 + digitRun (ds' ++ space :: tl) = 1 + (d :: ds').length := by
        rw [hrun, List.length_cons]
        omega
      have hp := parseNanoseconds_frac sep (d :: ds') (space :: tl) hsep' hne hd
      have hdrop : (sep :: d :: (ds' ++ space :: tl)).drop (1 + (d :: ds').length)
          = space :: tl := by
        rw [List.length_cons, Nat.add_comm, List.drop_succ_cons, List.drop_succ_cons]
        exact List.drop_left' rfl
      simp only [List.cons_append, hsep', hd'.1, Bool.and_self, if_true, hn]
      simp only [List.cons_append] at hp hdrop
      rw [hp, hdrop]

theorem parseClock_sound (v rest : GoString) (h mi s ns : Nat)
    (hp : parseClock v = some (h, mi, s, ns, rest)) :
    ∃ cs, v = cs ++ rest ∧ ClockText cs h mi s ns ∧ h < 24 ∧ mi < 60 ∧ s < 60 := by
  unfold parseClock at hp
  simp only [Option.bind_eq_some, Prod.exists] at hp
  obtain ⟨v1, h1, hour, v2, h2, hp⟩ := hp
  by_cases h24 : 24 ≤ hour
  · simp [h24] at hp
  · rw [if_neg h24] at hp
    simp only [Option.bind_eq_some, Prod.exists] at hp
    obtain ⟨v3, h3, minute, v4, h4, hp⟩ := hp
    by_cases h60 : 60 ≤ minute
    · simp [h60] at hp
    · rw [if_neg h60] at hp
      simp only [Option.bind_eq_some, Prod.exists, Option.some.injEq, Prod.mk.injEq] at hp
      obtain ⟨v5, h5, sec, nsec, v6, h6, rfl, rfl, rfl, rfl, rfl⟩ := hp
      rw [str_colon, skip_byte _ _ (by decide)] at h1 h3 h5
      rw [getnum_fixed_eq_some] at h4
      obtain ⟨frac, hfrac, hs60, hf⟩ := parseSeconds_sound _ _ _ _ h6
      have hhour := getnum_free_eq_some _ _ _ h2
      rcases hhour with ⟨hv1, hlt⟩ | ⟨hv1, hlt⟩
      · refine ⟨str ":" ++ twoDigits hour ++ str ":" ++ twoDigits minute ++ str ":"
          ++ twoDigits sec ++ frac, ?_, ⟨twoDigits hour, frac, rfl, Or.inl rfl, by omega,
          by omega, by omega, hf⟩, by omega, by omega, hs60⟩
        rw [h1, hv1, h3, h4.1, h5, hfrac, str_colon]
        simp
      · refine ⟨str ":" ++ [digit hour] ++ str ":" ++ twoDigits minute ++ str ":"
          ++ twoDigits sec ++ frac, ?_, ⟨[digit hour], frac, rfl, Or.inr ⟨rfl, hlt⟩, by omega,
          by omega, by omega, hf⟩, by omega, by omega, hs60⟩
        rw [h1, hv1, h3, h4.1, h5, hfrac, str_colon]
        simp

theorem parseClock_complete (cs tl : GoString) (h mi s ns : Nat)
    (hc : ClockText cs h mi s ns) (h24 : h < 24) (h60 : mi < 60) (hs60 : s < 60) :
    parseClock (cs ++ space :: tl) = some (h, mi, s, ns, space :: tl) := by
  obtain ⟨hh, frac, rfl, hhh, _, _, _, hf⟩ := hc
  have hcolon : isDigit (byte 0x3A) = false := by decide
  have e2 : getnum (hh ++ (str ":" ++ (twoDigits mi ++ (str ":" ++ (twoDigits s
      ++ (frac ++ space :: tl)))))) false
      = some (h, str ":" ++ (twoDigits mi ++ (str ":" ++ (twoDigits s
          ++ (frac ++ space :: tl))))) := by
    rcases hhh with rfl | ⟨rfl, hlt⟩
    · exact getnum_free_two h _ (by omega)
    · rw [str_colon]
      exact getnum_free_one h _ _ hlt hcolon
  have e4 : getnum (twoDigits mi ++ (str ":" ++ (twoDigits s ++ (frac ++ space :: tl)))) true
      = some (mi, str ":" ++ (twoDigits s ++ (frac ++ space :: tl))) :=
    (getnum_fixed_eq_some _ _ _).mpr ⟨rfl, by omega⟩
  have e6 := parseSeconds_complete s ns frac tl hs60 hf
  have n24 : ¬ (24 ≤ h) := by omega
  have n60 : ¬ (60 ≤ mi) := by omega
  have sk : ∀ x : GoString, skip (str ":" ++ x) (str ":") = some x := by
    intro x
    rw [str_colon, skip_byte _ _ (by decide)]
    rfl
  unfold parseClock
  simp only [List.append_assoc, sk, Option.some_bind, e2, n24, if_false, e4, n60]
  rw [← List.append_assoc, e6]
  rfl

theorem parseZone_sound (value rest : GoString) (off : Int)
    (h : parseZone value = some (off, rest)) :
    ∃ east zh zm, value = [signByte east] ++ twoDigits zh ++ twoDigits zm ++ rest
      ∧ zh ≤ 24 ∧ zm ≤ 60
      ∧ off = (if east then (((zh * 60 + zm) * 60 : Nat) : Int)
          else -(((zh * 60 + zm) * 60 : Nat) : Int)) := by
  unfold parseZone at h
  split at h
  · rename_i sign h0 h1 m0 m1 tl
    cases hg1 : getnum [h0, h1] true with
    | none => simp [hg1] at h
    | some p1 =>
      obtain ⟨hr, r1⟩ := p1
      cases hg2 : getnum [m0, m1] true with
      | none => simp [hg1, hg2] at h
      | some p2 =>
        obtain ⟨mm, r2⟩ := p2
        simp only [hg1, hg2] at h
        have e1 := (getnum_fixed_eq_some _ _ _).mp hg1
        have e2 := (getnum_fixed_eq_some _ _ _).mp hg2
        have er1 : r1 = [] := by
          have := congrArg List.length e1.1
          simp [twoDigits] at this
          exact this
        have er2 : r2 = [] := by
          have := congrArg List.length e2.1
          simp [twoDigits] at this
          exact this
        subst er1 er2
        simp only [List.append_nil] at e1 e2
        by_cases hr24 : hr > 24 ∨ mm > 60
        · simp [hr24] at h
        · rw [if_neg hr24] at h
          have hval : sign :: h0 :: h1 :: m0 :: m1 :: tl
              = [sign] ++ twoDigits hr ++ twoDigits mm ++ tl := by
            rw [← e1.1, ← e2.1]
            rfl
          by_cases hplus : sign = byte 0x2B
          · rw [if_pos hplus] at h
            simp only [Option.some.injEq, Prod.mk.injEq] at h
            obtain ⟨rfl, rfl⟩ := h
            refine ⟨true, hr, mm, ?_, by omega, by omega, by simp⟩
            rw [hval, hplus]
            rfl
          · rw [if_neg hplus] at h
            by_cases hminus : sign = byte 0x2D
            · rw [if_pos hminus] at h
              simp only [Option.some.injEq, Prod.mk.injEq] at h
              obtain ⟨rfl, rfl⟩ := h
              refine ⟨false, hr, mm, ?_, by omega, by omega, by simp⟩
              rw [hval, hminus]
              rfl
            · simp [hminus] at h
  · simp at h

theorem parseZone_complete (east : Bool) (zh zm : Nat) (rest : GoString)
    (hzh : zh ≤ 24) (hzm : zm ≤ 60) :
    parseZone ([signByte east] ++ twoDigits zh ++ twoDigits zm ++ rest)
      = some ((if east then (((zh * 60 + zm) * 60 : Nat) : Int)
          else -(((zh * 60 + zm) * 60 : Nat) : Int)), rest) := by
  have g1 : getnum [digit (zh / 10), digit zh] true = some (zh, []) :=
    (getnum_fixed_eq_some _ _ _).mpr ⟨by simp [twoDigits], by omega⟩
  have g2 : getnum [digit (zm / 10), digit zm] true = some (zm, []) :=
    (getnum_fixed_eq_some _ _ _).mpr ⟨by simp [twoDigits], by omega⟩
  have hr24 : ¬ (zh > 24 ∨ zm > 60) := by omega
  have hne : ¬ (byte 0x2D = byte 0x2B) := by decide
  unfold parseZone
  simp only [twoDigits, List.cons_append, List.nil_append, List.singleton_append, g1, g2, hr24,
    if_false]
  cases east with
  | true => simp [signByte]
  | false => simp [signByte, hne]

theorem cutspace_spec (tl : GoString) :
    ∃ sp, tl = sp ++ cutspace tl ∧ ∀ b ∈ sp, b = space := by
  induction tl with
  | nil => exact ⟨[], rfl, by simp⟩
  | cons c rest ih =>
    unfold cutspace
    by_cases hc : c = byte 0x20
    · obtain ⟨sp, hsp, hall⟩ := ih
      rw [if_pos hc]
      refine ⟨c :: sp, by rw [List.cons_append, ← hsp], ?_⟩
      intro b hb
      rcases List.mem_cons.mp hb with rfl | hb
      · exact hc
      · exact hall b hb
    · rw [if_neg hc]
      exact ⟨[], rfl, by simp⟩

theorem cutspace_spaces_append (sp zs : GoString) (hsp : ∀ b ∈ sp, b = space)
    (hz : zs.head? ≠ some space) : cutspace (sp ++ zs) = zs := by
  induction sp with
  | nil =>
    cases zs with
    | nil => rfl
    | cons z tl =>
      have : z ≠ space := by
        intro e
        exact hz (by simp [e])
      exact cutspace_of_head z tl this
  | cons c rest ih =>
    have hc : c = byte 0x20 := hsp c (List.mem_cons_self c rest)
    rw [List.cons_append, cutspace, if_pos hc]
    exact ih (fun b hb => hsp b (List.mem_cons_of_mem c hb))

theorem signByte_ne_space (east : Bool) : signByte east ≠ space := by
  cases east <;> decide

theorem parseOffset_sound (v : GoString) (off : Int) (h : parseOffset v = some off) :
    ∃ sp zs east zh zm, v = sp ++ zs ∧ sp ≠ [] ∧ (∀ b ∈ sp, b = space)
      ∧ ZoneText zs east zh zm ∧ zh ≤ 24 ∧ zm ≤ 60
      ∧ off = (if east then (((zh * 60 + zm) * 60 : Nat) : Int)
          else -(((zh * 60 + zm) * 60 : Nat) : Int)) := by
  unfold parseOffset at h
  simp only [Option.bind_eq_some, Prod.exists] at h
  obtain ⟨v1, h1, o, v2, h2, v3, h3, h4⟩ := h
  by_cases hne : v3 ≠ []
  · simp [hne] at h4
  · rw [if_neg hne] at h4
    simp only [Option.some.injEq] at h4
    subst h4
    have hv3 : v3 = [] := by simpa using hne
    subst hv3
    rw [str_rbracket, skip_byte _ _ (by decide)] at h3
    subst h3
    obtain ⟨east, zh, zm, hz, hzh, hzm, hoff⟩ := parseZone_sound _ _ _ h2
    rw [str_space] at h1
    rcases skip_space_eq_some _ _ h1 with ⟨-, hv1⟩ | ⟨tl, hv, hv1⟩
    · rw [hv1] at hz
      simp at hz
    · obtain ⟨sp, hsp, hall⟩ := cutspace_spec tl
      refine ⟨space :: sp, v1, east, zh, zm, ?_, by simp, ?_, ⟨?_, by omega, by omega⟩, hzh, hzm,
        hoff⟩
      · rw [hv, hv1, List.cons_append, ← hsp]
      · intro b hb
        rcases List.mem_cons.mp hb with rfl | hb
        · rfl
        · exact hall b hb
      · rw [hz, str_rbracket]

theorem parseOffset_complete (sp zs : GoString) (east : Bool) (zh zm : Nat)
    (hne : sp ≠ []) (hsp : ∀ b ∈ sp, b = space) (hz : ZoneText zs east zh zm)
    (hzh : zh ≤ 24) (hzm : zm ≤ 60) :
    parseOffset (sp ++ zs)
      = some (if east then (((zh * 60 + zm) * 60 : Nat) : Int)
          else -(((zh * 60 + zm) * 60 : Nat) : Int)) := by
  obtain ⟨rfl, _, _⟩ := hz
  cases sp with
  | nil => exact absurd rfl hne
  | cons c sp' =>
    have hc : c = space := hsp c (List.mem_cons_self c sp')
    subst hc
    have hhead : ([signByte east] ++ twoDigits zh ++ twoDigits zm ++ str "]").head?
        ≠ some space := by
      simp [signByte_ne_space east]
    have e1 : skip (space :: sp' ++ ([signByte east] ++ twoDigits zh ++ twoDigits zm ++ str "]"))
        (str " ") = some ([signByte east] ++ twoDigits zh ++ twoDigits zm ++ str "]") := by
      rw [str_space, List.cons_append, skip_space_cons,
        cutspace_spaces_append sp' _ (fun b hb => hsp b (List.mem_cons_of_mem _ hb)) hhead]
    have e2 := parseZone_complete east zh zm (str "]") hzh hzm
    have e3 : skip (str "]") (str "]") = some [] := by
      rw [str_rbracket, skip_byte _ _ (by decide)]
    unfold parseOffset
    rw [e1, Option.some_bind, e2, Option.some_bind]
    simp only [e3, Option.some_bind]
    simp

theorem parseLayout_sound (v : GoString) (t : Time) (h : parseLayout v = some t) :
    ∃ sp st, sp ≠ [] ∧ (∀ b ∈ sp, b = space) ∧ WrittenSep sp v st ∧ st.Valid
      ∧ t.UTC = st.instant ∧ t.loc = .zone st.offset := by
  unfold parseLayout at h
  obtain ⟨⟨day, month, year, v1⟩, hd, h1⟩ := Option.bind_eq_some.mp h
  obtain ⟨⟨hour, minute, sec, nsec, v2⟩, hc, h2⟩ := Option.bind_eq_some.mp h1
  obtain ⟨off, ho, h3⟩ := Option.bind_eq_some.mp h2
  clear h h1 h2
  dsimp only at hc ho h3
  have hday : ¬ (day < 1 ∨ day > daysIn month year) := by
    intro hday
    rw [if_pos hday] at h3
    exact absurd h3 (by simp)
  rw [if_neg hday] at h3
  have ht := Option.some.inj h3
  obtain ⟨ds, n, rfl, rfl, hdt⟩ := parseDate_sound _ _ _ _ _ hd
  obtain ⟨cs, rfl, hct, h24, h60, hs60⟩ := parseClock_sound _ _ _ _ _ _ hc
  obtain ⟨sp, zs, east, zh, zm, rfl, hne, hsp, hzt, hzh, hzm, hoff⟩ := parseOffset_sound _ _ ho
  have hd1 : 1 ≤ day := by omega
  have hdle : day ≤ daysIn month n := by omega
  refine ⟨sp, ⟨day, month, n, hour, minute, sec, nsec, east, zh, zm⟩, hne, hsp,
    ⟨ds, cs, zs, by simp, hdt, hct, hzt⟩, ⟨hd1, hdle, h24, h60, hs60, hzh, hzm⟩, ?_, ?_⟩
  · rw [← ht, hoff]
    rfl
  · rw [← ht, hoff]
    rfl

theorem parseLayout_complete (sp v : GoString) (st : Stamp) (hne : sp ≠ [])
    (hsp : ∀ b ∈ sp, b = space) (hw : WrittenSep sp v st) (hv : st.Valid) :
    parseLayout v = some { st.instant with loc := .zone st.offset } := by
  obtain ⟨ds, cs, zs, rfl, hdt, hct, hzt⟩ := hw
  obtain ⟨hd1, hd2, h24, h60, hs60, hzh, hzm⟩ := hv
  cases sp with
  | nil => exact absurd rfl hne
  | cons c sp' =>
    have hc : c = space := hsp c (List.mem_cons_self c sp')
    subst hc
    have e1 := parseDate_complete ds (cs ++ (space :: sp' ++ zs)) _ _ _ hdt
    have e2 := parseClock_complete cs (sp' ++ zs) _ _ _ _ hct h24 h60 hs60
    have e3 := parseOffset_complete (space :: sp') zs _ _ _ hne hsp hzt hzh hzm
    have hday : ¬ (st.day < 1 ∨ st.day > daysIn st.month st.year) := by omega
    unfold parseLayout
    simp only [List.append_assoc, List.cons_append] at e1 e2 e3 ⊢
    rw [e1]
    simp only [Option.some_bind, e2, e3, hday, if_false]
    rfl


/-! ### `time.Parse` and written timestamps -/

theorem timeParse_eq_ok (v : GoString) (t : Time) :
    timeParse v = (t, none) ↔ parseLayout v = some t := by
  unfold timeParse
  cases h : parseLayout v with
  | none => simp
  | some t' => simp

theorem timeParse_of_none (v : GoString) (h : parseLayout v = none) :
    timeParse v = (Time.zero, some (.time v)) := by
  unfold timeParse
  rw [h]

theorem count_space_of_all (sp : GoString) (h : ∀ b ∈ sp, b = space) :
    sp.count space = sp.length := by
  rw [List.count_eq_length]
  intro b hb
  exact (h b hb).symm

theorem count_space_of_none (s : GoString) (h : ∀ b ∈ s, b ≠ space) : s.count space = 0 := by
  rw [List.count_eq_zero]
  intro hm
  exact h space hm rfl

/-- Between two tokens of `strings.Fields` joined by one space, the run of
spaces a written timestamp is read with is that one space. -/
theorem Written_of_WrittenSep (line f3 f4 sp : GoString) (st : Stamp)
    (h3 : f3 ∈ Fields line) (h4 : f4 ∈ Fields line) (hne : sp ≠ [])
    (hsp : ∀ b ∈ sp, b = space) (hw : WrittenSep sp (f3 ++ str " " ++ f4) st) :
    Written (f3 ++ str " " ++ f4) st := by
  have hc : (f3 ++ str " " ++ f4).count space = 1 := by
    rw [str_space, List.count_append, List.count_append,
      count_space_of_none f3 (Fields_no_space line f3 h3),
      count_space_of_none f4 (Fields_no_space line f4 h4)]
    simp
  obtain ⟨ds, cs, zs, hv, hrest⟩ := hw
  have hlen : sp.length ≤ 1 := by
    have := congrArg (List.count space) hv
    rw [hc, List.count_append, List.count_append, List.count_append,
      count_space_of_all sp hsp] at this
    omega
  have hsp1 : sp = [space] := by
    match sp, hne, hlen, hsp with
    | [c], _, _, hsp => rw [hsp c (List.mem_singleton_self c)]
    | [], hne, _, _ => exact absurd rfl hne
    | _ :: _ :: _, _, hlen, _ => simp at hlen
  subst hsp1
  exact ⟨ds, cs, zs, hv, hrest⟩

/-- `time.Parse` accepts exactly the written timestamps with valid values, and
returns the instant they denote in the zone they name. -/
theorem parseLayout_eq_some_iff (line f3 f4 : GoString) (t : Time)
    (h3 : f3 ∈ Fields line) (h4 : f4 ∈ Fields line) :
    parseLayout (f3 ++ str " " ++ f4) = some t ↔
      ∃ st, Written (f3 ++ str " " ++ f4) st ∧ st.Valid
        ∧ t = { st.instant with loc := .zone st.offset } := by
  constructor
  · intro h
    obtain ⟨sp, st, hne, hsp, hw, hv, _, _⟩ := parseLayout_sound _ _ h
    refine ⟨st, Written_of_WrittenSep line f3 f4 sp st h3 h4 hne hsp hw, hv, ?_⟩
    have := parseLayout_complete sp _ st hne hsp hw hv
    rw [h] at this
    exact Option.some.inj this
  · rintro ⟨st, hw, hv, rfl⟩
    exact parseLayout_complete [space] _ st (by simp) (by simp) hw hv

theorem sampleStamp_written : Written (str "[01/Aug/1995:00:00:10 -0400]") sampleStamp :=
  ⟨str "[01/Aug/1995", str ":00:00:10", str "-0400]", by decide,
    ⟨str "Aug", by decide, ⟨by decide, str "Aug", by decide, by decide⟩, by decide, by decide⟩,
    ⟨str "00", [], by decide, Or.inl (by decide), by decide, by decide, by decide,
      Or.inl ⟨rfl, rfl⟩⟩,
    ⟨by decide, by decide, by decide⟩⟩

theorem sampleStampUTC_written :
    Written (str "[01/Aug/1995:04:00:10 +0000]") sampleStampUTC :=
  ⟨str "[01/Aug/1995", str ":04:00:10", str "+0000]", by decide,
    ⟨str "Aug", by decide, ⟨by decide, str "Aug", by decide, by decide⟩, by decide, by decide⟩,
    ⟨str "04", [], by decide, Or.inl (by decide), by decide, by decide, by decide,
      Or.inl ⟨rfl, rfl⟩⟩,
    ⟨by decide, by decide, by decide⟩⟩

theorem sampleStamp_valid : sampleStamp.Valid := by
  unfold Stamp.Valid
  decide

theorem sampleStampUTC_valid : sampleStampUTC.Valid := by
  unfold Stamp.Valid
  decide


theorem sizeField_ok_of (s : GoString) (h : s = str "-" ∨ isInt s = true) :
    ∃ size, sizeField s = (size, none) ∧ (s = str "-" → size = 0) := by
  by_cases hd : s = str "-"
  · exact ⟨0, by rw [hd]; exact sizeField_dash, fun _ => rfl⟩
  · exact ⟨intValue s, by rw [sizeField_of_ne_dash s hd]; exact Atoi_of_isInt s (h.resolve_left hd),
      fun e => absurd e hd⟩

theorem MatchesLayout_length (v : GoString) (h : MatchesLayout v) : v.length = 28 := by
  obtain ⟨day, year, hour, min, sec, zh, zm, name, east, hname, rfl⟩ := h
  have := shortMonthNames_length name hname
  simp [str_lbracket, str_slash, str_colon, str_space, str_rbracket, twoDigits, fourDigits, this]

/-! ### Claims C6, C7 and C10 -/

/-- C6, amended: for every line with valid size and status tokens,
`parseLine` returns the zero Record and the `time.Parse` error for token 3 and
token 4 joined by one space whenever that text is not a timestamp as Go reads
the layout `[02/Jan/2006:15:04:05 -0700]`: `[`, two digits, `/`, a month
abbreviation in any letter case, `/`, four digits, `:`, one or two digits for
the hour, `:`, two digits, `:`, two digits and optionally a period or comma
with further digits, one space, a sign, four digits, `]`. -/
theorem parseLine_timestamp_mismatch (line s s2 f3 f4 : GoString)
    (hs : (Fields line).getLast? = some s) (hsize : s = str "-" ∨ isInt s = true)
    (hs2 : (Fields line)[(Fields line).length - 2]? = some s2) (hcode : isInt s2 = true)
    (hf3 : (Fields line)[3]? = some f3) (hf4 : (Fields line)[4]? = some f4)
    (hnot : ¬ ∃ st, Written (f3 ++ str " " ++ f4) st) :
    parseLine line = .returns (Record.zero, some (.time (f3 ++ str " " ++ f4))) := by
  obtain ⟨size, hsz, _⟩ := sizeField_ok_of s hsize
  have hlen : 2 ≤ (Fields line).length := by
    by_contra hlt
    rw [List.getElem?_eq_none (by omega)] at hf4
    exact absurd hf4 (by simp)
  have hnone : parseLayout (f3 ++ str " " ++ f4) = none := by
    cases hp : parseLayout (f3 ++ str " " ++ f4) with
    | none => rfl
    | some t =>
      obtain ⟨st, hw, _, _⟩ := (parseLayout_eq_some_iff line f3 f4 t (List.getElem?_mem hf3)
        (List.getElem?_mem hf4)).mp hp
      exact absurd ⟨st, hw⟩ hnot
  exact parseLine_time_error line s s2 f3 f4 size (intValue s2) Time.zero _ hs hsz hs2 hlen
    (Atoi_of_isInt s2 hcode) hf3 hf4 (timeParse_of_none _ hnone)

/-- Instance of C6: a timestamp without its opening bracket is rejected. -/
theorem parseLine_timestamp_mismatch_witness :
    parseLine noBracketLine
      = .returns (Record.zero, some (.time (str "01/Aug/1995:00:00:10 -0400]"))) :=
  parseLine_timestamp_mismatch noBracketLine (str "1") (str "200")
    (str "01/Aug/1995:00:00:10") (str "-0400]") (by decide) (by decide) (by decide) (by decide)
    (by decide) (by decide)
    (by
      rintro ⟨st, ds, cs, zs, hv, ⟨mon, hds, _⟩, _⟩
      rw [hds, str_lbracket] at hv
      have hl : (str "01/Aug/1995:00:00:10" ++ str " " ++ str "-0400]").head?
          = some (byte 0x30) := by decide
      have := congrArg List.head? hv
      rw [hl] at this
      simp only [List.append_assoc, List.singleton_append, List.cons_append, List.head?_cons,
        Option.some.injEq] at this
      revert this
      decide)

/-- C6 as stated fails: `[01/Aug/1995:0:00:10 -0400]` does not have the fixed
layout `[DD/Mon/YYYY:HH:MM:SS ±HHMM]`, its hour being written with one digit,
yet `parseLine` accepts the line. -/
theorem parseLine_oneDigitHour_accepted :
    (Fields oneDigitHourLine)[3]? = some (str "[01/Aug/1995:0:00:10")
    ∧ (Fields oneDigitHourLine)[4]? = some (str "-0400]")
    ∧ ¬ MatchesLayout (str "[01/Aug/1995:0:00:10" ++ str " " ++ str "-0400]")
    ∧ parseLine oneDigitHourLine = .returns
        ({ Origin := str "h", Time := Date 1995 8 1 4 0 10 0, Method := str "GET",
           Path := str "/x", StatusCode := 200, Size := 1 }, none) := by
  refine ⟨by decide, by decide, ?_, by set_option maxRecDepth 100000 in decide⟩
  intro h
  have := MatchesLayout_length _ h
  revert this
  decide

/-- Further timestamps outside the strict layout that `parseLine` accepts: a
month name in lower case, and a fraction of a second, which ends up in the
Time of the Record. -/
theorem parseLine_lenient_timestamps :
    parseLine (str "h - - [01/aug/1995:00:00:10 -0400] \"GET /x HTTP/1.0\" 200 1") = .returns
        ({ Origin := str "h", Time := Date 1995 8 1 4 0 10 0, Method := str "GET",
           Path := str "/x", StatusCode := 200, Size := 1 }, none)
    ∧ parseLine (str "h - - [01/Aug/1995:00:00:10.25 -0400] \"GET /x HTTP/1.0\" 200 1") = .returns
        ({ Origin := str "h", Time := Date 1995 8 1 4 0 10 250000000, Method := str "GET",
           Path := str "/x", StatusCode := 200, Size := 1 }, none) := by
  set_option maxRecDepth 100000 in decide

/-- C7: on a line of at least seven tokens whose last token is exactly `-`,
whose second-to-last token is a base-10 integer and whose tokens 3 and 4 write
a valid timestamp, `parseLine` returns a Record without error, and its Size
is 0. -/
theorem parseLine_dash_size (line s2 f3 f4 : GoString) (st : Stamp)
    (hlen : 7 ≤ (Fields line).length)
    (hs : (Fields line).getLast? = some (str "-"))
    (hs2 : (Fields line)[(Fields line).length - 2]? = some s2) (hcode : isInt s2 = true)
    (hf3 : (Fields line)[3]? = some f3) (hf4 : (Fields line)[4]? = some f4)
    (hw : Written (f3 ++ str " " ++ f4) st) (hv : st.Valid) :
    ∃ r, parseLine line = .returns (r, none) ∧ r.Size = 0 := by
  have hf0 : (Fields line)[0]? = some (Fields line)[0] := List.getElem?_eq_getElem (by omega)
  have hf5 : (Fields line)[5]? = some (Fields line)[5] := List.getElem?_eq_getElem (by omega)
  have hf6 : (Fields line)[6]? = some (Fields line)[6] := List.getElem?_eq_getElem (by omega)
  have ht : timeParse (f3 ++ str " " ++ f4)
      = ({ st.instant with loc := .zone st.offset }, none) :=
    (timeParse_eq_ok _ _).mpr (parseLayout_complete [space] _ st (by simp) (by simp) hw hv)
  exact ⟨_, parseLine_ok_intro line (str "-") s2 _ f3 f4 _ _ 0 (intValue s2) _ hs sizeField_dash
    hs2 (by omega) (Atoi_of_isInt s2 hcode) hf3 hf4 ht hf0 hf5
    (Fields_getElem?_length_pos line _ 5 hf5) hf6, rfl⟩

/-- Instance of C7 at the line `dashLine`. -/
theorem parseLine_dash_size_witness :
    ∃ r, parseLine dashLine = .returns (r, none) ∧ r.Size = 0 :=
  parseLine_dash_size dashLine (str "304") (str "[01/Aug/1995:00:00:10") (str "-0400]")
    sampleStamp (by decide) (by decide) (by decide) (by decide) (by decide) (by decide)
    sampleStamp_written sampleStamp_valid


theorem parseLine_time_of_written (line : GoString) (r : Record) (f3 f4 : GoString) (st : Stamp)
    (h : parseLine line = .returns (r, none))
    (hf3 : (Fields line)[3]? = some f3) (hf4 : (Fields line)[4]? = some f4)
    (hw : Written (f3 ++ str " " ++ f4) st) (hv : st.Valid) : r.Time = st.instant := by
  obtain ⟨s, s2, f0, g3, g4, f5, f6, size, code, t, _, _, _, _, _, _, hg3, hg4, ht, _, _, _, _,
    rfl⟩ := parseLine_ok_inv line r h
  rw [hf3] at hg3
  rw [hf4] at hg4
  obtain rfl := Option.some.inj hg3
  obtain rfl := Option.some.inj hg4
  have hp := (timeParse_eq_ok _ _).mp ht
  have hc := parseLayout_complete [space] _ st (by simp) (by simp) hw hv
  rw [hp] at hc
  rw [Option.some.inj hc]
  rfl

/-- C10: for every successfully parsed line, tokens 3 and 4 write a valid
timestamp and `Record.Time` is the instant it denotes in UTC, the local date
and time of day moved back by the zone offset; this holds for every way of
reading the text. The offset is not kept: a second line with the same tokens,
except that tokens 3 and 4 write the same instant with another offset, parses
to the same Record. -/
theorem parseLine_time_instant :
    (∀ (line : GoString) (r : Record), parseLine line = .returns (r, none) →
      ∃ f3 f4 st, (Fields line)[3]? = some f3 ∧ (Fields line)[4]? = some f4
        ∧ Written (f3 ++ str " " ++ f4) st ∧ st.Valid ∧ r.Time = st.instant)
    ∧ (∀ (line : GoString) (r : Record) (f3 f4 : GoString) (st : Stamp),
        parseLine line = .returns (r, none) →
        (Fields line)[3]? = some f3 → (Fields line)[4]? = some f4 →
        Written (f3 ++ str " " ++ f4) st → st.Valid → r.Time = st.instant)
    ∧ (∀ (line1 line2 : GoString) (r : Record) (x3 x4 y3 y4 : GoString) (st1 st2 : Stamp),
        parseLine line1 = .returns (r, none) →
        (Fields line1).length = (Fields line2).length →
        (∀ i, i ≠ 3 → i ≠ 4 → (Fields line1)[i]? = (Fields line2)[i]?) →
        (Fields line1)[3]? = some x3 → (Fields line1)[4]? = some x4 →
        (Fields line2)[3]? = some y3 → (Fields line2)[4]? = some y4 →
        Written (x3 ++ str " " ++ x4) st1 → st1.Valid →
        Written (y3 ++ str " " ++ y4) st2 → st2.Valid →
        st1.instant = st2.instant →
        parseLine line2 = .returns (r, none)) := by
  refine ⟨?_, ?_, ?_⟩
  · intro line r h
    obtain ⟨s, s2, f0, f3, f4, f5, f6, size, code, t, _, _, _, _, _, _, hf3, hf4, ht, _, _, _, _,
      hr⟩ := parseLine_ok_inv line r h
    obtain ⟨st, hw, hv, _⟩ := (parseLayout_eq_some_iff line f3 f4 t (List.getElem?_mem hf3)
      (List.getElem?_mem hf4)).mp ((timeParse_eq_ok _ _).mp ht)
    exact ⟨f3, f4, st, hf3, hf4, hw, hv, parseLine_time_of_written line r f3 f4 st h hf3 hf4 hw hv⟩
  · intro line r f3 f4 st h hf3 hf4 hw hv
    exact parseLine_time_of_written line r f3 f4 st h hf3 hf4 hw hv
  · intro line1 line2 r x3 x4 y3 y4 st1 st2 h hlen hsame hx3 hx4 hy3 hy4 hw1 hv1 hw2 hv2 hinst
    have htime := parseLine_time_of_written line1 r x3 x4 st1 h hx3 hx4 hw1 hv1
    obtain ⟨s, s2, f0, g3, g4, f5, f6, size, code, t, hs, hl1, hsize, hs2, hl2, hcode, _, _, _,
      hf0, hf5, h5, hf6, hr⟩ := parseLine_ok_inv line1 r h
    have h7 : 7 ≤ (Fields line1).length := by
      by_contra hlt
      rw [List.getElem?_eq_none (by omega)] at hf6
      exact absurd hf6 (by simp)
    have hs' : (Fields line2).getLast? = some s := by
      rw [List.getLast?_eq_getElem?, ← hlen, ← hsame _ (by omega) (by omega)]
      exact hs
    have hs2' : (Fields line2)[(Fields line2).length - 2]? = some s2 := by
      rw [← hlen, ← hsame _ (by omega) (by omega)]
      exact hs2
    have ht2 : timeParse (y3 ++ str " " ++ y4)
        = ({ st2.instant with loc := .zone st2.offset }, none) :=
      (timeParse_eq_ok _ _).mpr (parseLayout_complete [space] _ st2 (by simp) (by simp) hw2 hv2)
    have hsz : sizeField s = (size, none) := hsize
    have := parseLine_ok_intro line2 s s2 f0 y3 y4 f5 f6 size code _ hs' hsz hs2'
      (by omega) hcode hy3 hy4 ht2
      (by rw [← hsame 0 (by omega) (by omega)]; exact hf0)
      (by rw [← hsame 5 (by omega) (by omega)]; exact hf5) h5
      (by rw [← hsame 6 (by omega) (by omega)]; exact hf6)
    rw [this, hr]
    have e : r.Time = st2.instant := by rw [htime, hinst]
    rw [hr] at e
    simp only [] at e
    rw [e]
    rfl

theorem Fields_sampleLine_eq :
    Fields sampleLine
      = [str "slppp6.intermind.net", str "-", str "-", str "[01/Aug/1995:00:00:10",
         str "-0400]", str "\"GET", str "/history/skylab/skylab.html", str "HTTP/1.0\"",
         str "200", str "1687"] := by
  decide

theorem Fields_sampleLineUTC_eq :
    Fields sampleLineUTC
      = [str "slppp6.intermind.net", str "-", str "-", str "[01/Aug/1995:04:00:10",
         str "+0000]", str "\"GET", str "/history/skylab/skylab.html", str "HTTP/1.0\"",
         str "200", str "1687"] := by
  decide

theorem Fields_sampleLines_agree (i : Nat) (h3 : i ≠ 3) (h4 : i ≠ 4) :
    (Fields sampleLine)[i]? = (Fields sampleLineUTC)[i]? := by
  rw [Fields_sampleLine_eq, Fields_sampleLineUTC_eq]
  rcases i with _ | _ | _ | _ | _ | i
  · rfl
  · rfl
  · rfl
  · exact absurd rfl h3
  · exact absurd rfl h4
  · simp only [List.getElem?_cons_succ]

theorem Fields_sampleLine_stamp :
    (Fields sampleLine)[3]? = some (str "[01/Aug/1995:00:00:10")
    ∧ (Fields sampleLine)[4]? = some (str "-0400]")
    ∧ (Fields sampleLineUTC)[3]? = some (str "[01/Aug/1995:04:00:10")
    ∧ (Fields sampleLineUTC)[4]? = some (str "+0000]") := by
  rw [Fields_sampleLine_eq, Fields_sampleLineUTC_eq]
  exact ⟨rfl, rfl, rfl, rfl⟩

theorem sampleStamps_same_instant :
    sampleStamp.instant = sampleStampUTC.instant
    ∧ sampleStamp.instant = Date 1995 8 1 4 0 10 0 := by
  decide

theorem parseLine_sampleLine_eq :
    parseLine sampleLine = .returns
      ({ Origin := str "slppp6.intermind.net",
         Time := Date 1995 8 1 4 0 10 0,
         Method := str "GET",
         Path := str "/history/skylab/skylab.html",
         StatusCode := 200,
         Size := 1687 }, none) := by
  set_option maxRecDepth 100000 in decide

/-- Instance of C10: the sample line and the same line with its instant
written as `[01/Aug/1995:04:00:10 +0000]` parse to the same Record. -/
theorem parseLine_time_instant_witness :
    parseLine sampleLineUTC = .returns
      ({ Origin := str "slppp6.intermind.net",
         Time := Date 1995 8 1 4 0 10 0,
         Method := str "GET",
         Path := str "/history/skylab/skylab.html",
         StatusCode := 200,
         Size := 1687 }, none) :=
  parseLine_time_instant.2.2 sampleLine sampleLineUTC _
    (str "[01/Aug/1995:00:00:10") (str "-0400]") (str "[01/Aug/1995:04:00:10") (str "+0000]")
    sampleStamp sampleStampUTC parseLine_sampleLine_eq
    (by rw [Fields_sampleLine_eq, Fields_sampleLineUTC_eq]; rfl)
    Fields_sampleLines_agree
    Fields_sampleLine_stamp.1 Fields_sampleLine_stamp.2.1 Fields_sampleLine_stamp.2.2.1
    Fields_sampleLine_stamp.2.2.2
    sampleStamp_written sampleStamp_valid sampleStampUTC_written sampleStampUTC_valid
    sampleStamps_same_instant.1


/-! ### Claims C11 and C12 -/

/-- C11: whenever `parseLine` returns an error, the Record returned with it is
the zero Record, whichever check failed. -/
theorem parseLine_error_zero_record (line : GoString) (r : Record) (e : Error)
    (h : parseLine line = .returns (r, some e)) : r = Record.zero := by
  rcases parseLine_cases line with ⟨i, hp⟩ | ⟨e', he⟩ | ⟨r', hr⟩
  · rw [hp] at h
    cases h
  · rw [he] at h
    injection h with h
    injection h with h1 h2
    exact h1.symm
  · rw [hr] at h
    injection h with h
    injection h with h1 h2
    cases h2

set_option maxRecDepth 100000 in
/-- Instance of C11: the line without the opening bracket of its timestamp
fails, and the Record returned is the zero Record. -/
theorem parseLine_error_zero_record_witness :
    parseLine noBracketLine
        = .returns (Record.zero, some (.time (str "01/Aug/1995:00:00:10 -0400]")))
      ∧ Record.zero = Record.zero :=
  ⟨by decide,
   parseLine_error_zero_record noBracketLine Record.zero
     (.time (str "01/Aug/1995:00:00:10 -0400]")) (by decide)⟩

/-- C12: `Query` over a source without a byte returns the empty result and no
error, for every Filter. -/
theorem Query_empty_source (filter : Filter) :
    Query (str "") filter = .returns ([], none) := rfl

/-! ### Claim C16 -/

/-- With seven tokens or more every index expression of `parseLine` is in
range, so the call returns. -/
theorem parseLine_returns_of_seven (line : GoString) (h : 7 ≤ (Fields line).length) :
    ∃ re, parseLine line = .returns re := by
  have hget : ∀ i, i < (Fields line).length → ∃ x, (Fields line)[i]? = some x := by
    intro i hi
    exact ⟨(Fields line)[i], List.getElem?_eq_getElem hi⟩
  obtain ⟨s, hs'⟩ := hget ((Fields line).length - 1) (by omega)
  have hs : (Fields line).getLast? = some s := by
    rw [List.getLast?_eq_getElem?]
    exact hs'
  obtain ⟨s2, hs2⟩ := hget ((Fields line).length - 2) (by omega)
  obtain ⟨f0, hf0⟩ := hget 0 (by omega)
  obtain ⟨f3, hf3⟩ := hget 3 (by omega)
  obtain ⟨f4, hf4⟩ := hget 4 (by omega)
  obtain ⟨f5, hf5⟩ := hget 5 (by omega)
  obtain ⟨f6, hf6⟩ := hget 6 (by omega)
  rcases hsz : sizeField s with ⟨size, _ | e⟩
  · rcases hc : Atoi s2 with ⟨code, _ | e⟩
    · rcases ht : timeParse (f3 ++ str " " ++ f4) with ⟨t, _ | e⟩
      · exact ⟨_, parseLine_ok_intro line s s2 f0 f3 f4 f5 f6 size code t hs hsz hs2 (by omega)
          hc hf3 hf4 ht hf0 hf5 (Fields_getElem?_length_pos line f5 5 hf5) hf6⟩
      · exact ⟨_, parseLine_time_error line s s2 f3 f4 size code t e hs hsz hs2 (by omega) hc
          hf3 hf4 ht⟩
    · exact ⟨_, parseLine_status_error line s s2 size code e hs hsz hs2 (by omega) hc⟩
  · exact ⟨_, parseLine_size_error line s size e hs hsz⟩

/-- C16: the tokens of `strings.Fields` are never empty, so with seven tokens or
more the slice `fields[5][1:]` is in range, and no index or slice expression
of `parseLine` fails: the call returns and does not panic. -/
theorem parseLine_no_panic (line : GoString) (h : 7 ≤ (Fields line).length) :
    (∀ t ∈ Fields line, 1 ≤ t.length)
    ∧ (∃ f5, (Fields line)[5]? = some f5 ∧ sliceFrom f5 1 = .returns (f5.drop 1))
    ∧ (∃ re, parseLine line = .returns re)
    ∧ ∀ p, parseLine line ≠ .panics p := by
  have hpos : ∀ t ∈ Fields line, 1 ≤ t.length := by
    intro t ht
    have := Fields_ne_nil line t ht
    cases t with
    | nil => exact absurd rfl this
    | cons c t => simp
  obtain ⟨re, hre⟩ := parseLine_returns_of_seven line h
  refine ⟨hpos, ⟨(Fields line)[5], List.getElem?_eq_getElem (by omega), ?_⟩, ⟨re, hre⟩, ?_⟩
  · have h5 := hpos (Fields line)[5] (List.getElem_mem _)
    unfold sliceFrom
    rw [if_pos h5]
  · intro p hp
    rw [hre] at hp
    cases hp

set_option maxRecDepth 100000 in
/-- Instance of C16: a line of exactly seven tokens. -/
theorem parseLine_no_panic_witness :
    7 ≤ (Fields sevenTokenLine).length
    ∧ (∀ t ∈ Fields sevenTokenLine, 1 ≤ t.length)
    ∧ (∃ f5, (Fields sevenTokenLine)[5]? = some f5 ∧ sliceFrom f5 1 = .returns (f5.drop 1))
    ∧ (∃ re, parseLine sevenTokenLine = .returns re)
    ∧ ∀ p, parseLine sevenTokenLine ≠ .panics p :=
  ⟨by decide, parseLine_no_panic sevenTokenLine (by decide)⟩

/-! ### Claims C17 and C18 -/

/-- C17: `parseLine` checks the size, then the status, then the timestamp, and
reports the first failure only. With last token `s` and the token `s2` before
it: if `s` is neither `-` nor an integer, the error returned is the size
error, naming `s`, whatever the status token and the timestamp are; if the
size is valid and `s2` is not an integer, the error returned is the status
error, naming `s2`, whatever the timestamp is; and the error of the timestamp
is returned only when both numbers are valid. -/
theorem parseLine_first_failure (line : GoString) (pre : List GoString) (s2 s : GoString)
    (hf : Fields line = pre ++ [s2, s]) :
    (s ≠ str "-" → isInt s = false →
      ∃ k, parseLine line = .returns (Record.zero, some (.num s k)))
    ∧ ((s = str "-" ∨ isInt s = true) → isInt s2 = false →
      ∃ k, parseLine line = .returns (Record.zero, some (.num s2 k)))
    ∧ (∀ r v, parseLine line = .returns (r, some (.time v)) →
      (s = str "-" ∨ isInt s = true) ∧ isInt s2 = true) := by
  have hs : (Fields line).getLast? = some s := by
    rw [hf]
    exact getLast?_append_pair pre s2 s
  have hs2 : (Fields line)[(Fields line).length - 2]? = some s2 := by
    rw [hf]
    exact getElem?_append_pair pre s2 s
  have hlen : 2 ≤ (Fields line).length := by
    rw [hf]
    simp
  have hsize : s ≠ str "-" → isInt s = false →
      ∃ k, parseLine line = .returns (Record.zero, some (.num s k)) := by
    intro hd hi
    obtain ⟨v, k, hk⟩ := Atoi_of_not_isInt s hi
    exact ⟨k, parseLine_size_error line s v _ hs (by rw [sizeField_of_ne_dash s hd, hk])⟩
  have hstatus : (s = str "-" ∨ isInt s = true) → isInt s2 = false →
      ∃ k, parseLine line = .returns (Record.zero, some (.num s2 k)) := by
    intro hv hi
    obtain ⟨size, hsz, _⟩ := sizeField_ok_of s hv
    obtain ⟨v, k, hk⟩ := Atoi_of_not_isInt s2 hi
    exact ⟨k, parseLine_status_error line s s2 size v _ hs hsz hs2 hlen hk⟩
  refine ⟨hsize, hstatus, ?_⟩
  intro r v h
  have hsv : s = str "-" ∨ isInt s = true := by
    by_cases hd : s = str "-"
    · exact Or.inl hd
    · rcases hi : isInt s with _ | _
      · obtain ⟨k, hk⟩ := hsize hd hi
        rw [hk] at h
        cases h
      · exact Or.inr rfl
  refine ⟨hsv, ?_⟩
  rcases hi : isInt s2 with _ | _
  · obtain ⟨k, hk⟩ := hstatus hsv hi
    rw [hk] at h
    cases h
  · rfl

set_option maxRecDepth 100000 in
/-- Instances of C17: with both numbers and the timestamp malformed the error
names the size token `xyz`; with a valid size, a malformed status and a
malformed timestamp it names the status token `abc`. -/
theorem parseLine_first_failure_witness :
    (∃ k, parseLine allBadLine = .returns (Record.zero, some (.num (str "xyz") k)))
    ∧ (∃ k, parseLine statusBadLine = .returns (Record.zero, some (.num (str "abc") k)))
    ∧ parseLayout (str "01/Aug/1995:00:00:10 -0400") = none :=
  ⟨(parseLine_first_failure allBadLine
      [str "h", str "-", str "-", str "01/Aug/1995:00:00:10", str "-0400", str "\"GET",
       str "/x", str "HTTP/1.0\""] (str "abc") (str "xyz") (by decide)).1
      (by decide) (by decide),
   (parseLine_first_failure statusBadLine
      [str "h", str "-", str "-", str "01/Aug/1995:00:00:10", str "-0400", str "\"GET",
       str "/x", str "HTTP/1.0\""] (str "abc") (str "1687") (by decide)).2.1
      (by decide) (by decide),
   by decide⟩

/-- Whether the loop of `Query` ends with an error or a panic, and with
which, does not depend on the filter nor on the records collected so far. -/
theorem queryLoop_failure_indep (f g : Filter) (scanErr : Option Error)
    (texts : List GoString) :
    ∀ (lNum : Nat) (res1 res2 : List Record),
      failure (queryLoop f scanErr texts lNum res1)
        = failure (queryLoop g scanErr texts lNum res2) := by
  induction texts with
  | nil =>
    intro lNum res1 res2
    cases scanErr <;> rfl
  | cons text rest ih =>
    intro lNum res1 res2
    rw [queryLoop, queryLoop]
    rcases hp : parseLine text with ⟨r, _ | e⟩ | p
    · exact ih _ _ _
    · rfl
    · rfl

/-- C18: whether `Query` fails, and with which error and line number, does not
depend on the filter: for any two filters the calls end with the same error,
or both without one. -/
theorem Query_failure_filter_independent (src : GoString) (f g : Filter) :
    failure (Query src f) = failure (Query src g) :=
  queryLoop_failure_indep f g (scan src).2 (scan src).1 0 [] []

set_option maxRecDepth 100000 in
/-- Instance of C18: the malformed third line of `thirdLineBad` aborts the
query for a filter that no line matches, as it does for the empty filter. -/
theorem Query_failure_filter_independent_witness :
    failure (Query thirdLineBad ⟨str "zzz"⟩)
        = .returns (some (.wrapped 3 (.num (str "12x") .syntaxErr)))
    ∧ ∀ l ∈ lines thirdLineBad, ∀ r, parsed l = some r → (Filter.mk (str "zzz")).Match r = false :=
  ⟨(Query_failure_filter_independent thirdLineBad ⟨str "zzz"⟩ ⟨[]⟩).trans (by decide),
   by decide⟩

/-! ### White space between tokens -/

set_option maxRecDepth 100000 in
theorem IsSpace_ascii : ∀ b : Byte, b.val < 0x80 → IsSpace b.val = isAsciiSpace b := by
  decide

theorem isAsciiSpace_lt : ∀ b : Byte, isAsciiSpace b = true → b.val < 0x80 := by
  intro b h
  unfold isAsciiSpace at h
  simp only [Bool.or_eq_true, Bool.and_eq_true, decide_eq_true_eq] at h
  omega

theorem DecodeRuneInString_ascii (b : Byte) (s : GoString) (h : b.val < 0x80) :
    DecodeRuneInString (b :: s) = (b.val, 1) := by
  rcases DecodeRuneInString_cons b s with ⟨_, hd⟩ | ⟨hge, _⟩
  · exact hd
  · omega

theorem fieldsLoop_nil (n : Nat) (cur : GoString) : fieldsLoop n [] cur = flush cur := by
  cases n <;> rw [fieldsLoop]

theorem fieldsLoop_space (n : Nat) (b : Byte) (s cur : GoString) (h : isAsciiSpace b = true) :
    fieldsLoop (n + 1) (b :: s) cur = flush cur ++ fieldsLoop n s [] := by
  have hlt := isAsciiSpace_lt b h
  have hsp : IsSpace b.val = true := by rw [IsSpace_ascii b hlt, h]
  rw [fieldsLoop]
  simp only [DecodeRuneInString_ascii b s hlt, hsp, if_true, List.drop_one, List.tail_cons]

theorem fieldsLoop_plain (n : Nat) (b : Byte) (s cur : GoString) (h : isPlain b = true) :
    fieldsLoop (n + 1) (b :: s) cur = fieldsLoop n s (cur ++ [b]) := by
  unfold isPlain at h
  simp only [Bool.and_eq_true, decide_eq_true_eq, Bool.not_eq_true'] at h
  have hsp : IsSpace b.val = false := by rw [IsSpace_ascii b h.1, h.2]
  rw [fieldsLoop]
  simp only [DecodeRuneInString_ascii b s h.1, hsp, List.drop_one, List.tail_cons,
    List.take_succ_cons, List.take_zero, Bool.false_eq_true, if_false]

theorem fieldsLoop_spaces (w : GoString) (hw : w.all isAsciiSpace = true) (n : Nat)
    (s : GoString) : fieldsLoop (w.length + n) (w ++ s) [] = fieldsLoop n s [] := by
  induction w with
  | nil => simp
  | cons b w ih =>
    rw [List.all_cons, Bool.and_eq_true] at hw
    rw [List.length_cons, List.cons_append, show w.length + 1 + n = (w.length + n) + 1 by omega,
      fieldsLoop_space _ b _ _ hw.1, ih hw.2]
    rfl

theorem fieldsLoop_token (t : GoString) (ht : t.all isPlain = true) (n : Nat) :
    ∀ (s cur : GoString), fieldsLoop (t.length + n) (t ++ s) cur = fieldsLoop n s (cur ++ t) := by
  induction t with
  | nil => simp
  | cons b t ih =>
    intro s cur
    rw [List.all_cons, Bool.and_eq_true] at ht
    rw [List.length_cons, List.cons_append, show t.length + 1 + n = (t.length + n) + 1 by omega,
      fieldsLoop_plain _ b _ _ ht.1, ih ht.2]
    simp

theorem fieldsLoop_separator (w : GoString) (hw : w.all isAsciiSpace = true) (hne : w ≠ [])
    (n : Nat) (s cur : GoString) (hcur : cur ≠ []) :
    fieldsLoop (w.length + n) (w ++ s) cur = cur :: fieldsLoop n s [] := by
  cases w with
  | nil => exact absurd rfl hne
  | cons b w =>
    rw [List.all_cons, Bool.and_eq_true] at hw
    rw [List.length_cons, List.cons_append, show w.length + 1 + n = (w.length + n) + 1 by omega,
      fieldsLoop_space _ b _ _ hw.1, fieldsLoop_spaces w hw.2, flush, if_neg hcur]
    rfl

theorem fieldsLoop_parts (parts : List (GoString × GoString)) (h : wellSpaced parts = true) :
    fieldsLoop ((parts.map fun p => p.1 ++ p.2).flatten).length
        ((parts.map fun p => p.1 ++ p.2).flatten) []
      = parts.map fun p => p.1 := by
  induction parts with
  | nil => rfl
  | cons p rest ih =>
    cases rest with
    | nil =>
      simp only [wellSpaced, Bool.and_eq_true, Bool.not_eq_true', List.isEmpty_eq_false] at h
      obtain ⟨⟨hne, hplain⟩, hsp⟩ := h
      have hne' : p.1 ≠ [] := by
        intro h0
        rw [h0] at hne
        simp at hne
      simp only [List.map_cons, List.map_nil, List.flatten_cons, List.flatten_nil,
        List.append_nil, List.length_append]
      rw [fieldsLoop_token p.1 hplain, List.nil_append]
      by_cases hw : p.2 = []
      · rw [hw, List.length_nil, fieldsLoop_nil, flush, if_neg hne']
      · have := fieldsLoop_separator p.2 hsp hw 0 [] p.1 hne'
        rw [Nat.add_zero, List.append_nil] at this
        rw [this, fieldsLoop_nil, flush, if_pos rfl]
    | cons q rest =>
      simp only [wellSpaced, Bool.and_eq_true, Bool.not_eq_true', List.isEmpty_eq_false] at h
      obtain ⟨⟨⟨⟨hne, hplain⟩, hsp⟩, hw⟩, hrest⟩ := h
      have hne' : p.1 ≠ [] := by
        intro h0
        rw [h0] at hne
        simp at hne
      have hw' : p.2 ≠ [] := by
        intro h0
        rw [h0] at hw
        simp at hw
      have ih' := ih hrest
      rw [List.map_cons, List.flatten_cons, List.length_append, List.length_append,
        List.append_assoc, Nat.add_assoc, fieldsLoop_token p.1 hplain, List.nil_append,
        fieldsLoop_separator p.2 hsp hw' _ _ p.1 hne', ih']
      rfl

/-- The tokens of a line written as tokens of plain bytes with runs of white
space before, between and after them. -/
theorem Fields_spaced (lead : GoString) (parts : List (GoString × GoString))
    (hl : lead.all isAsciiSpace = true) (h : wellSpaced parts = true) :
    Fields (spaced lead parts) = parts.map fun p => p.1 := by
  unfold Fields spaced
  rw [List.length_append, fieldsLoop_spaces lead hl, fieldsLoop_parts parts h]

/-! ### Claim C19 -/

/-- C19: `parseLine` depends on the line only through its token sequence. Two
lines with the same tokens give the same outcome; in particular, for lines
whose tokens are of plain ASCII bytes, the white space before the first
token, after the last one, and the kind and the amount of it between two
tokens play no part. -/
theorem parseLine_tokens_only :
    (∀ a b : GoString, Fields a = Fields b → parseLine a = parseLine b)
    ∧ (∀ (lead1 lead2 : GoString) (parts1 parts2 : List (GoString × GoString)),
        lead1.all isAsciiSpace = true → lead2.all isAsciiSpace = true →
        wellSpaced parts1 = true → wellSpaced parts2 = true →
        (parts1.map fun p => p.1) = (parts2.map fun p => p.1) →
        parseLine (spaced lead1 parts1) = parseLine (spaced lead2 parts2)) := by
  refine ⟨parseLine_congr, ?_⟩
  intro lead1 lead2 parts1 parts2 h1 h2 hp1 hp2 heq
  apply parseLine_congr
  rw [Fields_spaced lead1 parts1 h1 hp1, Fields_spaced lead2 parts2 h2 hp2, heq]

set_option maxRecDepth 100000 in
/-- Instance of C19: the sample line written with leading tabs, runs of spaces
and tabs between its tokens and a trailing carriage return parses as the
sample line does. -/
theorem parseLine_tokens_only_witness :
    respacedLine ≠ sampleLine ∧ parseLine respacedLine = parseLine sampleLine :=
  ⟨by decide, parseLine_tokens_only.1 respacedLine sampleLine (by decide)⟩


/-! ### Claim C20 -/

theorem color_queryLoop_eq (filter : Filter) (scanErr : Option Error) (texts : List GoString) :
    ∀ (lNum : Nat) (result : List Record),
      color.queryLoop filter scanErr texts lNum result
        = queryLoop filter scanErr texts lNum result := by
  induction texts with
  | nil =>
    intro lNum result
    rfl
  | cons text rest ih =>
    intro lNum result
    rw [color.queryLoop, queryLoop]
    simp only [ih]
    rfl

theorem genlogs_parseLine_eq (line : GoString) : genlogs.parseLine line = parseLine line := by
  unfold genlogs.parseLine parseLine
  dsimp only
  congr 1
  funext s
  split
  · rfl
  · congr 1
    funext s2
    split
    · rfl
    · congr 1
      funext f3
      congr 1
      funext f4
      unfold parseTime
      rcases timeParse (f3 ++ str " " ++ f4) with ⟨t, _ | e⟩ <;> rfl

/-- C20: the copies of the program agree. On every line `parseLine` of
color/main.go and `parseLine` of genlogs/main.go, which reads the timestamp
through `parseTime`, end as `parseLine` of help/main.go does, with the same
Record, the same error or the same panic; `Filter.Match` of color/main.go is
`Filter.Match` of help/main.go; and on every source and filter `Query` of
color/main.go ends as `Query` of help/main.go does. -/
theorem copies_agree :
    (∀ line : GoString, color.parseLine line = parseLine line)
    ∧ (∀ line : GoString, genlogs.parseLine line = parseLine line)
    ∧ (∀ (f : Filter) (r : Record), color.Filter.Match f r = f.Match r)
    ∧ (∀ (src : GoString) (f : Filter), color.Query src f = Query src f) :=
  ⟨fun _ => rfl, genlogs_parseLine_eq, fun _ _ => rfl,
   fun src f => color_queryLoop_eq f (scan src).2 (scan src).1 0 []⟩

/-! ### `strings.Index` and claim C14 -/

/-- The search loop finds the first occurrence: either there is none and the
result is `-1`, or the result is the offset of an occurrence before which no
other starts. -/
theorem indexFrom_spec (substr : GoString) : ∀ (s : GoString) (i : Nat),
    (indexFrom substr s i = -1 ∧ ¬ substr <:+: s)
    ∨ ∃ pre post, s = pre ++ substr ++ post
        ∧ indexFrom substr s i = ((i + pre.length : Nat) : Int)
        ∧ ∀ pre' post', s = pre' ++ substr ++ post' → pre.length ≤ pre'.length := by
  intro s
  induction s with
  | nil =>
    intro i
    rw [indexFrom]
    by_cases h : substr = []
    · right
      refine ⟨[], [], by simp [h], by simp [h], by simp⟩
    · left
      rw [if_neg h]
      exact ⟨rfl, fun hin => h (List.infix_nil.mp hin)⟩
  | cons c s ih =>
    intro i
    rw [indexFrom]
    by_cases hp : substr.isPrefixOf (c :: s) = true
    · right
      rw [if_pos hp]
      obtain ⟨post, hpost⟩ := List.isPrefixOf_iff_prefix.mp hp
      exact ⟨[], post, by simp [hpost], by simp, by simp⟩
    · rw [if_neg hp]
      have hnp : ¬ substr <+: c :: s := fun h => hp (List.isPrefixOf_iff_prefix.mpr h)
      rcases ih (i + 1) with ⟨h1, hn⟩ | ⟨pre, post, hs, hi, hmin⟩
      · left
        refine ⟨h1, fun hin => ?_⟩
        rcases List.infix_cons_iff.mp hin with h | h
        · exact hnp h
        · exact hn h
      · right
        refine ⟨c :: pre, post, by rw [hs]; rfl, ?_, ?_⟩
        · rw [hi, List.length_cons]
          congr 1
          omega
        · intro pre' post' h'
          cases pre' with
          | nil =>
            exact absurd ⟨post', by rw [h']; simp⟩ hnp
          | cons d p =>
            rw [List.cons_append, List.cons_append] at h'
            have := hmin p post' (List.cons.inj h').2
            simp only [List.length_cons]
            omega

/-- C14: `colorize(s, term)` returns `s` unchanged when `term` does not occur
in `s`; otherwise it cuts `s` at the first occurrence of `term` and returns
the part before it, `ESC[31m`, `term`, `ESC[39m` and the part after it, so
that only the first occurrence is wrapped and the result without the two
inserted sequences is `s`. It never panics. -/
theorem colorize_spec (s term : GoString) :
    (¬ term <:+: s → colorize s term = .returns s)
    ∧ (term <:+: s → ∃ pre post, s = pre ++ term ++ post
        ∧ (∀ pre' post', s = pre' ++ term ++ post' → pre.length ≤ pre'.length)
        ∧ colorize s term = .returns (pre ++ red ++ term ++ reset ++ post)) := by
  rcases indexFrom_spec term s 0 with ⟨h1, hn⟩ | ⟨pre, post, hs, hi, hmin⟩
  · refine ⟨fun _ => ?_, fun h => absurd h hn⟩
    unfold colorize Index
    simp only [h1, if_true]
  · have hin : term <:+: s := ⟨pre, post, hs.symm⟩
    refine ⟨fun h => absurd hin h, fun _ => ⟨pre, post, hs, hmin, ?_⟩⟩
    rw [Nat.zero_add] at hi
    have hne : ¬ ((pre.length : Nat) : Int) = -1 := by omega
    have hlen : s.length = pre.length + term.length + post.length := by
      rw [hs]
      simp only [List.length_append]
    have htake : s.take pre.length = pre := by
      rw [hs, List.append_assoc, List.take_left]
    have hdrop : s.drop (pre.length + term.length) = post := by
      rw [hs, ← List.length_append, List.drop_left]
    have h2 : (((pre.length : Nat) : Int) + ((term.length : Nat) : Int)).toNat
        = pre.length + term.length := by omega
    unfold colorize Index
    simp only [hi, hne, if_false, sliceTo, sliceFrom, h2]
    rw [if_pos (by omega), if_pos (by omega)]
    simp only [Exec.andThen, Int.toNat_ofNat, htake, hdrop]

set_option maxRecDepth 100000 in
/-- Instance of C14: in `/history/skylab/skylab.html` only the first `skylab`
is wrapped, and a term that does not occur leaves the path as it is. -/
theorem colorize_spec_witness :
    colorize (str "/history/skylab/skylab.html") (str "skylab")
        = .returns (str "/history/" ++ red ++ str "skylab" ++ reset ++ str "/skylab.html")
    ∧ colorize (str "/history/skylab/skylab.html") (str "apollo")
        = .returns (str "/history/skylab/skylab.html") :=
  ⟨by decide,
   (colorize_spec (str "/history/skylab/skylab.html") (str "apollo")).1
     (by rw [← Contains_iff_infix]; decide)⟩

/-! ### Claim C15 -/

/-- C15, amended for lines of nine tokens: for a line of seven tokens or more,
with last token `s`, the token `s2` before it and the tokens `f0`, `f3`, `f4`,
`f5`, `f6` at positions 0, 3, 4, 5 and 6, `parseLine` succeeds exactly when
`s` is `-` or an integer, `s2` is an integer and `f3`, a space and `f4` write a
valid timestamp; it then returns Origin `f0`, Method `f5` without its first
byte, Path `f6`, StatusCode the value of `s2` and Size the value of `s` (0 for
`-`). With exactly seven tokens `f5` is the status token and `f6` the size
token; with exactly eight tokens `f6` is the status token; with exactly nine
tokens the status and the size token are tokens 7 and 8, after `f5` and `f6`. -/
theorem parseLine_accepts_iff (line s s2 f0 f3 f4 f5 f6 : GoString)
    (h7 : 7 ≤ (Fields line).length)
    (hs : (Fields line)[(Fields line).length - 1]? = some s)
    (hs2 : (Fields line)[(Fields line).length - 2]? = some s2)
    (hf0 : (Fields line)[0]? = some f0)
    (hf3 : (Fields line)[3]? = some f3) (hf4 : (Fields line)[4]? = some f4)
    (hf5 : (Fields line)[5]? = some f5) (hf6 : (Fields line)[6]? = some f6) :
    ((∃ r, parseLine line = .returns (r, none)) ↔
        (s = str "-" ∨ isInt s = true) ∧ isInt s2 = true
          ∧ ∃ st, Written (f3 ++ str " " ++ f4) st ∧ st.Valid)
    ∧ (∀ r, parseLine line = .returns (r, none) →
        r.Origin = f0 ∧ r.Method = f5.drop 1 ∧ r.Path = f6
          ∧ r.StatusCode = intValue s2
          ∧ r.Size = (if s = str "-" then 0 else intValue s))
    ∧ ((Fields line).length = 7 → f5 = s2 ∧ f6 = s)
    ∧ ((Fields line).length = 8 → f6 = s2)
    ∧ ((Fields line).length = 9 →
        (Fields line)[7]? = some s2 ∧ (Fields line)[8]? = some s) := by
  have hinv : ∀ r, parseLine line = .returns (r, none) →
      ∃ size code t,
        (if s = str "-" then ((0 : Int), (none : Option Error)) else Atoi s) = (size, none)
        ∧ Atoi s2 = (code, none) ∧ timeParse (f3 ++ str " " ++ f4) = (t, none)
        ∧ r = { Origin := f0, Method := f5.drop 1, Path := f6, StatusCode := code,
                Time := t.UTC, Size := size } := by
    intro r h
    obtain ⟨s', s2', f0', f3', f4', f5', f6', size, code, t, hs', _, hsize, hs2', _, hcode, hf3',
      hf4', ht, hf0', hf5', _, hf6', hr⟩ := parseLine_ok_inv line r h
    obtain rfl : s' = s := Option.some.inj (hs'.symm.trans hs)
    obtain rfl : s2' = s2 := Option.some.inj (hs2'.symm.trans hs2)
    obtain rfl : f0' = f0 := Option.some.inj (hf0'.symm.trans hf0)
    obtain rfl : f3' = f3 := Option.some.inj (hf3'.symm.trans hf3)
    obtain rfl : f4' = f4 := Option.some.inj (hf4'.symm.trans hf4)
    obtain rfl : f5' = f5 := Option.some.inj (hf5'.symm.trans hf5)
    obtain rfl : f6' = f6 := Option.some.inj (hf6'.symm.trans hf6)
    exact ⟨size, code, t, hsize, hcode, ht, hr⟩
  refine ⟨⟨?_, ?_⟩, ?_, ?_, ?_, ?_⟩
  · rintro ⟨r, h⟩
    obtain ⟨size, code, t, hsize, hcode, ht, _⟩ := hinv r h
    refine ⟨?_, ((Atoi_eq_ok s2 code).mp hcode).1, ?_⟩
    · by_cases hd : s = str "-"
      · exact Or.inl hd
      · rw [if_neg hd] at hsize
        exact Or.inr ((Atoi_eq_ok s size).mp hsize).1
    · obtain ⟨st, hw, hv, _⟩ := (parseLayout_eq_some_iff line f3 f4 t (List.getElem?_mem hf3)
        (List.getElem?_mem hf4)).mp ((timeParse_eq_ok _ _).mp ht)
      exact ⟨st, hw, hv⟩
  · rintro ⟨hsv, hi2, st, hw, hv⟩
    obtain ⟨size, hsz, _⟩ := sizeField_ok_of s hsv
    have ht := (timeParse_eq_ok _ _).mpr ((parseLayout_eq_some_iff line f3 f4 _
      (List.getElem?_mem hf3) (List.getElem?_mem hf4)).mpr ⟨st, hw, hv, rfl⟩)
    have hlast : (Fields line).getLast? = some s := by
      rw [List.getLast?_eq_getElem?]
      exact hs
    exact ⟨_, parseLine_ok_intro line s s2 f0 f3 f4 f5 f6 size _ _ hlast hsz hs2 (by omega)
      (Atoi_of_isInt s2 hi2) hf3 hf4 ht hf0 hf5 (Fields_getElem?_length_pos line f5 5 hf5) hf6⟩
  · intro r h
    obtain ⟨size, code, t, hsize, hcode, ht, hr⟩ := hinv r h
    rw [hr]
    refine ⟨rfl, rfl, rfl, ((Atoi_eq_ok s2 code).mp hcode).2.symm, ?_⟩
    by_cases hd : s = str "-"
    · rw [if_pos hd] at hsize
      rw [if_pos hd]
      exact (congrArg Prod.fst hsize).symm
    · rw [if_neg hd] at hsize
      rw [if_neg hd]
      exact ((Atoi_eq_ok s size).mp hsize).2.symm
  · intro hlen
    rw [hlen] at hs hs2
    exact ⟨Option.some.inj (hf5.symm.trans hs2), Option.some.inj (hf6.symm.trans hs)⟩
  · intro hlen
    rw [hlen] at hs2
    exact Option.some.inj (hf6.symm.trans hs2)
  · intro hlen
    rw [hlen] at hs hs2
    exact ⟨hs2, hs⟩

set_option maxRecDepth 100000 in
/-- Instance of C15: the line of seven tokens is accepted; its Method is the
status token `200` without its first byte and its Path is the size token `1`. -/
theorem parseLine_accepts_iff_witness :
    (Fields sevenTokenLine).length = 7
    ∧ parseLine sevenTokenLine = .returns
        ({ Origin := str "h", Time := Date 1995 8 1 4 0 10 0, Method := str "00",
           Path := str "1", StatusCode := 200, Size := 1 }, none)
    ∧ ((∃ r, parseLine sevenTokenLine = .returns (r, none)) ↔
        (str "1" = str "-" ∨ isInt (str "1") = true) ∧ isInt (str "200") = true
          ∧ ∃ st, Written (str "[01/Aug/1995:00:00:10" ++ str " " ++ str "-0400]") st
              ∧ st.Valid) :=
  ⟨by decide, by decide,
   (parseLine_accepts_iff sevenTokenLine (str "1") (str "200") (str "h")
      (str "[01/Aug/1995:00:00:10") (str "-0400]") (str "200") (str "1")
      (by decide) (by decide) (by decide) (by decide) (by decide) (by decide) (by decide)
      (by decide)).1⟩

set_option maxRecDepth 100000 in
/-- C15 as stated fails for nine tokens: `nineTokenLine` has nine tokens and
is accepted, yet its Method `GET` and its Path `/x` come from tokens 5 and 6,
while the status token `200` and the size token `1` are tokens 7 and 8; no
status or size token is reused. -/
theorem parseLine_nineTokenLine :
    (Fields nineTokenLine).length = 9
    ∧ parseLine nineTokenLine = .returns
        ({ Origin := str "h", Time := Date 1995 8 1 4 0 10 0, Method := str "GET",
           Path := str "/x", StatusCode := 200, Size := 1 }, none)
    ∧ (Fields nineTokenLine)[7]? = some (str "200")
    ∧ (Fields nineTokenLine)[8]? = some (str "1")
    ∧ (Fields nineTokenLine)[5]? = some (str "\"GET")
    ∧ (Fields nineTokenLine)[6]? = some (str "/x") := by
  decide

/-! ### The pattern of the SQL query and claim C13 -/

theorem anySuffix_iff (f : GoString → Bool) (s : GoString) :
    logs.anySuffix f s = true ↔ ∃ t, t <:+ s ∧ f t = true := by
  induction s with
  | nil =>
    rw [logs.anySuffix]
    constructor
    · intro h
      exact ⟨[], List.suffix_refl _, h⟩
    · rintro ⟨t, ht, hf⟩
      rw [List.suffix_nil.mp ht] at hf
      exact hf
  | cons c s ih =>
    rw [logs.anySuffix, Bool.or_eq_true, ih]
    constructor
    · rintro (h | ⟨t, ht, hf⟩)
      · exact ⟨c :: s, List.suffix_refl _, h⟩
      · exact ⟨t, ht.trans (List.suffix_cons c s), hf⟩
    · rintro ⟨t, ht, hf⟩
      rcases List.suffix_cons_iff.mp ht with h | h
      · left
        rw [h] at hf
        exact hf
      · exact Or.inr ⟨t, h, hf⟩

theorem like_percent (ps s : GoString) :
    logs.like (logs.percent :: ps) s = logs.anySuffix (logs.like ps) s := by
  rw [logs.like]
  simp only [if_true]

/-- A run of pattern bytes without `%` and `_` stands for itself. -/
theorem like_literal (p : GoString) (hp : logs.percent ∉ p) (hu : logs.underscore ∉ p)
    (rest : GoString) : ∀ s : GoString,
    logs.like (p ++ rest) s = true ↔ ∃ t, s = p ++ t ∧ logs.like rest t = true := by
  induction p with
  | nil =>
    intro s
    simp
  | cons c p ih =>
    intro s
    have hc1 : ¬ c = logs.percent := fun h => hp (by rw [h]; exact List.mem_cons_self _ _)
    have hc2 : ¬ c = logs.underscore := fun h => hu (by rw [h]; exact List.mem_cons_self _ _)
    have ih' := ih (fun h => hp (List.mem_cons_of_mem _ h)) (fun h => hu (List.mem_cons_of_mem _ h))
    rw [List.cons_append, logs.like]
    simp only [hc1, hc2, if_false]
    cases s with
    | nil => simp
    | cons d t =>
      simp only [Bool.and_eq_true, decide_eq_true_eq, ih' t, List.cons_append, List.cons.injEq]
      constructor
      · rintro ⟨rfl, u, rfl, hl⟩
        exact ⟨u, ⟨rfl, rfl⟩, hl⟩
      · rintro ⟨u, ⟨rfl, rfl⟩, hl⟩
        exact ⟨rfl, u, rfl, hl⟩

/-- For a filter path without `%` and `_` the pattern of `logs.Query` selects
the paths that contain the filter path. -/
theorem like_pathQuery_of_plain (f : Filter) (path : GoString)
    (hp : logs.percent ∉ f.Path) (hu : logs.underscore ∉ f.Path) :
    logs.like (logs.pathQuery f) path = Contains path f.Path := by
  have hq : logs.pathQuery f = logs.percent :: (f.Path ++ [logs.percent]) := rfl
  rw [Bool.eq_iff_iff, hq, like_percent, anySuffix_iff, Contains_iff_infix,
    List.infix_iff_prefix_suffix]
  constructor
  · rintro ⟨t, ht, hl⟩
    obtain ⟨u, hu', _⟩ := (like_literal f.Path hp hu [logs.percent] t).mp hl
    exact ⟨t, ⟨u, hu'.symm⟩, ht⟩
  · rintro ⟨t, ⟨u, hu'⟩, ht⟩
    refine ⟨t, ht, (like_literal f.Path hp hu [logs.percent] t).mpr ⟨u, hu'.symm, ?_⟩⟩
    rw [like_percent, anySuffix_iff]
    exact ⟨[], List.nil_suffix, rfl⟩

set_option maxRecDepth 100000 in
/-- C13 fails in the code: the query of logs/logs.go has the semantics of
`Filter.Match` for a filter path without `%` and `_`, and not otherwise. The
pattern built for `sky_lab` selects the path `/sky-lab.html`, which does not
contain `sky_lab`, and the pattern built for `100%` selects `/100.html`, which
does not contain `100%`: `logs.Query` returns the row where `Filter.Match` is
false. -/
theorem like_wildcard_mismatch :
    (∀ (f : Filter) (r : Record), logs.percent ∉ f.Path → logs.underscore ∉ f.Path →
      logs.like (logs.pathQuery f) r.Path = f.Match r)
    ∧ logs.like (logs.pathQuery ⟨str "sky_lab"⟩) (str "/sky-lab.html") = true
    ∧ (Filter.mk (str "sky_lab")).Match { Record.zero with Path := str "/sky-lab.html" } = false
    ∧ logs.Query [{ Record.zero with Path := str "/sky-lab.html" }] ⟨str "sky_lab"⟩
        = ([{ Record.zero with Path := str "/sky-lab.html" }], none)
    ∧ logs.like (logs.pathQuery ⟨str "100%"⟩) (str "/100.html") = true
    ∧ (Filter.mk (str "100%")).Match { Record.zero with Path := str "/100.html" } = false :=
  ⟨fun f r hp hu => like_pathQuery_of_plain f r.Path hp hu, by decide, by decide, by decide,
   by decide, by decide⟩

end Cmdline
